import Mathlib

/-!
# libgo: shallow embeddings of the timing wheel, the TCP stream, the JSON decoder and the service registry

## `timer/timing-wheel.go`

The wheel is a slice of buckets, each bucket a slice of `*Timer`.  Timers are
shared by pointer, so the embedding keeps them in a heap indexed by `TimerPtr`
and lets buckets hold pointers.  A call of `t.callback.TimerHandler()` is an
observable event: it is recorded, in order, in the `fired` trace of the state
(the callback itself is user code outside the wheel and is assumed not to touch
the wheel or the timers).

Go's `int` and `protocol.Duration` are 64-bit two's-complement integers: they
are `Int` here, wrapped explicitly by `wrapInt64` where the source computes.
A Go panic is the `Result.panic` outcome, carrying the state reached at the
moment of the panic.
-/

namespace timer

/-- Address of a `Timer` (`*Timer` in the source). -/
abbrev TimerPtr := Nat

/-- The fields of `Timer` the wheel reads and writes (`t.period`, `t.periodNumber`). -/
structure Timer where
  period : Int
  periodNumber : Int
deriving DecidableEq, Repr

/-- The struct `TimingWheel` without its ticker and stop channel. -/
structure TimingWheel where
  wheelSize : Int
  wheel : List (List TimerPtr)
  interval : Int
  pos : Int
deriving DecidableEq, Repr

/-- Program state: the wheel, the heap of timers and the trace of callback invocations. -/
structure State where
  tw : TimingWheel
  heap : TimerPtr → Timer
  fired : List TimerPtr

/-- Runtime failures of the wheel's code. -/
inductive Panic where
  | badTimeout        -- the explicit `panic("timer - wheel: try to add a timer with bad timeout ...")`
  | indexOutOfRange   -- slice index out of range
  | divideByZero      -- integer divide by zero
deriving DecidableEq, Repr

/-- Outcome of running a piece of the wheel's code. -/
inductive Result where
  | ok (s : State)
  | panic (p : Panic) (s : State)

/-- State in which the code returned or panicked. -/
def Result.state : Result → State
  | .ok s => s
  | .panic _ s => s

/-- Whether the code returned normally. -/
def Result.isOk : Result → Bool
  | .ok _ => true
  | .panic _ _ => false

/-- Two's-complement wrap of an integer into the range of Go's 64-bit `int`. -/
def wrapInt64 (x : Int) : Int :=
  (x + 9223372036854775808) % 18446744073709551616 - 9223372036854775808

/-- Values representable in a 64-bit signed integer. -/
def inInt64 (x : Int) : Prop :=
  -9223372036854775808 ≤ x ∧ x < 9223372036854775808

instance (x : Int) : Decidable (inInt64 x) := by unfold inInt64; infer_instance

/-- Index into a slice: `none` is the runtime's index-out-of-range panic. -/
def bucketIndex (wheel : List (List TimerPtr)) (a : Int) : Option Nat :=
  if 0 ≤ a ∧ a < (wheel.length : Int) then some a.toNat else none

/-- The statement `wheel[i] = append(wheel[i], t)`. -/
def appendAt (wheel : List (List TimerPtr)) (i : Nat) (t : TimerPtr) : List (List TimerPtr) :=
  wheel.set i (wheel.getD i [] ++ [t])

/-- The call `t.callback.TimerHandler()`, recorded in the trace. -/
def TimerHandler (s : State) (t : TimerPtr) : State :=
  { s with fired := s.fired ++ [t] }

/-- The zero value of the struct `TimingWheel`. -/
def zeroWheel : TimingWheel :=
  { wheelSize := 0, wheel := [], interval := 0, pos := 0 }

/-- Source `TimingWheel.Init`: sets `wheelSize`, `interval` and a wheel of `wheelSize` nil
buckets and leaves the cursor as it is; `none` is the panic of `make` on a negative length. -/
def Init (tw : TimingWheel) (interval : Int) (wheelSize : Int) : Option TimingWheel :=
  if wheelSize < 0 then none
  else some { tw with wheelSize := wheelSize, wheel := List.replicate wheelSize.toNat [],
                      interval := interval }

/-- Source `TimingWheel.addedPosition`: `int(t.period/tw.interval) + tw.pos`, with Go's
truncated division; `none` is the divide-by-zero panic. -/
def addedPosition (tw : TimingWheel) (t : Timer) : Option Int :=
  if tw.interval = 0 then none
  else some (wrapInt64 (wrapInt64 (t.period.tdiv tw.interval) + tw.pos))

/-- Source `TimingWheel.checkAndAddTimerAgain`.  `reset` is `Timer.reset`, whose body is
not part of the wheel's source file. -/
def checkAndAddTimerAgain (reset : Timer → Timer) (s : State) (t : TimerPtr) : Result :=
  if (s.heap t).periodNumber = 0 then
    .ok { s with heap := Function.update s.heap t (reset (s.heap t)) }
  else
    match addedPosition s.tw (s.heap t) with
    | none => .panic .divideByZero s
    | some a =>
      match bucketIndex s.tw.wheel a with
      | none => .panic .indexOutOfRange s
      | some i =>
        let s1 : State := { s with tw := { s.tw with wheel := appendAt s.tw.wheel i t } }
        let tm : Timer := s1.heap t
        if tm.periodNumber > 0 then
          .ok { s1 with heap := Function.update s1.heap t
                                  { tm with periodNumber := tm.periodNumber - 1 } }
        else .ok s1

/-- Source `TimingWheel.AddTimer`. -/
def AddTimer (reset : Timer → Timer) (s : State) (t : TimerPtr) : Result :=
  match addedPosition s.tw (s.heap t) with
  | none => .panic .divideByZero s
  | some a =>
    if a > s.tw.wheelSize then .panic .badTimeout s
    else if a = s.tw.pos then checkAndAddTimerAgain reset (TimerHandler s t) t
    else
      match bucketIndex s.tw.wheel a with
      | none => .panic .indexOutOfRange s
      | some i => .ok { s with tw := { s.tw with wheel := appendAt s.tw.wheel i t } }

/-- Source `TimingWheel.incrementTickPosition`. -/
def incrementTickPosition (tw : TimingWheel) : TimingWheel :=
  if (tw.wheel.length : Int) - 1 = tw.pos then { tw with pos := 0 }
  else { tw with pos := wrapInt64 (tw.pos + 1) }

/-- The `for i := 0; i < len(timers); i++` loop of `Start`: fire and rearm each captured
timer in slice order.  (`tw.wheel[pos] = timers[:0]` shares its backing array with
`timers`; a rearm into that bucket writes at most at the index being processed, so the
captured elements still to be read are never overwritten.) -/
def fireAll (reset : Timer → Timer) : List TimerPtr → State → Result
  | [], s => .ok s
  | t :: ts, s =>
    match checkAndAddTimerAgain reset (TimerHandler s t) t with
    | .ok s1 => fireAll reset ts s1
    | .panic p s1 => .panic p s1

/-- One iteration of the `case <-tw.ticker.Signal()` branch of `Start`. -/
def tick (reset : Timer → Timer) (s : State) : Result :=
  let pos := s.tw.pos
  let tw1 := incrementTickPosition s.tw
  match bucketIndex tw1.wheel pos with
  | none => .panic .indexOutOfRange { s with tw := tw1 }
  | some i =>
    fireAll reset (tw1.wheel.getD i []) { s with tw := { tw1 with wheel := tw1.wheel.set i [] } }

/-- The loop of `Start` for `n` ticker signals. -/
def Start (reset : Timer → Timer) : Nat → State → Result
  | 0, s => .ok s
  | n + 1, s =>
    match tick reset s with
    | .ok s1 => Start reset n s1
    | .panic p s1 => .panic p s1

/-- Number of occurrences of timer `t` in bucket `j`. -/
def cnt (s : State) (j : Nat) (t : TimerPtr) : Nat :=
  (s.tw.wheel.getD j []).count t

/-- The timer is in no bucket of the wheel. -/
def notPending (s : State) (t : TimerPtr) : Prop :=
  ∀ b ∈ s.tw.wheel, t ∉ b

instance (s : State) (t : TimerPtr) : Decidable (notPending s t) := by
  unfold notPending; infer_instance

/-- A wheel as `Init` builds it and ticks keep it: one bucket per unit of `wheelSize`,
a positive interval and a cursor inside the wheel. -/
structure TimingWheel.WF (tw : TimingWheel) : Prop where
  len : (tw.wheel.length : Int) = tw.wheelSize
  size : tw.wheelSize < 9223372036854775808
  interval_pos : 0 < tw.interval
  pos_nonneg : 0 ≤ tw.pos
  pos_lt : tw.pos < tw.wheelSize

/-- A timer with a non-negative period and 64-bit fields. -/
structure Timer.WF (t : Timer) : Prop where
  period_nonneg : 0 ≤ t.period
  period_lt : t.period < 9223372036854775808
  number : inInt64 t.periodNumber

/-- A sample `Timer.reset`: clear the period and the repeat count. -/
def resetIdle (_ : Timer) : Timer := { period := 0, periodNumber := 0 }

/-- A heap holding the same timer at every address. -/
def heapOf (t : Timer) : TimerPtr → Timer := fun _ => t

/-- An eight-bucket wheel with interval 1, empty, cursor at `pos`. -/
def demoWheel (pos : Int) : TimingWheel :=
  { wheelSize := 8, wheel := List.replicate 8 [], interval := 1, pos := pos }

/-- A state with every address holding timer `t` and an empty trace. -/
def demoState (tw : TimingWheel) (t : Timer) : State :=
  { tw := tw, heap := heapOf t, fired := [] }

/-- Effect of the last line of `AddTimer` once bucket `i` is known. -/
def insertAt (s : State) (i : Nat) (t : TimerPtr) : State :=
  { s with tw := { s.tw with wheel := appendAt s.tw.wheel i t } }

/-- Effect of the rearm branch of `checkAndAddTimerAgain` once bucket `i` is known. -/
def rearmAt (s : State) (i : Nat) (t : TimerPtr) : State :=
  { tw := { s.tw with wheel := appendAt s.tw.wheel i t },
    heap := if (s.heap t).periodNumber > 0 then
        Function.update s.heap t { s.heap t with periodNumber := (s.heap t).periodNumber - 1 }
      else s.heap,
    fired := s.fired }

/-- Effect of the reset branch of `checkAndAddTimerAgain`. -/
def resetAt (reset : Timer → Timer) (s : State) (t : TimerPtr) : State :=
  { s with heap := Function.update s.heap t (reset (s.heap t)) }

/-- Bucket into which `checkAndAddTimerAgain` puts the timer back, if it does. -/
def rearmBucket (s : State) (t : TimerPtr) : Option Nat :=
  if (s.heap t).periodNumber = 0 then none
  else (addedPosition s.tw (s.heap t)).bind (bucketIndex s.tw.wheel)

/-- Timers of the list which the firing loop, started in `s`, puts back into bucket `j`,
in firing order. -/
def rearmedInto (reset : Timer → Timer) (j : Nat) : List TimerPtr → State → List TimerPtr
  | [], _ => []
  | t :: ts, s =>
    (if rearmBucket s t = some j then [t] else []) ++
      match checkAndAddTimerAgain reset (TimerHandler s t) t with
      | .ok s1 => rearmedInto reset j ts s1
      | .panic _ _ => []

/-- The cursor, the interval and the shape of the wheel are the same in both states. -/
def SameParams (s s1 : State) : Prop :=
  s1.tw.pos = s.tw.pos ∧ s1.tw.interval = s.tw.interval ∧
  s1.tw.wheelSize = s.tw.wheelSize ∧ s1.tw.wheel.length = s.tw.wheel.length

/-- The timers `Start` captures at a tick: `timers = tw.wheel[pos]`. -/
def captured (s : State) : List TimerPtr :=
  s.tw.wheel.getD s.tw.pos.toNat []

/-- State in which the firing loop of a tick starts: cursor advanced, captured bucket emptied. -/
def cleared (s : State) : State :=
  { s with tw := { incrementTickPosition s.tw with wheel := s.tw.wheel.set s.tw.pos.toNat [] } }

/-- A heap with timer `a` at address 0 and timer `b` at every other address. -/
def heapTwo (a b : Timer) : TimerPtr → Timer := fun p => if p = 0 then a else b

/-- Timer `t` occurs exactly once in the wheel, in bucket `b`. -/
def Pending1 (s : State) (t : TimerPtr) (b : Nat) : Prop :=
  b < s.tw.wheel.length ∧ ∀ j, cnt s j t = if j = b then 1 else 0

/-- Number of ticks that are processed before the cursor captures bucket `b`. -/
def distance (s : State) (b : Nat) : Nat :=
  if s.tw.pos ≤ (b : Int) then ((b : Int) - s.tw.pos).toNat
  else ((b : Int) - s.tw.pos + s.tw.wheelSize).toNat

/-- A two-bucket wheel with interval 1, empty, cursor at 0. -/
def smallWheel : TimingWheel :=
  { wheelSize := 2, wheel := [[], []], interval := 1, pos := 0 }

/-- The two-bucket wheel after an endless timer of period 1 was added at address 5. -/
def endlessAdded : State := insertAt (demoState smallWheel ⟨1, -1⟩) 1 5

/-- State reached from `endlessAdded` by `n` ticks. -/
def endlessRan (n : Nat) : State := (Start resetIdle n endlessAdded).state

/-- An eight-bucket wheel holding timer 0 in bucket 1 and timer 1 in bucket 3. -/
def orderDemo : State :=
  { tw := { wheelSize := 8, wheel := [[], [0], [], [1], [], [], [], []], interval := 1, pos := 0 },
    heap := heapTwo ⟨1, 0⟩ ⟨3, 0⟩, fired := [] }

/-- Every entry of every bucket is the timer `t`. -/
def OnlyTimer (s : State) (t : TimerPtr) : Prop :=
  ∀ j, ∀ p ∈ s.tw.wheel.getD j [], p = t

/-!
### `Stop` and the stop branch of `Start`

`Stop` and the `case <-tw.stop` branch of `Start` read and write two fields of the struct,
`tw.stop` and `tw.ticker`, and no bucket.  `Stop` runs while another goroutine is inside
`Start`; what it does depends on that goroutine only through one fact, whether the loop is
blocked in its `select` and so ready to receive from `tw.stop`.  The embedding keeps the
two fields together with the control point of the goroutine that runs `Start`, and makes
each piece of straight-line code of that goroutine one step.
-/

/-- The channel variable `tw.stop`: nil (the zero value, and what the loop stores after a
stop), the unbuffered channel of `make(chan struct{})` while it is not closed, or a closed
channel. -/
inductive StopChan where
  | nil | live | closed
deriving DecidableEq, Repr

/-- Control point of the goroutine that runs `Start`. -/
inductive LoopAt where
  | idle        -- `Start` is not running: not called yet, or returned
  | parked      -- blocked in the `select`, ready to receive from `tw.stop`
  | ticking     -- inside the `case <-tw.ticker.Signal()` branch, where the callbacks run
  | signalled   -- has received from `tw.stop`; the statements of that branch are still to run
deriving DecidableEq, Repr

/-- The fields `tw.stop` and `tw.ticker` of the struct `TimingWheel`, and where the goroutine
running `Start` is.  `τ` is the state of the ticker, a `Timer` whose code is not part of the
wheel's source file. -/
structure Lifecycle (τ : Type) where
  stop : StopChan
  ticker : τ
  loop : LoopAt
deriving DecidableEq, Repr

/-- Runtime failures of the channel operations. -/
inductive ChanPanic where
  | sendOnClosed    -- send on closed channel
  | closeOfNil      -- close of nil channel
  | closeOfClosed   -- close of closed channel
deriving DecidableEq, Repr

/-- Outcome of a piece of code that works on the stop channel. -/
inductive Ran (α : Type) where
  | done (a : α)
  | panic (p : ChanPanic)
deriving DecidableEq, Repr

/-- The zero value of the two fields, with no goroutine in `Start`. -/
def zeroLifecycle {τ : Type} (tk : τ) : Lifecycle τ :=
  { stop := .nil, ticker := tk, loop := .idle }

/-- Source `TimingWheel.Init`, the two fields: `tw.stop = make(chan struct{})` and
`tw.ticker.Init(nil)`; `initTimer` is `Timer.Init`. -/
def Lifecycle.Init {τ : Type} (initTimer : τ → τ) (w : Lifecycle τ) : Lifecycle τ :=
  { w with stop := .live, ticker := initTimer w.ticker }

/-- Source `TimingWheel.Start` up to its first `select`: `tw.ticker.Tick(tw.interval,
tw.interval, -1)`, then the goroutine blocks in the `select`; `tickTimer` is that call of
`Timer.Tick`.  One goroutine runs the loop: a call while the loop is running is not
modelled and changes nothing. -/
def Lifecycle.Start {τ : Type} (tickTimer : τ → τ) (w : Lifecycle τ) : Lifecycle τ :=
  if w.loop = .idle then { w with ticker := tickTimer w.ticker, loop := .parked } else w

/-- The parked loop takes `case <-tw.ticker.Signal()` and starts a tick. -/
def enterTick {τ : Type} (w : Lifecycle τ) : Lifecycle τ :=
  if w.loop = .parked then { w with loop := .ticking } else w

/-- The tick branch ends and the loop blocks in its `select` again. -/
def leaveTick {τ : Type} (w : Lifecycle τ) : Lifecycle τ :=
  if w.loop = .ticking then { w with loop := .parked } else w

/-- Source `TimingWheel.Stop`; the Boolean is `alreadyStopped`.  The send of the `select` can
proceed only when a receiver waits on the unbuffered channel, and the one receiver is the
loop of `Start` blocked in its `select`: the send then wakes the loop in its stop branch.
With no receiver the `default` case runs.  A send on a closed channel panics.  `stopTimer`
is `Timer.Stop`, whose body is not part of the wheel's source file. -/
def Stop {τ : Type} (stopTimer : τ → τ) (w : Lifecycle τ) : Ran (Bool × Lifecycle τ) :=
  match w.stop with
  | .nil => .done (true, w)
  | .closed => .panic .sendOnClosed
  | .live =>
    if w.loop = .parked then
      .done (false, { w with ticker := stopTimer w.ticker, loop := .signalled })
    else
      .done (true, { w with ticker := stopTimer w.ticker })

/-- The `case <-tw.stop` branch of `Start` and the statement after the loop, run by the
goroutine that received the stop signal: `close(tw.stop)`, `tw.stop = nil`, `break loop`,
`tw.ticker.Stop()`, return. -/
def stopBranch {τ : Type} (stopTimer : τ → τ) (w : Lifecycle τ) : Ran (Lifecycle τ) :=
  if w.loop = .signalled then
    match w.stop with
    | .live => .done { stop := .nil, ticker := stopTimer w.ticker, loop := .idle }
    | .nil => .panic .closeOfNil
    | .closed => .panic .closeOfClosed
  else .done w

/-- States the two fields and the loop can be in: from the zero value, by `Init` (while no
loop runs), `Start`, the steps of the loop and calls of `Stop`. -/
inductive Reachable {τ : Type} (initTimer tickTimer stopTimer : τ → τ) : Lifecycle τ → Prop where
  | zero (tk : τ) : Reachable initTimer tickTimer stopTimer (zeroLifecycle tk)
  | init (w : Lifecycle τ) : Reachable initTimer tickTimer stopTimer w → w.loop = .idle →
      Reachable initTimer tickTimer stopTimer (Lifecycle.Init initTimer w)
  | start (w : Lifecycle τ) : Reachable initTimer tickTimer stopTimer w →
      Reachable initTimer tickTimer stopTimer (Lifecycle.Start tickTimer w)
  | enter (w : Lifecycle τ) : Reachable initTimer tickTimer stopTimer w →
      Reachable initTimer tickTimer stopTimer (enterTick w)
  | leave (w : Lifecycle τ) : Reachable initTimer tickTimer stopTimer w →
      Reachable initTimer tickTimer stopTimer (leaveTick w)
  | stopCall (w w1 : Lifecycle τ) (b : Bool) : Reachable initTimer tickTimer stopTimer w →
      Stop stopTimer w = .done (b, w1) → Reachable initTimer tickTimer stopTimer w1
  | stopped (w w1 : Lifecycle τ) : Reachable initTimer tickTimer stopTimer w →
      stopBranch stopTimer w = .done w1 → Reachable initTimer tickTimer stopTimer w1

/-- A sample ticker is a flag, whether it is armed: `Timer.Init` and `Timer.Stop` clear it,
`Timer.Tick` sets it. -/
def disarm (_ : Bool) : Bool := false

/-- Sample `Timer.Tick`: the ticker is armed. -/
def arm (_ : Bool) : Bool := true

/-- A wheel after `Init` and `Start`: the loop is blocked in its `select`. -/
def waitingWheel : Lifecycle Bool :=
  Lifecycle.Start arm (Lifecycle.Init disarm (zeroLifecycle false))

/-- A wheel after `Init` and `Start` whose loop is in the middle of a tick. -/
def tickingWheel : Lifecycle Bool := enterTick waitingWheel

end timer

namespace tcp

/-!
## `net/tcp/stream.go`

The types and methods `stream.go` uses but does not declare (the `status` cell, the
segment check, the state handlers, `sendSYN`, the block initialisers, `SetState`, the
access-control checks, the `CNF_` constants) are fields of `Env`.  Every call of one of them
is recorded in the `trace` of the run, so that "which calls were made, in which order" can
be stated.
-/

/-- A `protocol.Error` value; `nil` is `none : Option Error`. -/
abbrev Error := Nat

/-- A received `Segment`. -/
abbrev Segment := List Nat

/-- The stream states named by the `StreamStatus_` constants, and `unknown` for any other
value the status cell may hold. -/
inductive StreamStatus where
  | Listen | SynSent | SynReceived | Established | FinWait1 | FinWait2
  | Close | CloseWait | Closing | LastAck | TimeWait
  | unknown (code : Nat)
deriving DecidableEq, Repr

/-- The `protocol.NetworkStatus` values `ScheduleProcessingStream` names, and `other` for the
rest. -/
inductive NetworkStatus where
  | Open | ReceivedCompletely
  | other (code : Nat)
deriving DecidableEq, Repr

/-- The struct `Stream`: the fields the methods of `stream.go` read or write by name, the
three embedded blocks, and `rest` for every other field. -/
structure Stream (β : Type) where
  mss : Int
  status : StreamStatus
  State : NetworkStatus
  timing : β
  recv : β
  send : β
  rest : β

/-- The four checks of `Authorize`, in source order. -/
inductive AuthCheck where
  | userType | authWhen | authWhich | authWhere
deriving DecidableEq, Repr

/-- Calls made by the methods of `Stream`. -/
inductive Event where
  | handler (st : StreamStatus)      -- `s.incomeSegmentOn<State>State(segment)`
  | sendSYN                          -- `s.sendSYN()`
  | timingInit                       -- `s.timing.Init(s)`
  | recvInit (timeout : Int)         -- `s.recv.Init(timeout)`
  | sendInit (timeout : Int)         -- `s.send.Init(timeout)`
  | goCallService                    -- `go st.callService()`
  | setState (v : NetworkStatus)     -- `st.SetState(v)`
  | check (c : AuthCheck)            -- one of the checks of `Authorize`
deriving DecidableEq, Repr

/-- What `stream.go` calls but does not declare. -/
structure Env (β : Type) where
  CheckSegment : Segment → Option Error
  incomeSegmentOnListenState : Stream β → Segment → Stream β × Option Error
  incomeSegmentOnSynSentState : Stream β → Segment → Stream β × Option Error
  incomeSegmentOnSynReceivedState : Stream β → Segment → Stream β × Option Error
  incomeSegmentOnEstablishedState : Stream β → Segment → Stream β × Option Error
  incomeSegmentOnFinWait1State : Stream β → Segment → Stream β × Option Error
  incomeSegmentOnFinWait2State : Stream β → Segment → Stream β × Option Error
  incomeSegmentOnCloseState : Stream β → Segment → Stream β × Option Error
  incomeSegmentOnCloseWaitState : Stream β → Segment → Stream β × Option Error
  incomeSegmentOnClosingState : Stream β → Segment → Stream β × Option Error
  incomeSegmentOnLastAckState : Stream β → Segment → Stream β × Option Error
  incomeSegmentOnTimeWaitState : Stream β → Segment → Stream β × Option Error
  sendSYN : Stream β → Stream β × Option Error
  timingInit : Stream β → Stream β × Option Error
  recvInit : β → Int → β × Option Error
  sendInit : β → Int → β × Option Error
  SetState : Stream β → NetworkStatus → Stream β
  userTypeCheck : Stream β → Option Error
  AuthorizeWhen : Stream β → Nat → Option Error
  AuthorizeWhich : Stream β → Option Error
  AuthorizeWhere : Stream β → Option Error
  CNF_Segment_MaxSize : Int
  CNF_KeepAlive_Idle : Int

/-- A stream together with the calls made on it so far. -/
structure Run (β : Type) where
  stream : Stream β
  trace : List Event

/-- Call one state handler and record the call. -/
def callHandler {β : Type} (st : StreamStatus)
    (h : Stream β → Segment → Stream β × Option Error) (r : Run β) (segment : Segment) :
    Run β × Option Error :=
  ({ stream := (h r.stream segment).1, trace := r.trace ++ [Event.handler st] },
   (h r.stream segment).2)

/-- Source `Stream.Receive`. -/
def Receive {β : Type} (env : Env β) (r : Run β) (segment : Segment) : Run β × Option Error :=
  match env.CheckSegment segment with
  | some e => (r, some e)
  | none =>
    match r.stream.status with
    | .Listen => callHandler .Listen env.incomeSegmentOnListenState r segment
    | .SynSent => callHandler .SynSent env.incomeSegmentOnSynSentState r segment
    | .SynReceived => callHandler .SynReceived env.incomeSegmentOnSynReceivedState r segment
    | .Established => callHandler .Established env.incomeSegmentOnEstablishedState r segment
    | .FinWait1 => callHandler .FinWait1 env.incomeSegmentOnFinWait1State r segment
    | .FinWait2 => callHandler .FinWait2 env.incomeSegmentOnFinWait2State r segment
    | .Close => callHandler .Close env.incomeSegmentOnCloseState r segment
    | .CloseWait => callHandler .CloseWait env.incomeSegmentOnCloseWaitState r segment
    | .Closing => callHandler .Closing env.incomeSegmentOnClosingState r segment
    | .LastAck => callHandler .LastAck env.incomeSegmentOnLastAckState r segment
    | .TimeWait => callHandler .TimeWait env.incomeSegmentOnTimeWaitState r segment
    | .unknown _ => (r, none)

/-- The handler `Receive` uses for a status, as the `switch` of the source lists them. -/
def handlerOf {β : Type} (env : Env β) :
    StreamStatus → Option (Stream β → Segment → Stream β × Option Error)
  | .Listen => some env.incomeSegmentOnListenState
  | .SynSent => some env.incomeSegmentOnSynSentState
  | .SynReceived => some env.incomeSegmentOnSynReceivedState
  | .Established => some env.incomeSegmentOnEstablishedState
  | .FinWait1 => some env.incomeSegmentOnFinWait1State
  | .FinWait2 => some env.incomeSegmentOnFinWait2State
  | .Close => some env.incomeSegmentOnCloseState
  | .CloseWait => some env.incomeSegmentOnCloseWaitState
  | .Closing => some env.incomeSegmentOnClosingState
  | .LastAck => some env.incomeSegmentOnLastAckState
  | .TimeWait => some env.incomeSegmentOnTimeWaitState
  | .unknown _ => none

/-- The eleven states the spec lists. -/
def listedStates : List StreamStatus :=
  [.Listen, .SynSent, .SynReceived, .Established, .FinWait1, .FinWait2,
   .Close, .CloseWait, .Closing, .LastAck, .TimeWait]

/-- Source `Stream.Open`. -/
def Open {β : Type} (env : Env β) (r : Run β) : Run β × Option Error :=
  let sent := env.sendSYN r.stream
  ({ stream := { sent.1 with status := .SynSent }, trace := r.trace ++ [Event.sendSYN] },
   sent.2)

/-- The stream as `Init` hands it to `s.timing.Init(s)`: `mss` and the status are set. -/
def listenStream {β : Type} (env : Env β) (s : Stream β) : Stream β :=
  { s with mss := env.CNF_Segment_MaxSize, status := .Listen }

/-- The timeout `Init` passes on: `CNF_KeepAlive_Idle` in place of 0. -/
def effectiveTimeout {β : Type} (env : Env β) (timeout : Int) : Int :=
  if timeout = 0 then env.CNF_KeepAlive_Idle else timeout

/-- Source `Stream.Init`.  `s.timing.Init(s)` is given the stream itself and may write any
of its fields; `s.recv.Init` and `s.send.Init` act on their own block. -/
def Init {β : Type} (env : Env β) (r : Run β) (timeout : Int) : Run β × Option Error :=
  let s1 : Stream β := { r.stream with mss := env.CNF_Segment_MaxSize, status := .Listen }
  let timeout1 : Int := if timeout = 0 then env.CNF_KeepAlive_Idle else timeout
  let t := env.timingInit s1
  let s2 : Stream β := t.1
  let tr2 := r.trace ++ [Event.timingInit]
  match t.2 with
  | some e => ({ stream := s2, trace := tr2 }, some e)
  | none =>
    let rc := env.recvInit s2.recv timeout1
    let s3 : Stream β := { s2 with recv := rc.1 }
    let tr3 := tr2 ++ [Event.recvInit timeout1]
    match rc.2 with
    | some e => ({ stream := s3, trace := tr3 }, some e)
    | none =>
      let sd := env.sendInit s3.send timeout1
      ({ stream := { s3 with send := sd.1 }, trace := tr3 ++ [Event.sendInit timeout1] }, sd.2)

/-- Source `Stream.ScheduleProcessingStream`.  The `go` statement is recorded as an event:
the call returns at once and the new goroutine runs on its own. -/
def ScheduleProcessingStream {β : Type} (env : Env β) (r : Run β) : Run β :=
  if r.stream.State = .Open then
    { r with trace := r.trace ++ [Event.goCallService] }
  else
    { stream := env.SetState r.stream .ReceivedCompletely,
      trace := r.trace ++ [Event.setState .ReceivedCompletely] }

/-- Source `Stream.Authorize`; `now` is the value of `utc.Now()`.  Returns the error and
the checks that were evaluated, in order. -/
def Authorize {β : Type} (env : Env β) (s : Stream β) (now : Nat) :
    Option Error × List AuthCheck :=
  match env.userTypeCheck s with
  | some e => (some e, [.userType])
  | none =>
    match env.AuthorizeWhen s now with
    | some e => (some e, [.userType, .authWhen])
    | none =>
      match env.AuthorizeWhich s with
      | some e => (some e, [.userType, .authWhen, .authWhich])
      | none =>
        match env.AuthorizeWhere s with
        | some e => (some e, [.userType, .authWhen, .authWhich, .authWhere])
        | none => (none, [.userType, .authWhen, .authWhich, .authWhere])

/-- A sample handler: keep the stream, report no error. -/
def idleHandler {β : Type} (s : Stream β) (_ : Segment) : Stream β × Option Error := (s, none)

/-- A sample environment over `Nat` blocks: every call succeeds and changes nothing, the
segment check rejects the empty segment with error 7. -/
def sampleEnv : Env Nat :=
  { CheckSegment := fun seg => if seg = [] then some 7 else none,
    incomeSegmentOnListenState := idleHandler,
    incomeSegmentOnSynSentState := idleHandler,
    incomeSegmentOnSynReceivedState := idleHandler,
    incomeSegmentOnEstablishedState := idleHandler,
    incomeSegmentOnFinWait1State := idleHandler,
    incomeSegmentOnFinWait2State := idleHandler,
    incomeSegmentOnCloseState := idleHandler,
    incomeSegmentOnCloseWaitState := idleHandler,
    incomeSegmentOnClosingState := idleHandler,
    incomeSegmentOnLastAckState := idleHandler,
    incomeSegmentOnTimeWaitState := idleHandler,
    sendSYN := fun s => (s, none),
    timingInit := fun s => (s, none),
    recvInit := fun b _ => (b, none),
    sendInit := fun b _ => (b, none),
    SetState := fun s v => { s with State := v },
    userTypeCheck := fun _ => none,
    AuthorizeWhen := fun _ _ => none,
    AuthorizeWhich := fun _ => none,
    AuthorizeWhere := fun _ => none,
    CNF_Segment_MaxSize := 1460,
    CNF_KeepAlive_Idle := 7200 }

/-- The sample environment with a user-type check that fails with error 3. -/
def deniedUserEnv : Env Nat :=
  { sampleEnv with userTypeCheck := fun _ => some 3 }

/-- A sample stream over `Nat` blocks. -/
def sampleStream (st : StreamStatus) (ns : NetworkStatus) : Stream Nat :=
  { mss := 0, status := st, State := ns, timing := 0, recv := 0, send := 0, rest := 0 }

/-- The sample environment with block initialisers that write their block: the timing block
becomes 1, the receive block the timeout it is given, the send block that timeout plus 1. -/
def busyEnv : Env Nat :=
  { sampleEnv with
    timingInit := fun s => ({ s with timing := 1 }, none),
    recvInit := fun _ t => (t.toNat, none),
    sendInit := fun _ t => (t.toNat + 1, none) }

end tcp

namespace json

/-!
## `json/decode.go`

Bytes are natural numbers (their ASCII codes).  A slice is the list of its elements; the
decoder also keeps `spare`, the bytes of the underlying array between `len(d.buf)` and
`cap(d.buf)`, which the slice expression `d.buf[i:i+4]` of `CheckNullValue` can reach.
`convert.StringToUint8Base10` is not declared in the source files at hand and is a
parameter of the decoders that call it; `strconv.ParseInt` is modelled after the Go
standard library.
-/

/-- The errors `decode.go` returns. -/
inductive Err where
  | ErrEncodedIntegerCorrupted
  | ErrEncodedStringCorrupted
  | ErrEncodedArrayCorrupted
  | ErrEncodedSliceCorrupted
  | ErrEncodedIncludeNotDefinedKey
deriving DecidableEq, Repr

/-- The struct `Decoder` (without its options). -/
structure Decoder where
  buf : List Nat
  spare : List Nat
  token : Nat
  lastItem : List Nat
deriving DecidableEq, Repr

/-- A returned value, the returned error and the decoder after the call. -/
structure Decoded (α : Type) where
  value : α
  err : Option Err
  d : Decoder
deriving DecidableEq, Repr

/-- Byte `','`, `']'` or `'}'`. -/
def isEndToken (c : Nat) : Bool := c = 44 || c = 93 || c = 125

/-- Byte `'0'` to `'9'`. -/
def isDigit (c : Nat) : Bool := decide (48 ≤ c) && decide (c ≤ 57)

/-- The loop `for i, c := range buf` up to the first byte satisfying `p`: the bytes before
it, the byte, the bytes after it; `none` when the loop runs to the end. -/
def scan (p : Nat → Bool) : List Nat → Option (List Nat × Nat × List Nat)
  | [] => none
  | c :: cs =>
    if p c then some ([], c, cs)
    else
      match scan p cs with
      | some (a, x, r) => some (c :: a, x, r)
      | none => none

/-- Source `Decoder.FindEndToken`. -/
def FindEndToken (d : Decoder) : Decoder :=
  match scan isEndToken d.buf with
  | some (a, c, r) => { d with token := c, lastItem := a, buf := c :: r }
  | none => d

/-- Source `Decoder.TrimToDigit`. -/
def TrimToDigit (d : Decoder) : Decoder :=
  match scan isDigit d.buf with
  | some (_, c, r) => { d with buf := c :: r }
  | none => d

/-- Source `Decoder.TrimSpaces`. -/
def TrimSpaces (d : Decoder) : Decoder :=
  match scan (fun c => c != 32) d.buf with
  | some (_, c, r) => { d with buf := c :: r }
  | none => d

/-- Source `Decoder.TrimToStringStart`. -/
def TrimToStringStart (d : Decoder) : Decoder :=
  match scan (fun c => c == 34) d.buf with
  | some (_, _, r) => { d with buf := r }
  | none => d

/-- Go `bytes.IndexByte`: index of the first `b`, or -1. -/
def IndexByte (buf : List Nat) (b : Nat) : Int :=
  match scan (fun c => c == b) buf with
  | some (a, _, _) => (a.length : Int)
  | none => -1

/-- The loop of `CheckNullValue`: `all` is the underlying array from the start of `d.buf`
to its capacity, `i` the index of the next byte; `none` is the panic of `d.buf[i:i+4]`
beyond the capacity. -/
def checkNullLoop (all : List Nat) : Nat → List Nat → Bool → Option Bool
  | _, [], null => some null
  | i, c :: cs, null =>
    if c = 110 then
      if i + 4 ≤ all.length then
        checkNullLoop all (i + 1) cs (null || ((all.drop i).take 4 == [110, 117, 108, 108]))
      else none
    else if c = 34 then some false
    else if c = 44 then some null
    else checkNullLoop all (i + 1) cs null

/-- Source `Decoder.CheckNullValue`. -/
def CheckNullValue (d : Decoder) : Option Bool :=
  checkNullLoop (d.buf ++ d.spare) 0 d.buf false

/-- Source `Decoder.ResetToken`. -/
def ResetToken (d : Decoder) : Decoder := { d with token := 0 }

/-- Source `Decoder.CheckToken`. -/
def CheckToken (d : Decoder) (t : Nat) : Bool × Decoder :=
  if d.token = t then (true, ResetToken d) else (false, d)

/-- Source `Decoder.DecodeUInt8`; `StringToUint8Base10` returns the number and whether it
failed. -/
def DecodeUInt8 (StringToUint8Base10 : List Nat → Nat × Bool) (d : Decoder) : Decoded Nat :=
  let d2 := FindEndToken (TrimToDigit d)
  let r := StringToUint8Base10 d2.lastItem
  if r.2 then { value := r.1, err := some .ErrEncodedIntegerCorrupted, d := d2 }
  else { value := r.1, err := none, d := d2 }

/-- Go `strconv.ParseUint(s, 10, 64)` without the range check: `none` is a syntax error. -/
def parseDigits : List Nat → Option Nat
  | [] => none
  | c :: cs => (c :: cs).foldl
      (fun acc x => match acc with
        | some n => if isDigit x then some (n * 10 + (x - 48)) else none
        | none => none) (some 0)

/-- Go `strconv.ParseInt(s, 10, 64)`: `none` is a syntax or range error. -/
def ParseInt (s : List Nat) : Option Int :=
  match s with
  | [] => none
  | c :: cs =>
    let neg : Bool := c = 45
    let body : List Nat := if c = 43 ∨ c = 45 then cs else c :: cs
    match parseDigits body with
    | none => none
    | some un =>
      if neg then (if un > 9223372036854775808 then none else some (-(un : Int)))
      else (if un ≥ 9223372036854775808 then none else some (un : Int))

/-- Source `Decoder.DecodeInt64`. -/
def DecodeInt64 (d : Decoder) : Decoded Int :=
  let d2 := FindEndToken (TrimToDigit d)
  match ParseInt d2.lastItem with
  | some i => { value := i, err := none, d := d2 }
  | none => { value := 0, err := some .ErrEncodedIntegerCorrupted, d := d2 }

/-- Source `Decoder.DecodeString`; `none` is the panic of `CheckNullValue`. -/
def DecodeString (d : Decoder) : Option (Decoded (List Nat)) :=
  match CheckNullValue d with
  | none => none
  | some true => some { value := [], err := none, d := d }
  | some false =>
    let d1 := TrimToStringStart d
    let loc := IndexByte d1.buf 34
    if loc < 0 then some { value := [], err := some .ErrEncodedStringCorrupted, d := d1 }
    else some { value := d1.buf.take loc.toNat, err := none,
                d := { d1 with buf := d1.buf.drop (loc.toNat + 1) } }

/-- The loop of `DecodeByteSliceAsNumber`, for at most `fuel` iterations; `none` when the
fuel runs out. -/
def sliceLoop (StringToUint8Base10 : List Nat → Nat × Bool) :
    Nat → Decoder → List Nat → Option (Decoded (List Nat))
  | 0, _, _ => none
  | fuel + 1, d, slice =>
    if (CheckToken d 93).1 then some { value := slice, err := none, d := (CheckToken d 93).2 }
    else
      let r := DecodeUInt8 StringToUint8Base10 d
      match r.err with
      | some _ => some { value := slice, err := some .ErrEncodedSliceCorrupted, d := r.d }
      | none => sliceLoop StringToUint8Base10 fuel (FindEndToken r.d) (slice ++ [r.value])

/-- Source `Decoder.DecodeByteSliceAsNumber`. -/
def DecodeByteSliceAsNumber (StringToUint8Base10 : List Nat → Nat × Bool) (fuel : Nat)
    (d : Decoder) : Option (Decoded (List Nat)) :=
  sliceLoop StringToUint8Base10 fuel d []

/-- A sample `StringToUint8Base10`: decimal digits only, at most 255. -/
def sampleUint8 (s : List Nat) : Nat × Bool :=
  match parseDigits s with
  | some n => if n ≤ 255 then (n, false) else (0, true)
  | none => (0, true)

/-- A decoder on a fresh buffer with no spare capacity. -/
def freshDecoder (buf : List Nat) : Decoder :=
  { buf := buf, spare := [], token := 0, lastItem := [] }

/-- The slice expression `buf[low:]`: `none` is the panic "slice bounds out of range". -/
def sliceFrom (buf : List Nat) (low : Int) : Option (List Nat) :=
  if 0 ≤ low ∧ low ≤ (buf.length : Int) then some (buf.drop low.toNat) else none

/-- The slice expression `buf[:high]` with `high` up to the length: `none` is the panic
"slice bounds out of range". -/
def sliceTo (buf : List Nat) (high : Int) : Option (List Nat) :=
  if 0 ≤ high ∧ high ≤ (buf.length : Int) then some (buf.take high.toNat) else none

/-- Source `Decoder.DecodeKey`, every slice expression bounds-checked; `none` is a panic.
`convert.UnsafeByteSliceToString` reinterprets the bytes of the key as a string. -/
def DecodeKey (d : Decoder) : Option (List Nat × Decoder) :=
  let d1 := TrimToStringStart d
  let loc := IndexByte d1.buf 34
  if loc < 0 then some ([], d1)
  else
    match sliceTo d1.buf loc, sliceFrom d1.buf (loc + 1) with
    | some key, some b2 =>
      match sliceFrom b2 (IndexByte b2 58 + 1) with
      | some b3 => some (key, { d1 with buf := b3 })
      | none => none
    | _, _ => none

end json

namespace service

/-!
## `service/services.go`

A `protocol.Service` is an interface value; the registry reads its `ID()`, `MediaType()`
and `URI()`.  A Go map is `none` when nil, else a function from keys to optional values
(reading a nil map yields nil, writing to it panics).  `log.Fatal` is not declared in the
source files at hand: reaching it ends the run with the outcome `fatal`.
-/

/-- A service as the registry sees it. -/
structure Service where
  ID : Nat
  MediaType : String
  URI : String
deriving DecidableEq, Repr

/-- The errors `services.go` returns. -/
inductive Error where
  | ErrServiceNotProvideIdentifier
  | ErrServiceDuplicateIdentifier
  | ErrNotFound
deriving DecidableEq, Repr

/-- The struct `Services`. -/
structure Services where
  poolByRegisterTime : List (Option Service)
  poolByID : Option (Nat → Option Service)
  poolByMediaType : Option (String → Option Service)
  poolByURIPath : Option (String → Option Service)

/-- How a call ends: it returns, it panics on a write to a nil map, or it reaches
`log.Fatal`. -/
inductive Outcome (α : Type) where
  | ok (a : α)
  | panic
  | fatal

/-- The zero value of `Services`: every pool nil. -/
def zeroServices : Services :=
  { poolByRegisterTime := [], poolByID := none, poolByMediaType := none,
    poolByURIPath := none }

/-- Source `Services.Init`: `make([]protocol.Service, poolSizes)` is a slice of 512 nil
entries, the three maps are empty. -/
def Init (_ : Services) : Services :=
  { poolByRegisterTime := List.replicate 512 none,
    poolByID := some (fun _ => none),
    poolByMediaType := some (fun _ => none),
    poolByURIPath := some (fun _ => none) }

/-- The map read `m[k]`. -/
def mapGet {κ : Type} (m : Option (κ → Option Service)) (k : κ) : Option Service :=
  match m with
  | none => none
  | some f => f k

/-- The map write `m[k] = s`; `none` is the panic on a nil map. -/
def mapSet {κ : Type} [DecidableEq κ] (m : Option (κ → Option Service)) (k : κ) (s : Service) :
    Option (Option (κ → Option Service)) :=
  match m with
  | none => none
  | some f => some (some (Function.update f k (some s)))

/-- The result `(ser, err)` of a lookup: `ErrNotFound` when the entry is nil. -/
def found (ser : Option Service) : Option Service × Option Error :=
  match ser with
  | none => (none, some .ErrNotFound)
  | some s => (some s, none)

/-- Source `Services.GetServiceByID`. -/
def GetServiceByID (ss : Services) (serviceID : Nat) : Option Service × Option Error :=
  found (mapGet ss.poolByID serviceID)

/-- Source `Services.GetServiceByMediaType`. -/
def GetServiceByMediaType (ss : Services) (mt : String) : Option Service × Option Error :=
  found (mapGet ss.poolByMediaType mt)

/-- Source `Services.GetServiceByURI`. -/
def GetServiceByURI (ss : Services) (uri : String) : Option Service × Option Error :=
  found (mapGet ss.poolByURIPath uri)

/-- Source `Services.registerServiceByMediaType`. -/
def registerServiceByMediaType (ss : Services) (s : Service) :
    Outcome (Services × Option Error) :=
  match (GetServiceByID ss s.ID).1 with
  | some _ => .fatal
  | none =>
    match mapSet ss.poolByID s.ID s with
    | none => .panic
    | some byID =>
      let ss1 : Services := { ss with poolByID := byID }
      match (GetServiceByMediaType ss1 s.MediaType).1 with
      | some _ => .fatal
      | none =>
        match mapSet ss1.poolByMediaType s.MediaType s with
        | none => .panic
        | some byMT => .ok ({ ss1 with poolByMediaType := byMT }, none)

/-- Source `Services.registerServiceByURI`: the service is looked up in `poolByURIPath` and
stored in `poolByMediaType`, as the source has it. -/
def registerServiceByURI (ss : Services) (s : Service) : Outcome (Services × Option Error) :=
  if s.URI ≠ "" then
    match (GetServiceByURI ss s.URI).1 with
    | some _ => .fatal
    | none =>
      match mapSet ss.poolByMediaType s.URI s with
      | none => .panic
      | some byMT => .ok ({ ss with poolByMediaType := byMT }, none)
  else .ok (ss, none)

/-- Source `Services.RegisterService`: the errors of the two helpers are dropped. -/
def RegisterService (ss : Services) (s : Service) : Outcome (Services × Option Error) :=
  if s.ID = 0 ∧ s.URI = "" then .ok (ss, some .ErrServiceNotProvideIdentifier)
  else
    match registerServiceByMediaType ss s with
    | .panic => .panic
    | .fatal => .fatal
    | .ok (ss1, _) =>
      match registerServiceByURI ss1 s with
      | .panic => .panic
      | .fatal => .fatal
      | .ok (ss2, _) =>
        .ok ({ ss2 with poolByRegisterTime := ss2.poolByRegisterTime ++ [some s] }, none)

/-- The three maps are not nil, as after `Init`. -/
def Initialised (ss : Services) : Prop :=
  ss.poolByID ≠ none ∧ ss.poolByMediaType ≠ none ∧ ss.poolByURIPath ≠ none

/-- A sample service with every identifier set. -/
def sampleService : Service := { ID := 1, MediaType := "a", URI := "/a" }

/-- A sample service with no identifier at all. -/
def anonymousService : Service := { ID := 0, MediaType := "b", URI := "" }

end service

namespace timer

theorem state_ok (s : State) : (Result.ok s).state = s := rfl

theorem state_panic (p : Panic) (s : State) : (Result.panic p s).state = s := rfl

theorem wrapInt64_eq_self {x : Int} (h : inInt64 x) : wrapInt64 x = x := by
  unfold inInt64 at h
  unfold wrapInt64
  omega

theorem tdiv_eq_div {p i : Int} (hp : 0 ≤ p) (hi : 0 < i) : p.tdiv i = p / i :=
  Int.tdiv_eq_ediv hp (le_of_lt hi)

theorem div_nonneg_le {p i : Int} (hp : 0 ≤ p) (hi : 0 < i) : 0 ≤ p / i ∧ p / i ≤ p := by
  refine ⟨Int.ediv_nonneg hp (le_of_lt hi), ?_⟩
  exact Int.ediv_le_self i hp

theorem bucketIndex_some {wheel : List (List TimerPtr)} {a : Int} {i : Nat}
    (h : bucketIndex wheel a = some i) : 0 ≤ a ∧ a = (i : Int) ∧ i < wheel.length := by
  unfold bucketIndex at h
  split at h
  · rename_i hc
    injection h with h
    omega
  · exact absurd h (by simp)

theorem bucketIndex_of_lt (wheel : List (List TimerPtr)) (a : Int) (h0 : 0 ≤ a)
    (h1 : a < (wheel.length : Int)) : bucketIndex wheel a = some a.toNat := by
  unfold bucketIndex
  rw [if_pos ⟨h0, h1⟩]

theorem getD_appendAt (wheel : List (List TimerPtr)) (i j : Nat) (p : TimerPtr)
    (hi : i < wheel.length) :
    (appendAt wheel i p).getD j [] = if j = i then wheel.getD j [] ++ [p] else wheel.getD j [] := by
  unfold appendAt
  simp only [List.getD_eq_getElem?_getD, List.getElem?_set]
  by_cases h : i = j
  · subst h; simp [hi]
  · have h2 : ¬ j = i := fun e => h e.symm
    simp [h, h2]

theorem length_appendAt (wheel : List (List TimerPtr)) (i : Nat) (p : TimerPtr) :
    (appendAt wheel i p).length = wheel.length := by
  unfold appendAt; simp

theorem getD_set_nil (wheel : List (List TimerPtr)) (i j : Nat) (hi : i < wheel.length) :
    (wheel.set i []).getD j [] = if j = i then [] else wheel.getD j [] := by
  simp only [List.getD_eq_getElem?_getD, List.getElem?_set]
  by_cases h : i = j
  · subst h; simp [hi]
  · have h2 : ¬ j = i := fun e => h e.symm
    simp [h, h2]

theorem check_zero (reset : Timer → Timer) (s : State) (t : TimerPtr)
    (h : (s.heap t).periodNumber = 0) :
    checkAndAddTimerAgain reset s t = .ok (resetAt reset s t) := by
  unfold checkAndAddTimerAgain resetAt
  rw [if_pos h]

theorem check_rearm (reset : Timer → Timer) (s : State) (t : TimerPtr) (a : Int) (i : Nat)
    (h : (s.heap t).periodNumber ≠ 0) (ha : addedPosition s.tw (s.heap t) = some a)
    (hi : bucketIndex s.tw.wheel a = some i) :
    checkAndAddTimerAgain reset s t = .ok (rearmAt s i t) := by
  unfold checkAndAddTimerAgain rearmAt
  rw [if_neg h, ha]
  simp only [hi]
  split <;> rfl

theorem check_no_bucket (reset : Timer → Timer) (s : State) (t : TimerPtr) (a : Int)
    (h : (s.heap t).periodNumber ≠ 0) (ha : addedPosition s.tw (s.heap t) = some a)
    (hi : bucketIndex s.tw.wheel a = none) :
    checkAndAddTimerAgain reset s t = .panic .indexOutOfRange s := by
  unfold checkAndAddTimerAgain
  rw [if_neg h, ha]
  simp only [hi]

theorem check_ok_cases {reset : Timer → Timer} {s s1 : State} {t : TimerPtr}
    (h : checkAndAddTimerAgain reset s t = .ok s1) :
    ((s.heap t).periodNumber = 0 ∧ s1 = resetAt reset s t) ∨
    ((s.heap t).periodNumber ≠ 0 ∧ ∃ a i, addedPosition s.tw (s.heap t) = some a ∧
        bucketIndex s.tw.wheel a = some i ∧ s1 = rearmAt s i t) := by
  by_cases h0 : (s.heap t).periodNumber = 0
  · left
    rw [check_zero reset s t h0] at h
    injection h with h
    exact ⟨h0, h.symm⟩
  · right
    refine ⟨h0, ?_⟩
    cases ha : addedPosition s.tw (s.heap t) with
    | none =>
      unfold checkAndAddTimerAgain at h
      rw [if_neg h0, ha] at h
      cases h
    | some a =>
      cases hi : bucketIndex s.tw.wheel a with
      | none =>
        rw [check_no_bucket reset s t a h0 ha hi] at h
        cases h
      | some i =>
        rw [check_rearm reset s t a i h0 ha hi] at h
        injection h with h
        exact ⟨a, i, rfl, hi, h.symm⟩

theorem check_panic_state {reset : Timer → Timer} {s s1 : State} {t : TimerPtr} {p : Panic}
    (h : checkAndAddTimerAgain reset s t = .panic p s1) : s1 = s := by
  unfold checkAndAddTimerAgain at h
  split at h
  · cases h
  · split at h
    · injection h with _ h; exact h.symm
    · split at h
      · injection h with _ h; exact h.symm
      · simp only [] at h
        split at h <;> cases h

/-- For a non-negative period and a positive interval, with the sum in range, the source's
`addedPosition` is `floor(period/interval) + pos`. -/
theorem addedPosition_eq_floor (tw : TimingWheel) (t : Timer) (ht : t.WF)
    (hint : 0 < tw.interval) (hpos : 0 ≤ tw.pos)
    (hsum : t.period / tw.interval + tw.pos < 9223372036854775808) :
    addedPosition tw t = some (t.period / tw.interval + tw.pos) := by
  have hq := div_nonneg_le ht.period_nonneg hint
  have hlt := ht.period_lt
  unfold addedPosition
  rw [if_neg (by omega), tdiv_eq_div ht.period_nonneg hint]
  generalize t.period / tw.interval = q at hq hsum
  rw [wrapInt64_eq_self (x := q) ⟨by omega, by omega⟩,
    wrapInt64_eq_self (x := q + tw.pos) ⟨by omega, by omega⟩]

theorem check_fired (reset : Timer → Timer) (s : State) (t : TimerPtr) :
    (checkAndAddTimerAgain reset s t).state.fired = s.fired := by
  cases h : checkAndAddTimerAgain reset s t with
  | ok s1 =>
    rcases check_ok_cases h with ⟨_, rfl⟩ | ⟨_, a, i, _, _, rfl⟩ <;> rfl
  | panic p s1 =>
    rw [check_panic_state h]; rfl

theorem demoWheel_WF : (demoWheel 0).WF :=
  ⟨by decide, by decide, by decide, by decide, by decide⟩

theorem SameParams.refl (s : State) : SameParams s s := ⟨rfl, rfl, rfl, rfl⟩

theorem SameParams.trans {s s1 s2 : State} (h1 : SameParams s s1) (h2 : SameParams s1 s2) :
    SameParams s s2 :=
  ⟨h2.1.trans h1.1, h2.2.1.trans h1.2.1, h2.2.2.1.trans h1.2.2.1, h2.2.2.2.trans h1.2.2.2⟩

theorem check_params (reset : Timer → Timer) (s : State) (t : TimerPtr) :
    SameParams s (checkAndAddTimerAgain reset s t).state := by
  cases h : checkAndAddTimerAgain reset s t with
  | ok s1 =>
    rcases check_ok_cases h with ⟨_, rfl⟩ | ⟨_, a, i, _, _, rfl⟩
    · exact ⟨rfl, rfl, rfl, rfl⟩
    · exact ⟨rfl, rfl, rfl, length_appendAt _ _ _⟩
  | panic p s1 =>
    rw [check_panic_state h]
    exact SameParams.refl s

theorem check_bucket {reset : Timer → Timer} {s s1 : State} {t : TimerPtr}
    (h : checkAndAddTimerAgain reset s t = .ok s1) (j : Nat) :
    s1.tw.wheel.getD j [] =
      s.tw.wheel.getD j [] ++ (if rearmBucket s t = some j then [t] else []) := by
  rcases check_ok_cases h with ⟨h0, rfl⟩ | ⟨h0, a, i, ha, hi, rfl⟩
  · unfold rearmBucket
    rw [if_pos h0]
    simp [resetAt]
  · have hlt := (bucketIndex_some hi).2.2
    unfold rearmBucket
    rw [if_neg h0, ha]
    show (appendAt s.tw.wheel i t).getD j [] = _
    rw [getD_appendAt _ _ _ _ hlt]
    have hb : (some a : Option Int).bind (bucketIndex s.tw.wheel) = some i := hi
    rw [hb]
    by_cases hj : j = i
    · subst hj; simp
    · have : ¬ i = j := fun e => hj e.symm
      simp [hj, this]

theorem check_heap_other {reset : Timer → Timer} {s s1 : State} {t p : TimerPtr}
    (h : checkAndAddTimerAgain reset s t = .ok s1) (hp : p ≠ t) : s1.heap p = s.heap p := by
  rcases check_ok_cases h with ⟨_, rfl⟩ | ⟨_, a, i, _, _, rfl⟩
  · exact Function.update_noteq hp _ _
  · unfold rearmAt
    by_cases hr : (s.heap t).periodNumber > 0
    · simp only [if_pos hr]
      exact Function.update_noteq hp _ _
    · simp only [if_neg hr]

theorem rearmBucket_handler (s : State) (t p : TimerPtr) :
    rearmBucket (TimerHandler s t) p = rearmBucket s p := rfl

theorem fireAll_params (reset : Timer → Timer) (ts : List TimerPtr) (s : State) :
    SameParams s (fireAll reset ts s).state := by
  induction ts generalizing s with
  | nil => exact SameParams.refl s
  | cons t ts ih =>
    have hc := check_params reset (TimerHandler s t) t
    unfold fireAll
    cases h : checkAndAddTimerAgain reset (TimerHandler s t) t with
    | ok s1 =>
      rw [h] at hc
      exact SameParams.trans hc (ih s1)
    | panic p s1 =>
      rw [h] at hc
      exact hc

theorem fireAll_fired {reset : Timer → Timer} {ts : List TimerPtr} {s s1 : State}
    (h : fireAll reset ts s = .ok s1) : s1.fired = s.fired ++ ts := by
  induction ts generalizing s with
  | nil =>
    unfold fireAll at h
    injection h with h
    rw [← h]; simp
  | cons t ts ih =>
    unfold fireAll at h
    cases hc : checkAndAddTimerAgain reset (TimerHandler s t) t with
    | ok s2 =>
      rw [hc] at h
      have hf : s2.fired = (TimerHandler s t).fired := by
        have := check_fired reset (TimerHandler s t) t
        rw [hc] at this; exact this
      rw [ih h]
      show s2.fired ++ ts = _
      rw [hf]
      simp [TimerHandler]
    | panic p s2 =>
      rw [hc] at h
      cases h

theorem fireAll_fired_prefix (reset : Timer → Timer) (ts : List TimerPtr) (s : State) :
    ∃ k, k ≤ ts.length ∧ (fireAll reset ts s).state.fired = s.fired ++ ts.take k ∧
      ((fireAll reset ts s).isOk = true → k = ts.length) := by
  induction ts generalizing s with
  | nil => exact ⟨0, le_refl _, by simp [fireAll, Result.state], fun _ => rfl⟩
  | cons t ts ih =>
    have hf := check_fired reset (TimerHandler s t) t
    unfold fireAll
    cases hc : checkAndAddTimerAgain reset (TimerHandler s t) t with
    | ok s2 =>
      rw [hc] at hf
      replace hf : s2.fired = (TimerHandler s t).fired := hf
      obtain ⟨k, hk, hfk, hok⟩ := ih s2
      refine ⟨k + 1, by simp [hk], ?_, fun h => by simp [hok h]⟩
      show (fireAll reset ts s2).state.fired = _
      rw [hfk]
      show s2.fired ++ _ = _
      rw [hf]
      simp [TimerHandler]
    | panic p s2 =>
      rw [hc] at hf
      replace hf : s2.fired = (TimerHandler s t).fired := hf
      refine ⟨1, by simp, ?_, fun h => by simp [Result.isOk] at h⟩
      show s2.fired = _
      rw [hf]
      simp [TimerHandler]

theorem fireAll_bucket {reset : Timer → Timer} {ts : List TimerPtr} {s s1 : State}
    (h : fireAll reset ts s = .ok s1) (j : Nat) :
    s1.tw.wheel.getD j [] = s.tw.wheel.getD j [] ++ rearmedInto reset j ts s := by
  induction ts generalizing s with
  | nil =>
    unfold fireAll at h
    injection h with h
    rw [← h]; simp [rearmedInto]
  | cons t ts ih =>
    unfold fireAll at h
    unfold rearmedInto
    cases hc : checkAndAddTimerAgain reset (TimerHandler s t) t with
    | ok s2 =>
      rw [hc] at h
      rw [ih h, check_bucket hc j, rearmBucket_handler]
      simp [TimerHandler]
    | panic p s2 =>
      rw [hc] at h
      cases h

theorem rearmedInto_sublist (reset : Timer → Timer) (j : Nat) (ts : List TimerPtr) (s : State) :
    (rearmedInto reset j ts s).Sublist ts := by
  induction ts generalizing s with
  | nil => simp [rearmedInto]
  | cons t ts ih =>
    unfold rearmedInto
    have hrest : (match checkAndAddTimerAgain reset (TimerHandler s t) t with
        | .ok s1 => rearmedInto reset j ts s1
        | .panic _ _ => []).Sublist ts := by
      cases checkAndAddTimerAgain reset (TimerHandler s t) t with
      | ok s1 => exact ih s1
      | panic p s1 => exact List.nil_sublist _
    by_cases hb : rearmBucket s t = some j
    · rw [if_pos hb]
      exact List.Sublist.cons₂ t hrest
    · rw [if_neg hb]
      exact List.Sublist.cons t hrest

theorem fireAll_append {reset : Timer → Timer} {l1 l2 : List TimerPtr} {s s2 : State}
    (h : fireAll reset (l1 ++ l2) s = .ok s2) :
    ∃ s1, fireAll reset l1 s = .ok s1 ∧ fireAll reset l2 s1 = .ok s2 := by
  induction l1 generalizing s with
  | nil => exact ⟨s, rfl, h⟩
  | cons t ts ih =>
    simp only [List.cons_append] at h
    unfold fireAll at h
    cases hc : checkAndAddTimerAgain reset (TimerHandler s t) t with
    | ok s3 =>
      rw [hc] at h
      obtain ⟨s1, h1, h2⟩ := ih h
      refine ⟨s1, ?_, h2⟩
      unfold fireAll
      rw [hc]
      exact h1
    | panic p s3 =>
      rw [hc] at h
      cases h

theorem incrementTickPosition_pos (tw : TimingWheel) (hwf : tw.WF) :
    (incrementTickPosition tw).pos = (tw.pos + 1) % tw.wheelSize := by
  have hlen := hwf.len
  have hsz := hwf.size
  have hp0 := hwf.pos_nonneg
  have hp1 := hwf.pos_lt
  unfold incrementTickPosition
  by_cases h : (tw.wheel.length : Int) - 1 = tw.pos
  · rw [if_pos h]
    have : tw.pos + 1 = tw.wheelSize := by omega
    rw [this, Int.emod_self]
  · rw [if_neg h]
    show wrapInt64 (tw.pos + 1) = _
    rw [wrapInt64_eq_self ⟨by omega, by omega⟩, Int.emod_eq_of_lt (by omega) (by omega)]

theorem incrementTickPosition_rest (tw : TimingWheel) :
    (incrementTickPosition tw).wheel = tw.wheel ∧
    (incrementTickPosition tw).interval = tw.interval ∧
    (incrementTickPosition tw).wheelSize = tw.wheelSize := by
  unfold incrementTickPosition
  split <;> exact ⟨rfl, rfl, rfl⟩

theorem emod_range {a n : Int} (hn : 0 < n) : 0 ≤ a % n ∧ a % n < n :=
  ⟨Int.emod_nonneg a (by omega), Int.emod_lt_of_pos a hn⟩

theorem cleared_spec (s : State) (hwf : s.tw.WF) :
    (cleared s).tw.pos = (s.tw.pos + 1) % s.tw.wheelSize ∧
    (cleared s).tw.interval = s.tw.interval ∧
    (cleared s).tw.wheelSize = s.tw.wheelSize ∧
    (cleared s).tw.wheel.length = s.tw.wheel.length ∧
    (cleared s).heap = s.heap ∧ (cleared s).fired = s.fired ∧
    (∀ j, (cleared s).tw.wheel.getD j [] =
      if j = s.tw.pos.toNat then [] else s.tw.wheel.getD j []) := by
  have hi := incrementTickPosition_rest s.tw
  have hlen := hwf.len
  have hp0 := hwf.pos_nonneg
  have hp1 := hwf.pos_lt
  refine ⟨incrementTickPosition_pos s.tw hwf, hi.2.1, hi.2.2, ?_, rfl, rfl, ?_⟩
  · show (s.tw.wheel.set s.tw.pos.toNat []).length = _
    simp
  · intro j
    show (s.tw.wheel.set s.tw.pos.toNat []).getD j [] = _
    exact getD_set_nil _ _ _ (by omega)

theorem WF_of_params {s s1 : State} (hwf : s.tw.WF) (h : SameParams s s1) : s1.tw.WF := by
  obtain ⟨h1, h2, h3, h4⟩ := h
  exact ⟨by rw [h4, h3]; exact hwf.len, by rw [h3]; exact hwf.size,
    by rw [h2]; exact hwf.interval_pos, by rw [h1]; exact hwf.pos_nonneg,
    by rw [h1, h3]; exact hwf.pos_lt⟩

theorem cleared_WF (s : State) (hwf : s.tw.WF) : (cleared s).tw.WF := by
  obtain ⟨h1, h2, h3, h4, _, _, _⟩ := cleared_spec s hwf
  have hn : 0 < s.tw.wheelSize := lt_of_le_of_lt hwf.pos_nonneg hwf.pos_lt
  have hr := emod_range (a := s.tw.pos + 1) hn
  exact ⟨by rw [h4, h3]; exact hwf.len, by rw [h3]; exact hwf.size,
    by rw [h2]; exact hwf.interval_pos, by rw [h1]; exact hr.1,
    by rw [h1, h3]; exact hr.2⟩

theorem tick_eq_fireAll (reset : Timer → Timer) (s : State) (hwf : s.tw.WF) :
    tick reset s = fireAll reset (captured s) (cleared s) := by
  have hi := incrementTickPosition_rest s.tw
  have hlen := hwf.len
  have hp0 := hwf.pos_nonneg
  have hp1 := hwf.pos_lt
  have hidx : bucketIndex (incrementTickPosition s.tw).wheel s.tw.pos = some s.tw.pos.toNat := by
    rw [hi.1]
    exact bucketIndex_of_lt _ _ hp0 (by omega)
  unfold tick
  simp only [hidx]
  unfold captured cleared
  rw [hi.1]

theorem tick_params (reset : Timer → Timer) (s : State) (hwf : s.tw.WF) :
    (tick reset s).state.tw.WF ∧
    (tick reset s).state.tw.pos = (s.tw.pos + 1) % s.tw.wheelSize ∧
    (tick reset s).state.tw.interval = s.tw.interval ∧
    (tick reset s).state.tw.wheelSize = s.tw.wheelSize ∧
    (tick reset s).state.tw.wheel.length = s.tw.wheel.length := by
  rw [tick_eq_fireAll reset s hwf]
  have hp := fireAll_params reset (captured s) (cleared s)
  obtain ⟨h1, h2, h3, h4, _, _, _⟩ := cleared_spec s hwf
  obtain ⟨p1, p2, p3, p4⟩ := hp
  exact ⟨WF_of_params (cleared_WF s hwf) ⟨p1, p2, p3, p4⟩, p1.trans h1, p2.trans h2,
    p3.trans h3, p4.trans h4⟩

theorem Start_succ_ok {reset : Timer → Timer} {n : Nat} {s s2 : State}
    (h : Start reset (n + 1) s = .ok s2) :
    ∃ s1, tick reset s = .ok s1 ∧ Start reset n s1 = .ok s2 := by
  unfold Start at h
  cases ht : tick reset s with
  | ok s1 => rw [ht] at h; exact ⟨s1, rfl, h⟩
  | panic p s1 => rw [ht] at h; cases h

theorem Start_add_ok {reset : Timer → Timer} {m n : Nat} {s s2 : State}
    (h : Start reset (m + n) s = .ok s2) :
    ∃ s1, Start reset m s = .ok s1 ∧ Start reset n s1 = .ok s2 := by
  induction m generalizing s with
  | zero => exact ⟨s, rfl, by simpa using h⟩
  | succ m ih =>
    rw [Nat.succ_add] at h
    obtain ⟨s1, h1, h2⟩ := Start_succ_ok h
    obtain ⟨s3, h3, h4⟩ := ih h2
    refine ⟨s3, ?_, h4⟩
    unfold Start
    rw [h1]
    exact h3

theorem Start_WF (reset : Timer → Timer) (n : Nat) (s : State) (hwf : s.tw.WF) :
    (Start reset n s).state.tw.WF := by
  induction n generalizing s with
  | zero => exact hwf
  | succ n ih =>
    have ht := (tick_params reset s hwf).1
    unfold Start
    cases h : tick reset s with
    | ok s1 => rw [h] at ht; exact ih s1 ht
    | panic p s1 => rw [h] at ht; exact ht

theorem Start_pos {reset : Timer → Timer} {n : Nat} {s s1 : State} (hwf : s.tw.WF)
    (h : Start reset n s = .ok s1) :
    s1.tw.pos = (s.tw.pos + n) % s.tw.wheelSize ∧ s1.tw.wheelSize = s.tw.wheelSize ∧
    s1.tw.interval = s.tw.interval ∧ s1.tw.wheel.length = s.tw.wheel.length := by
  induction n generalizing s with
  | zero =>
    unfold Start at h
    injection h with h
    subst h
    refine ⟨?_, rfl, rfl, rfl⟩
    simp only [Nat.cast_zero, add_zero]
    exact (Int.emod_eq_of_lt hwf.pos_nonneg hwf.pos_lt).symm
  | succ n ih =>
    obtain ⟨s2, h1, h2⟩ := Start_succ_ok h
    have ht := tick_params reset s hwf
    rw [h1] at ht
    simp only [state_ok] at ht
    obtain ⟨hw2, hp2, hi2, hs2, hl2⟩ := ht
    obtain ⟨a, b, c, d⟩ := ih hw2 h2
    refine ⟨?_, b.trans hs2, c.trans hi2, d.trans hl2⟩
    rw [a]
    show (s2.tw.pos + n) % s2.tw.wheelSize = _
    rw [hp2, hs2, Int.emod_add_emod]
    congr 1
    push_cast
    ring

theorem cnt_eq (s : State) (j : Nat) (t : TimerPtr) :
    cnt s j t = (s.tw.wheel.getD j []).count t := rfl

theorem fireAll_heap_other {reset : Timer → Timer} {ts : List TimerPtr} {s s1 : State}
    {t : TimerPtr} (h : fireAll reset ts s = .ok s1) (ht : t ∉ ts) : s1.heap t = s.heap t := by
  induction ts generalizing s with
  | nil =>
    unfold fireAll at h
    injection h with h
    rw [← h]
  | cons p ts ih =>
    unfold fireAll at h
    cases hc : checkAndAddTimerAgain reset (TimerHandler s p) p with
    | ok s2 =>
      rw [hc] at h
      have hne : t ≠ p := fun e => ht (by rw [e]; exact List.mem_cons_self _ _)
      rw [ih h (fun hm => ht (List.mem_cons_of_mem _ hm)), check_heap_other hc hne]
      rfl
    | panic q s2 =>
      rw [hc] at h
      cases h

theorem fireAll_cnt_other {reset : Timer → Timer} {ts : List TimerPtr} {s s1 : State}
    {t : TimerPtr} (h : fireAll reset ts s = .ok s1) (ht : t ∉ ts) (j : Nat) :
    cnt s1 j t = cnt s j t := by
  rw [cnt_eq, cnt_eq, fireAll_bucket h j, List.count_append]
  have : (rearmedInto reset j ts s).count t = 0 :=
    List.count_eq_zero.mpr (fun hm => ht ((rearmedInto_sublist reset j ts s).subset hm))
  omega

/-- Effect of firing and rearming timer `t` on the view of `t` itself. -/
theorem check_self {reset : Timer → Timer} {s s1 : State} {t : TimerPtr}
    (h : checkAndAddTimerAgain reset s t = .ok s1) :
    ((s.heap t).periodNumber = 0 ∧ s1.heap t = reset (s.heap t) ∧
      ∀ j, cnt s1 j t = cnt s j t) ∨
    ((s.heap t).periodNumber ≠ 0 ∧ ∃ i, i < s.tw.wheel.length ∧
      rearmBucket s t = some i ∧
      (∀ j, cnt s1 j t = cnt s j t + if j = i then 1 else 0) ∧
      (s1.heap t).period = (s.heap t).period ∧
      (s1.heap t).periodNumber =
        if (s.heap t).periodNumber > 0 then (s.heap t).periodNumber - 1
        else (s.heap t).periodNumber) := by
  have hb := check_bucket h
  rcases check_ok_cases h with ⟨h0, rfl⟩ | ⟨h0, a, i, ha, hi, rfl⟩
  · left
    refine ⟨h0, by simp [resetAt], fun j => ?_⟩
    rfl
  · right
    have hlt := (bucketIndex_some hi).2.2
    have hrb : rearmBucket s t = some i := by
      unfold rearmBucket
      rw [if_neg h0, ha]
      exact hi
    refine ⟨h0, i, hlt, hrb, fun j => ?_, ?_, ?_⟩
    · rw [cnt_eq, cnt_eq, hb j, hrb, List.count_append]
      by_cases hj : j = i
      · subst hj; simp
      · have : ¬ i = j := fun e => hj e.symm
        simp [hj, this]
    · unfold rearmAt
      by_cases hr : (s.heap t).periodNumber > 0
      · simp only [if_pos hr, Function.update_same]
      · simp only [if_neg hr]
    · unfold rearmAt
      by_cases hr : (s.heap t).periodNumber > 0
      · simp only [if_pos hr, Function.update_same]
      · simp only [if_neg hr]

theorem count_one_split {l : List TimerPtr} {t : TimerPtr} (h : l.count t = 1) :
    ∃ l1 l2, l = l1 ++ t :: l2 ∧ t ∉ l1 ∧ t ∉ l2 := by
  have hm : t ∈ l := List.count_pos_iff.mp (by omega)
  obtain ⟨l1, l2, rfl⟩ := List.append_of_mem hm
  rw [List.count_append, List.count_cons_self] at h
  exact ⟨l1, l2, rfl, List.count_eq_zero.mp (by omega), List.count_eq_zero.mp (by omega)⟩

/-- A completed tick whose captured bucket does not hold `t` leaves `t` untouched. -/
theorem tick_other {reset : Timer → Timer} {s s1 : State} {t : TimerPtr} (hwf : s.tw.WF)
    (h : tick reset s = .ok s1) (ht : t ∉ captured s) :
    s1.heap t = s.heap t ∧ (∀ j, cnt s1 j t = cnt s j t) ∧
    s1.fired.count t = s.fired.count t := by
  rw [tick_eq_fireAll reset s hwf] at h
  have hc := (cleared_spec s hwf).2.2.2.2.2.2
  refine ⟨(fireAll_heap_other h ht).trans rfl, fun j => ?_, ?_⟩
  · rw [fireAll_cnt_other h ht j, cnt_eq, cnt_eq, hc j]
    by_cases hj : j = s.tw.pos.toNat
    · rw [if_pos hj, hj]
      exact (List.count_eq_zero.mpr ht).symm
    · rw [if_neg hj]
  · rw [fireAll_fired h, List.count_append, List.count_eq_zero.mpr ht]
    rfl

/-- A completed tick whose captured bucket holds `t` exactly once fires it once and applies
the rearm step to it. -/
theorem tick_self {reset : Timer → Timer} {s s1 : State} {t : TimerPtr} (hwf : s.tw.WF)
    (h : tick reset s = .ok s1) (ht : (captured s).count t = 1) :
    s1.fired.count t = s.fired.count t + 1 ∧
    (((s.heap t).periodNumber = 0 ∧ s1.heap t = reset (s.heap t) ∧
        ∀ j, cnt s1 j t = if j = s.tw.pos.toNat then 0 else cnt s j t) ∨
     ((s.heap t).periodNumber ≠ 0 ∧ ∃ i, i < s.tw.wheel.length ∧
        (∀ j, cnt s1 j t = (if j = s.tw.pos.toNat then 0 else cnt s j t) +
          if j = i then 1 else 0) ∧
        (s1.heap t).period = (s.heap t).period ∧
        (s1.heap t).periodNumber =
          if (s.heap t).periodNumber > 0 then (s.heap t).periodNumber - 1
          else (s.heap t).periodNumber)) := by
  rw [tick_eq_fireAll reset s hwf] at h
  obtain ⟨_, _, _, hlen, hheap, _, hc⟩ := cleared_spec s hwf
  have hcnt0 : ∀ j, cnt (cleared s) j t = if j = s.tw.pos.toNat then 0 else cnt s j t := by
    intro j
    rw [cnt_eq, hc j]
    by_cases hj : j = s.tw.pos.toNat
    · simp [hj]
    · simp only [if_neg hj]; rfl
  refine ⟨?_, ?_⟩
  · rw [fireAll_fired h, List.count_append, ht]
    rfl
  · obtain ⟨l1, l2, hl, h1, h2⟩ := count_one_split ht
    rw [hl] at h
    obtain ⟨sa, ha, hrest⟩ := fireAll_append h
    unfold fireAll at hrest
    cases hck : checkAndAddTimerAgain reset (TimerHandler sa t) t with
    | panic p sb => rw [hck] at hrest; cases hrest
    | ok sb =>
      rw [hck] at hrest
      have hha : sa.heap t = s.heap t := by rw [fireAll_heap_other ha h1, hheap]
      have hca : ∀ j, cnt sa j t = cnt (cleared s) j t := fireAll_cnt_other ha h1
      have hla : sa.tw.wheel.length = s.tw.wheel.length := by
        have hp := (fireAll_params reset l1 (cleared s)).2.2.2
        rw [ha] at hp
        exact hp.trans hlen
      have hhb : s1.heap t = sb.heap t := fireAll_heap_other hrest h2
      have hcb : ∀ j, cnt s1 j t = cnt sb j t := fireAll_cnt_other hrest h2
      rcases check_self hck with ⟨h0, hr, hj⟩ | ⟨h0, i, hi, _, hj, hp, hn⟩
      · left
        refine ⟨by rw [← hha]; exact h0, by rw [hhb, hr, ← hha]; rfl, fun j => ?_⟩
        rw [hcb j, hj j, ← hcnt0 j, ← hca j]
        rfl
      · right
        refine ⟨by rw [← hha]; exact h0, i, by rw [← hla]; exact hi, fun j => ?_, ?_, ?_⟩
        · rw [hcb j, hj j, ← hcnt0 j, ← hca j]
          rfl
        · rw [hhb, hp, ← hha]; rfl
        · rw [hhb, hn, ← hha]; rfl

theorem notPending_iff_cnt (s : State) (t : TimerPtr) :
    notPending s t ↔ ∀ j, cnt s j t = 0 := by
  unfold notPending
  constructor
  · intro h j
    rw [cnt_eq, List.count_eq_zero]
    by_cases hj : j < s.tw.wheel.length
    · have : s.tw.wheel.getD j [] = s.tw.wheel[j] := by
        simp [List.getD_eq_getElem?_getD, hj]
      rw [this]
      exact h _ (List.getElem_mem _)
    · have : s.tw.wheel.getD j [] = [] := by
        simp [List.getD_eq_getElem?_getD, List.getElem?_eq_none (not_lt.mp hj)]
      rw [this]
      simp
  · intro h b hb
    obtain ⟨j, hj, rfl⟩ := List.getElem_of_mem hb
    have := h j
    rw [cnt_eq, List.count_eq_zero] at this
    have hg : s.tw.wheel.getD j [] = s.tw.wheel[j] := by
      simp [List.getD_eq_getElem?_getD, hj]
    rw [hg] at this
    exact this

theorem tick_pos_cases {reset : Timer → Timer} {s s1 : State} (hwf : s.tw.WF)
    (h : tick reset s = .ok s1) :
    s1.tw.WF ∧ s1.tw.wheelSize = s.tw.wheelSize ∧ s1.tw.wheel.length = s.tw.wheel.length ∧
    s1.tw.pos = if s.tw.pos + 1 = s.tw.wheelSize then 0 else s.tw.pos + 1 := by
  have ht := tick_params reset s hwf
  rw [h] at ht
  simp only [state_ok] at ht
  obtain ⟨hw, hp, _, hs, hl⟩ := ht
  refine ⟨hw, hs, hl, ?_⟩
  rw [hp]
  have h0 := hwf.pos_nonneg
  have h1 := hwf.pos_lt
  by_cases hc : s.tw.pos + 1 = s.tw.wheelSize
  · rw [if_pos hc, hc, Int.emod_self]
  · rw [if_neg hc, Int.emod_eq_of_lt (by omega) (by omega)]

theorem captured_count (s : State) (t : TimerPtr) :
    (captured s).count t = cnt s s.tw.pos.toNat t := rfl

theorem tick_pending_other {reset : Timer → Timer} {s s1 : State} {t : TimerPtr} {b : Nat}
    (hwf : s.tw.WF) (hp : Pending1 s t b) (hb : b ≠ s.tw.pos.toNat)
    (h : tick reset s = .ok s1) :
    Pending1 s1 t b ∧ s1.heap t = s.heap t ∧ s1.fired.count t = s.fired.count t ∧
    distance s1 b + 1 = distance s b := by
  have hnot : t ∉ captured s := by
    rw [← List.count_eq_zero, captured_count, hp.2, if_neg (fun e => hb e.symm)]
  obtain ⟨hh, hc, hf⟩ := tick_other hwf h hnot
  obtain ⟨hw1, hs1, hl1, hp1⟩ := tick_pos_cases hwf h
  refine ⟨⟨by rw [hl1]; exact hp.1, fun j => by rw [hc j, hp.2 j]⟩, hh, hf, ?_⟩
  have h0 := hwf.pos_nonneg
  have h1 := hwf.pos_lt
  have hlen := hwf.len
  have hbl := hp.1
  unfold distance
  rw [hp1, hs1]
  split_ifs <;> omega

theorem tick_pending_self {reset : Timer → Timer} {s s1 : State} {t : TimerPtr} {b : Nat}
    (hwf : s.tw.WF) (hp : Pending1 s t b) (hb : b = s.tw.pos.toNat)
    (h : tick reset s = .ok s1) :
    s1.fired.count t = s.fired.count t + 1 ∧
    (((s.heap t).periodNumber = 0 ∧ s1.heap t = reset (s.heap t) ∧ ∀ j, cnt s1 j t = 0) ∨
     ((s.heap t).periodNumber ≠ 0 ∧ (∃ i, Pending1 s1 t i) ∧
        (s1.heap t).period = (s.heap t).period ∧
        (s1.heap t).periodNumber =
          if (s.heap t).periodNumber > 0 then (s.heap t).periodNumber - 1
          else (s.heap t).periodNumber)) := by
  have hone : (captured s).count t = 1 := by
    rw [captured_count, hp.2, if_pos hb.symm]
  obtain ⟨hl1, _⟩ := (tick_pos_cases hwf h).2.2
  obtain ⟨hf, hcase⟩ := tick_self hwf h hone
  refine ⟨hf, ?_⟩
  rcases hcase with ⟨h0, hr, hj⟩ | ⟨h0, i, hi, hj, hper, hn⟩
  · left
    refine ⟨h0, hr, fun j => ?_⟩
    rw [hj j, hp.2 j]
    split_ifs <;> first | rfl | omega
  · right
    refine ⟨h0, ⟨i, by rw [hl1]; exact hi, fun j => ?_⟩, hper, hn⟩
    rw [hj j, hp.2 j]
    split_ifs <;> first | rfl | omega

theorem tick_absent {reset : Timer → Timer} {s s1 : State} {t : TimerPtr}
    (hwf : s.tw.WF) (hp : ∀ j, cnt s j t = 0) (h : tick reset s = .ok s1) :
    (∀ j, cnt s1 j t = 0) ∧ s1.heap t = s.heap t ∧ s1.fired.count t = s.fired.count t := by
  have hnot : t ∉ captured s := by
    rw [← List.count_eq_zero, captured_count, hp]
  obtain ⟨hh, hc, hf⟩ := tick_other hwf h hnot
  exact ⟨fun j => by rw [hc j, hp j], hh, hf⟩

theorem Start_absent {reset : Timer → Timer} {n : Nat} {s s1 : State} {t : TimerPtr}
    (hwf : s.tw.WF) (hp : ∀ j, cnt s j t = 0) (h : Start reset n s = .ok s1) :
    (∀ j, cnt s1 j t = 0) ∧ s1.heap t = s.heap t ∧ s1.fired.count t = s.fired.count t := by
  induction n generalizing s with
  | zero =>
    unfold Start at h
    injection h with h
    subst h
    exact ⟨hp, rfl, rfl⟩
  | succ n ih =>
    obtain ⟨s2, h1, h2⟩ := Start_succ_ok h
    obtain ⟨a, b, c⟩ := tick_absent hwf hp h1
    obtain ⟨a2, b2, c2⟩ := ih (tick_pos_cases hwf h1).1 a h2
    exact ⟨a2, b2.trans b, c2.trans c⟩

theorem Start_count_mono {reset : Timer → Timer} {n : Nat} {s s1 : State} (t : TimerPtr)
    (hwf : s.tw.WF) (h : Start reset n s = .ok s1) : s.fired.count t ≤ s1.fired.count t := by
  induction n generalizing s with
  | zero =>
    unfold Start at h
    injection h with h
    subst h
    exact le_refl _
  | succ n ih =>
    obtain ⟨s2, h1, h2⟩ := Start_succ_ok h
    have hw2 := (tick_pos_cases hwf h1).1
    rw [tick_eq_fireAll reset s hwf] at h1
    have hf := fireAll_fired h1
    have := ih hw2 h2
    have h3 : s2.fired.count t = s.fired.count t + (captured s).count t := by
      rw [hf, List.count_append]; rfl
    omega

theorem distance_zero_iff {s : State} {b : Nat} (hwf : s.tw.WF) :
    distance s b = 0 ↔ b = s.tw.pos.toNat := by
  have h0 := hwf.pos_nonneg
  have h1 := hwf.pos_lt
  have hlen := hwf.len
  unfold distance
  split_ifs <;> omega

theorem distance_lt {s : State} {b : Nat} (hwf : s.tw.WF) (hb : b < s.tw.wheel.length) :
    distance s b < s.tw.wheel.length := by
  have h0 := hwf.pos_nonneg
  have h1 := hwf.pos_lt
  have hlen := hwf.len
  unfold distance
  split_ifs <;> omega

/-- While fewer ticks have completed than the distance of its bucket, a pending timer is
not fired and stays where it is. -/
theorem Start_before_fire {reset : Timer → Timer} {n : Nat} {s s1 : State} {t : TimerPtr}
    {b : Nat} (hwf : s.tw.WF) (hp : Pending1 s t b) (hn : n ≤ distance s b)
    (h : Start reset n s = .ok s1) :
    s1.tw.WF ∧ Pending1 s1 t b ∧ s1.heap t = s.heap t ∧
    s1.fired.count t = s.fired.count t ∧ distance s1 b + n = distance s b := by
  induction n generalizing s with
  | zero =>
    unfold Start at h
    injection h with h
    subst h
    exact ⟨hwf, hp, rfl, rfl, rfl⟩
  | succ n ih =>
    obtain ⟨s2, h1, h2⟩ := Start_succ_ok h
    have hne : b ≠ s.tw.pos.toNat := by
      intro e
      have := (distance_zero_iff hwf).mpr e
      omega
    obtain ⟨hp2, hh2, hf2, hd2⟩ := tick_pending_other hwf hp hne h1
    obtain ⟨a, b1, c, d, e⟩ := ih (tick_pos_cases hwf h1).1 hp2 (by omega) h2
    exact ⟨a, b1, c.trans hh2, d.trans hf2, by omega⟩

theorem AddTimer_eq_insertAt (reset : Timer → Timer) (s : State) (t : TimerPtr)
    (hwf : s.tw.WF) (ht : (s.heap t).WF)
    (hb : (s.heap t).period / s.tw.interval + s.tw.pos < s.tw.wheelSize)
    (hne : (s.heap t).period / s.tw.interval + s.tw.pos ≠ s.tw.pos) :
    AddTimer reset s t =
      .ok (insertAt s ((s.heap t).period / s.tw.interval + s.tw.pos).toNat t) ∧
    ((s.heap t).period / s.tw.interval + s.tw.pos).toNat < s.tw.wheel.length := by
  have hsz := hwf.size
  have hpos := hwf.pos_nonneg
  have hlen := hwf.len
  have hq := div_nonneg_le ht.period_nonneg hwf.interval_pos
  have hadd := addedPosition_eq_floor s.tw (s.heap t) ht hwf.interval_pos hwf.pos_nonneg
    (by omega)
  have hidx := bucketIndex_of_lt s.tw.wheel
    ((s.heap t).period / s.tw.interval + s.tw.pos) (by omega) (by omega)
  refine ⟨?_, (bucketIndex_some hidx).2.2⟩
  unfold AddTimer
  rw [hadd]
  simp only []
  rw [if_neg (by omega), if_neg hne, hidx]
  rfl

theorem insertAt_pending {s : State} {t : TimerPtr} {i : Nat} (hi : i < s.tw.wheel.length)
    (hnp : ∀ j, cnt s j t = 0) : Pending1 (insertAt s i t) t i := by
  refine ⟨by show (appendAt s.tw.wheel i t).length > i; rw [length_appendAt]; exact hi,
    fun j => ?_⟩
  have := hnp j
  rw [cnt_eq] at this
  show ((appendAt s.tw.wheel i t).getD j []).count t = _
  rw [getD_appendAt _ _ _ _ hi]
  by_cases hj : j = i
  · rw [if_pos hj, if_pos hj, List.count_append, this]
    simp
  · rw [if_neg hj, if_neg hj, this]

theorem AddTimer_ok_cases {reset : Timer → Timer} {s s1 : State} {t : TimerPtr}
    (h : AddTimer reset s t = .ok s1) :
    (addedPosition s.tw (s.heap t) = some s.tw.pos ∧
      checkAndAddTimerAgain reset (TimerHandler s t) t = .ok s1) ∨
    (∃ a i, addedPosition s.tw (s.heap t) = some a ∧ a ≠ s.tw.pos ∧
      bucketIndex s.tw.wheel a = some i ∧ s1 = insertAt s i t) := by
  unfold AddTimer at h
  cases ha : addedPosition s.tw (s.heap t) with
  | none => rw [ha] at h; cases h
  | some a =>
    rw [ha] at h
    simp only [] at h
    by_cases hgt : a > s.tw.wheelSize
    · rw [if_pos hgt] at h; cases h
    · rw [if_neg hgt] at h
      by_cases heq : a = s.tw.pos
      · rw [if_pos heq] at h
        left
        exact ⟨by rw [heq], h⟩
      · rw [if_neg heq] at h
        right
        cases hi : bucketIndex s.tw.wheel a with
        | none => rw [hi] at h; cases h
        | some i =>
          rw [hi] at h
          injection h with h
          exact ⟨a, i, rfl, heq, hi, h.symm⟩

/-- A pending timer with repeat count `R >= 0` is fired at most `R + 1` times by completed
ticks, and exactly `R + 1` times once enough ticks have completed; it is then in no bucket. -/
theorem Start_track_nonneg {reset : Timer → Timer} {n R : Nat} {s s1 : State} {t : TimerPtr}
    {b : Nat} (hwf : s.tw.WF) (hp : Pending1 s t b)
    (hr : (s.heap t).periodNumber = (R : Int)) (h : Start reset n s = .ok s1) :
    s1.fired.count t ≤ s.fired.count t + R + 1 ∧
    (R * s.tw.wheel.length + distance s b + 1 ≤ n →
      s1.fired.count t = s.fired.count t + R + 1 ∧ ∀ j, cnt s1 j t = 0) := by
  induction n generalizing s R b with
  | zero =>
    unfold Start at h
    injection h with h
    subst h
    exact ⟨by omega, fun hn => by omega⟩
  | succ n ih =>
    obtain ⟨s2, h1, h2⟩ := Start_succ_ok h
    obtain ⟨hw2, _, hl2, _⟩ := tick_pos_cases hwf h1
    by_cases hb : b = s.tw.pos.toNat
    · obtain ⟨hc, hcase⟩ := tick_pending_self hwf hp hb h1
      rcases hcase with ⟨h0, _, habs⟩ | ⟨hne, ⟨i, hpi⟩, _, hnum⟩
      · obtain ⟨ha, _, hc2⟩ := Start_absent hw2 habs h2
        have hR : R = 0 := by rw [hr] at h0; exact_mod_cast h0
        subst hR
        exact ⟨by omega, fun _ => ⟨by omega, ha⟩⟩
      · obtain ⟨R1, rfl⟩ : ∃ R1, R = R1 + 1 := by
          refine ⟨R - 1, ?_⟩
          have : R ≠ 0 := fun e => hne (by rw [hr, e]; rfl)
          omega
        have hr2 : (s2.heap t).periodNumber = (R1 : Int) := by
          rw [hnum, hr]
          push_cast
          rw [if_pos (by omega)]
          omega
        obtain ⟨ih1, ih2⟩ := ih hw2 hpi hr2 h2
        refine ⟨by omega, fun hn => ?_⟩
        have hd := distance_lt hw2 hpi.1
        have hmul : (R1 + 1) * s.tw.wheel.length = R1 * s.tw.wheel.length + s.tw.wheel.length :=
          Nat.succ_mul _ _
        rw [hl2] at ih2 hd
        obtain ⟨e1, e2⟩ := ih2 (by omega)
        exact ⟨by omega, e2⟩
    · obtain ⟨hp2, hh2, hf2, hd2⟩ := tick_pending_other hwf hp hb h1
      have hr2 : (s2.heap t).periodNumber = (R : Int) := by rw [hh2]; exact hr
      obtain ⟨ih1, ih2⟩ := ih hw2 hp2 hr2 h2
      rw [hl2] at ih2
      refine ⟨by omega, fun hn => ?_⟩
      obtain ⟨e1, e2⟩ := ih2 (by omega)
      exact ⟨by omega, e2⟩

/-- A pending timer with a negative repeat count stays pending, with the same count, across
completed ticks. -/
theorem Start_track_neg {reset : Timer → Timer} {n : Nat} {s s1 : State} {t : TimerPtr}
    {b : Nat} (hwf : s.tw.WF) (hp : Pending1 s t b) (hr : (s.heap t).periodNumber < 0)
    (h : Start reset n s = .ok s1) :
    s1.tw.WF ∧ (∃ i, Pending1 s1 t i) ∧
    (s1.heap t).periodNumber = (s.heap t).periodNumber := by
  induction n generalizing s b with
  | zero =>
    unfold Start at h
    injection h with h
    subst h
    exact ⟨hwf, ⟨b, hp⟩, rfl⟩
  | succ n ih =>
    obtain ⟨s2, h1, h2⟩ := Start_succ_ok h
    obtain ⟨hw2, _, _, _⟩ := tick_pos_cases hwf h1
    by_cases hb : b = s.tw.pos.toNat
    · obtain ⟨_, hcase⟩ := tick_pending_self hwf hp hb h1
      rcases hcase with ⟨h0, _, _⟩ | ⟨_, ⟨i, hpi⟩, _, hnum⟩
      · omega
      · rw [if_neg (by omega)] at hnum
        obtain ⟨a, b1, c⟩ := ih hw2 hpi (by rw [hnum]; exact hr) h2
        exact ⟨a, b1, c.trans hnum⟩
    · obtain ⟨hp2, hh2, _, _⟩ := tick_pending_other hwf hp hb h1
      obtain ⟨a, b1, c⟩ := ih hw2 hp2 (by rw [hh2]; exact hr) h2
      exact ⟨a, b1, c.trans (by rw [hh2])⟩

/-- A pending timer is fired once the cursor has travelled the distance to its bucket. -/
theorem Start_fires_within {reset : Timer → Timer} {n : Nat} {s s1 : State} {t : TimerPtr}
    {b : Nat} (hwf : s.tw.WF) (hp : Pending1 s t b) (hn : distance s b + 1 ≤ n)
    (h : Start reset n s = .ok s1) : s.fired.count t < s1.fired.count t := by
  induction n generalizing s with
  | zero => omega
  | succ n ih =>
    obtain ⟨s2, h1, h2⟩ := Start_succ_ok h
    obtain ⟨hw2, _, _, _⟩ := tick_pos_cases hwf h1
    by_cases hb : b = s.tw.pos.toNat
    · obtain ⟨hc, _⟩ := tick_pending_self hwf hp hb h1
      have := Start_count_mono t hw2 h2
      omega
    · obtain ⟨hp2, _, hf2, hd2⟩ := tick_pending_other hwf hp hb h1
      have := ih hw2 hp2 (by omega) h2
      omega

/-- What a successful `AddTimer` of a timer with non-zero repeat count, not yet pending,
leaves behind: the timer pending exactly once, with the trace and the repeat count either
untouched (stored) or advanced by one inline fire. -/
theorem AddTimer_track {reset : Timer → Timer} {s s1 : State} {t : TimerPtr}
    (hwf : s.tw.WF) (hnp : ∀ j, cnt s j t = 0) (hr : (s.heap t).periodNumber ≠ 0)
    (h : AddTimer reset s t = .ok s1) :
    s1.tw.WF ∧ s1.tw.wheel.length = s.tw.wheel.length ∧ ∃ i, Pending1 s1 t i ∧
    ((s1.fired = s.fired ∧ (s1.heap t).periodNumber = (s.heap t).periodNumber) ∨
     (s1.fired = s.fired ++ [t] ∧ (s1.heap t).periodNumber =
        if (s.heap t).periodNumber > 0 then (s.heap t).periodNumber - 1
        else (s.heap t).periodNumber)) := by
  rcases AddTimer_ok_cases h with ⟨_, hck⟩ | ⟨a, i, _, _, hi, rfl⟩
  · have hpar := check_params reset (TimerHandler s t) t
    have hf := check_fired reset (TimerHandler s t) t
    rw [hck] at hpar hf
    simp only [state_ok] at hpar hf
    refine ⟨WF_of_params hwf hpar, hpar.2.2.2, ?_⟩
    rcases check_self hck with ⟨h0, _, _⟩ | ⟨_, i, hi, _, hj, _, hnum⟩
    · exact absurd h0 hr
    · refine ⟨i, ⟨by rw [hpar.2.2.2]; exact hi, fun j => ?_⟩, Or.inr ⟨hf, hnum⟩⟩
      rw [hj j]
      have := hnp j
      rw [cnt_eq] at this
      show (s.tw.wheel.getD j []).count t + _ = _
      rw [this]
      simp
  · have hlt := (bucketIndex_some hi).2.2
    exact ⟨WF_of_params hwf ⟨rfl, rfl, rfl, length_appendAt _ _ _⟩, length_appendAt _ _ _,
      i, insertAt_pending hlt hnp, Or.inl ⟨rfl, rfl⟩⟩

theorem tick_fired_prefix (reset : Timer → Timer) (s : State) (hwf : s.tw.WF) :
    ∃ k, k ≤ (captured s).length ∧
      (tick reset s).state.fired = s.fired ++ (captured s).take k ∧
      ((tick reset s).isOk = true → k = (captured s).length) := by
  rw [tick_eq_fireAll reset s hwf]
  exact fireAll_fired_prefix reset (captured s) (cleared s)

theorem Start_fired_extends (reset : Timer → Timer) (n : Nat) (s : State) (hwf : s.tw.WF) :
    ∃ l, (Start reset n s).state.fired = s.fired ++ l := by
  induction n generalizing s with
  | zero => exact ⟨[], by simp [Start, Result.state]⟩
  | succ n ih =>
    obtain ⟨k, _, hk, _⟩ := tick_fired_prefix reset s hwf
    have hw := (tick_params reset s hwf).1
    unfold Start
    cases h : tick reset s with
    | ok s1 =>
      rw [h] at hk hw
      simp only [state_ok] at hk hw
      obtain ⟨l, hl⟩ := ih s1 hw
      exact ⟨(captured s).take k ++ l, by rw [hl, hk, List.append_assoc]⟩
    | panic p s1 =>
      rw [h] at hk
      exact ⟨_, hk⟩

theorem tick_distance {reset : Timer → Timer} {s s1 : State} {b : Nat} (hwf : s.tw.WF)
    (hb : b < s.tw.wheel.length) (hne : b ≠ s.tw.pos.toNat) (h : tick reset s = .ok s1) :
    distance s1 b + 1 = distance s b := by
  obtain ⟨_, hs1, _, hp1⟩ := tick_pos_cases hwf h
  have h0 := hwf.pos_nonneg
  have h1 := hwf.pos_lt
  have hlen := hwf.len
  unfold distance
  rw [hp1, hs1]
  split_ifs <;> omega

theorem tick_mem_persist {reset : Timer → Timer} {s s1 : State} {t : TimerPtr} {b : Nat}
    (hwf : s.tw.WF) (hne : b ≠ s.tw.pos.toNat) (hm : t ∈ s.tw.wheel.getD b [])
    (h : tick reset s = .ok s1) : t ∈ s1.tw.wheel.getD b [] := by
  rw [tick_eq_fireAll reset s hwf] at h
  rw [fireAll_bucket h b, (cleared_spec s hwf).2.2.2.2.2.2 b, if_neg hne]
  exact List.mem_append_left _ hm

theorem append_split_of_not_mem {l pre post rest : List TimerPtr} {x : TimerPtr}
    (hx : x ∉ l) (h : pre ++ x :: post = l ++ rest) :
    ∃ m, pre = l ++ m ∧ rest = m ++ x :: post := by
  rcases List.append_eq_append_iff.mp h with ⟨a, h1, h2⟩ | ⟨c, h1, h2⟩
  · cases a with
    | nil =>
      refine ⟨[], by simpa using h1.symm, ?_⟩
      simpa using h2.symm
    | cons y a =>
      simp only [List.cons_append, List.cons.injEq] at h2
      exact absurd (by rw [h1, h2.1]; simp) hx
  · exact ⟨c, h1, h2⟩

/-- Across buckets: when the bucket holding `t1` is nearer to the cursor than the only
bucket that may hold `t2`, every invocation of `t2` in a run of ticks comes after an
invocation of `t1`. -/
theorem Start_order (reset : Timer → Timer) (n : Nat) (s : State) (t1 t2 : TimerPtr)
    (b1 b2 : Nat) (hwf : s.tw.WF) (hb1 : b1 < s.tw.wheel.length)
    (hb2 : b2 < s.tw.wheel.length) (h1 : t1 ∈ s.tw.wheel.getD b1 [])
    (h2 : ∀ j, j ≠ b2 → cnt s j t2 = 0) (hd : distance s b1 < distance s b2)
    (pre post : List TimerPtr)
    (hf : (Start reset n s).state.fired = s.fired ++ pre ++ t2 :: post) : t1 ∈ pre := by
  induction n generalizing s pre with
  | zero =>
    have : s.fired = s.fired ++ (pre ++ t2 :: post) := by
      rw [← List.append_assoc]; exact hf
    have := List.self_eq_append_right.mp this
    simp at this
  | succ n ih =>
    have hne2 : b2 ≠ s.tw.pos.toNat := by
      intro e
      have := (distance_zero_iff hwf).mpr e
      omega
    have hnot : t2 ∉ captured s := by
      rw [← List.count_eq_zero, captured_count]
      exact h2 _ (fun e => hne2 e.symm)
    obtain ⟨k, _, hk, hok⟩ := tick_fired_prefix reset s hwf
    unfold Start at hf
    cases h : tick reset s with
    | panic p s1 =>
      rw [h] at hf hk
      simp only [state_panic] at hf hk
      rw [hk, List.append_assoc] at hf
      have := List.append_cancel_left hf
      have hm : t2 ∈ (captured s).take k := by rw [this]; simp
      exact absurd (List.mem_of_mem_take hm) hnot
    | ok s1 =>
      rw [h] at hf hk hok
      simp only [state_ok] at hf hk
      have hkl := hok rfl
      rw [hkl, List.take_length] at hk
      obtain ⟨hw1, _, hl1, _⟩ := tick_pos_cases hwf h
      obtain ⟨l, hl⟩ := Start_fired_extends reset n s1 hw1
      have hsplit : pre ++ t2 :: post = captured s ++ l := by
        have := hf
        rw [hl, hk, List.append_assoc, List.append_assoc] at this
        exact (List.append_cancel_left this).symm
      obtain ⟨m, hpre, hrest⟩ := append_split_of_not_mem hnot hsplit
      by_cases hz : b1 = s.tw.pos.toNat
      · rw [hpre]
        refine List.mem_append_left _ ?_
        show t1 ∈ s.tw.wheel.getD s.tw.pos.toNat []
        rw [← hz]
        exact h1
      · rw [hpre]
        refine List.mem_append_right _ ?_
        have hd1 := tick_distance hwf hb1 hz h
        have hd2 := tick_distance hwf hb2 hne2 h
        have h2' : ∀ j, j ≠ b2 → cnt s1 j t2 = 0 := by
          intro j hj
          rw [(tick_other hwf h hnot).2.1 j]
          exact h2 j hj
        refine ih s1 hw1 (by rw [hl1]; exact hb1) (by rw [hl1]; exact hb2)
          (tick_mem_persist hwf hz h1 h) h2' (by omega) m ?_
        rw [hl, hrest, List.append_assoc]

theorem eq_nil_of_only {l : List TimerPtr} {t : TimerPtr} (h : ∀ p ∈ l, p = t)
    (hc : l.count t = 0) : l = [] := by
  cases l with
  | nil => rfl
  | cons a l =>
    have := h a (List.mem_cons_self _ _)
    subst this
    simp at hc

theorem eq_single_of_only {l : List TimerPtr} {t : TimerPtr} (h : ∀ p ∈ l, p = t)
    (hc : l.count t = 1) : l = [t] := by
  cases l with
  | nil => simp at hc
  | cons a l =>
    have ha := h a (List.mem_cons_self _ _)
    subst ha
    rw [List.count_cons_self] at hc
    have := eq_nil_of_only (fun p hp => h p (List.mem_cons_of_mem _ hp)) (by omega)
    rw [this]

theorem OnlyTimer_tick {reset : Timer → Timer} {s s1 : State} {t : TimerPtr} (hwf : s.tw.WF)
    (ho : OnlyTimer s t) (h : tick reset s = .ok s1) : OnlyTimer s1 t := by
  rw [tick_eq_fireAll reset s hwf] at h
  intro j p hp
  rw [fireAll_bucket h j, (cleared_spec s hwf).2.2.2.2.2.2 j] at hp
  rcases List.mem_append.mp hp with hp | hp
  · by_cases hj : j = s.tw.pos.toNat
    · rw [if_pos hj] at hp; cases hp
    · rw [if_neg hj] at hp; exact ho j p hp
  · exact ho _ p ((rearmedInto_sublist reset j _ _).subset hp)

/-- A wheel that holds nothing but one pending one-shot timer, or nothing at all, never
fails a tick. -/
theorem Start_total_oneShot (reset : Timer → Timer) (n : Nat) (s : State) (t : TimerPtr)
    (hwf : s.tw.WF) (ho : OnlyTimer s t)
    (hinv : (∃ b, Pending1 s t b ∧ (s.heap t).periodNumber = 0) ∨ ∀ j, cnt s j t = 0) :
    ∃ s1, Start reset n s = .ok s1 := by
  induction n generalizing s with
  | zero => exact ⟨s, rfl⟩
  | succ n ih =>
    have hstep : ∃ s2, tick reset s = .ok s2 := by
      rw [tick_eq_fireAll reset s hwf]
      have hempty : (captured s).count t = 0 → ∃ s2, fireAll reset (captured s) (cleared s) =
          .ok s2 := by
        intro hc
        have hnil : captured s = [] := eq_nil_of_only (ho _) hc
        rw [hnil]
        exact ⟨_, rfl⟩
      rcases hinv with ⟨b, hp, hr⟩ | habs
      · by_cases hb : b = s.tw.pos.toNat
        · have hc : (captured s).count t = 1 := by
            rw [captured_count, hp.2, if_pos hb.symm]
          have hone : captured s = [t] := eq_single_of_only (ho _) hc
          rw [hone]
          unfold fireAll
          have h0 : ((TimerHandler (cleared s) t).heap t).periodNumber = 0 := hr
          rw [check_zero reset _ t h0]
          exact ⟨_, rfl⟩
        · exact hempty (by rw [captured_count, hp.2, if_neg (fun e => hb e.symm)])
      · exact hempty (by rw [captured_count, habs])
    obtain ⟨s2, h2⟩ := hstep
    have hw2 := (tick_pos_cases hwf h2).1
    have ho2 := OnlyTimer_tick hwf ho h2
    have hinv2 : (∃ b, Pending1 s2 t b ∧ (s2.heap t).periodNumber = 0) ∨
        ∀ j, cnt s2 j t = 0 := by
      rcases hinv with ⟨b, hp, hr⟩ | habs
      · by_cases hb : b = s.tw.pos.toNat
        · rcases (tick_pending_self hwf hp hb h2).2 with ⟨_, _, ha⟩ | ⟨hne, _⟩
          · exact Or.inr ha
          · exact absurd hr hne
        · obtain ⟨hp2, hh2, _, _⟩ := tick_pending_other hwf hp hb h2
          exact Or.inl ⟨b, hp2, by rw [hh2]; exact hr⟩
      · exact Or.inr (tick_absent hwf habs h2).1
    obtain ⟨s3, h3⟩ := ih s2 hw2 ho2 hinv2
    refine ⟨s3, ?_⟩
    unfold Start
    rw [h2]
    exact h3

/-- C1 (amended): on a wheel with at least one bucket, as many buckets as `wheelSize`,
a positive interval and a non-negative cursor, `AddTimer` of a timer whose period exceeds
`wheelSize * interval` panics in the unchanged state: no callback is invoked and no bucket
receives the timer. -/
theorem AddTimer_period_beyond_wheel_panics (reset : Timer → Timer) (s : State) (t : TimerPtr)
    (hlen : (s.tw.wheel.length : Int) = s.tw.wheelSize)
    (hsize : 1 ≤ s.tw.wheelSize)
    (hint : 0 < s.tw.interval)
    (hpos : 0 ≤ s.tw.pos) (hpos64 : s.tw.pos < 9223372036854775808)
    (hper64 : (s.heap t).period < 9223372036854775808)
    (hper : (s.heap t).period > s.tw.wheelSize * s.tw.interval) :
    ∃ p, AddTimer reset s t = .panic p s := by
  have hmul : 0 ≤ s.tw.wheelSize * s.tw.interval :=
    Int.mul_nonneg (by omega) (le_of_lt hint)
  have hp0 : 0 ≤ (s.heap t).period := by omega
  have hq := div_nonneg_le hp0 hint
  have hge : s.tw.wheelSize ≤ (s.heap t).period / s.tw.interval :=
    Int.le_ediv_of_mul_le hint (le_of_lt hper)
  have hi0 : s.tw.interval ≠ 0 := by omega
  unfold AddTimer addedPosition
  rw [if_neg hi0, tdiv_eq_div hp0 hint]
  generalize (s.heap t).period / s.tw.interval = q at hq hge
  have hwq : wrapInt64 q = q := wrapInt64_eq_self ⟨by omega, by omega⟩
  rw [hwq]
  simp only []
  by_cases hgt : wrapInt64 (q + s.tw.pos) > s.tw.wheelSize
  · exact ⟨.badTimeout, by rw [if_pos hgt]⟩
  · rw [if_neg hgt]
    have hne : wrapInt64 (q + s.tw.pos) ≠ s.tw.pos := by
      unfold wrapInt64 at hgt ⊢; omega
    rw [if_neg hne]
    have hidx : bucketIndex s.tw.wheel (wrapInt64 (q + s.tw.pos)) = none := by
      unfold bucketIndex
      rw [if_neg]
      unfold wrapInt64 at hgt ⊢; omega
    exact ⟨.indexOutOfRange, by rw [hidx]⟩

theorem AddTimer_period_beyond_wheel_panics_witness :
    ∃ p, AddTimer resetIdle (demoState (demoWheel 0) ⟨9, 0⟩) 5 =
      .panic p (demoState (demoWheel 0) ⟨9, 0⟩) :=
  AddTimer_period_beyond_wheel_panics resetIdle (demoState (demoWheel 0) ⟨9, 0⟩) 5
    (by decide) (by decide) (by decide) (by decide) (by decide) (by decide) (by decide)

/-- C1 (as stated) fails: the wheel built by `Init` with interval 2 and no bucket, cursor 0,
is given a one-shot timer of period 1, which exceeds `wheelSize * interval = 0`; `AddTimer`
returns normally after invoking the callback. -/
theorem AddTimer_period_beyond_wheel_counterexample :
    ∃ tw, Init zeroWheel 2 0 = some tw ∧ 0 < tw.interval ∧
      ((demoState tw ⟨1, 0⟩).heap 5).period > tw.wheelSize * tw.interval ∧
      (AddTimer resetIdle (demoState tw ⟨1, 0⟩) 5).isOk = true ∧
      (AddTimer resetIdle (demoState tw ⟨1, 0⟩) 5).state.fired = [5] :=
  ⟨_, rfl, by decide, by decide, rfl, rfl⟩

/-- C2 (amended): on a well-formed wheel, a one-shot timer that is not yet pending, with
`k = floor(d/i) >= 1` and `k + pos` inside the wheel, is stored by `AddTimer`; its callback
has not been invoked when `n <= k` ticks have completed and has been invoked exactly once
when `n >= k + 1` ticks have completed: it fires during tick `k + 1`.  When the wheel
holds no other timer, every number of ticks does complete. -/
theorem oneShot_fires_during_tick_after_delay (reset : Timer → Timer) (s : State)
    (t : TimerPtr) (hwf : s.tw.WF) (ht : (s.heap t).WF)
    (hone : (s.heap t).periodNumber = 0)
    (hk : 1 ≤ (s.heap t).period / s.tw.interval)
    (hb : (s.heap t).period / s.tw.interval + s.tw.pos < s.tw.wheelSize)
    (hnp : notPending s t) :
    ∃ s1, AddTimer reset s t = .ok s1 ∧ s1.fired = s.fired ∧
      (∀ n s2, Start reset n s1 = .ok s2 →
        s2.fired.count t = s.fired.count t +
          (if n ≤ ((s.heap t).period / s.tw.interval).toNat then 0 else 1)) ∧
      ((∀ b ∈ s.tw.wheel, b = []) → ∀ n, ∃ s2, Start reset n s1 = .ok s2) := by
  obtain ⟨hadd, hlt⟩ := AddTimer_eq_insertAt reset s t hwf ht hb (by omega)
  have hcnt := (notPending_iff_cnt s t).mp hnp
  have hp1 := insertAt_pending hlt hcnt
  refine ⟨_, hadd, rfl, ?_, ?_⟩
  swap
  · intro hempty n
    have hget : ∀ j, s.tw.wheel.getD j [] = [] := by
      intro j
      by_cases hj : j < s.tw.wheel.length
      · have : s.tw.wheel.getD j [] = s.tw.wheel[j] := by
          simp [List.getD_eq_getElem?_getD, hj]
        rw [this]
        exact hempty _ (List.getElem_mem _)
      · simp [List.getD_eq_getElem?_getD, List.getElem?_eq_none (not_lt.mp hj)]
    refine Start_total_oneShot reset n _ t
      (WF_of_params hwf ⟨rfl, rfl, rfl, length_appendAt _ _ _⟩) ?_ (Or.inl ⟨_, hp1, hone⟩)
    intro j p hp
    have hp' : p ∈ (appendAt s.tw.wheel
        ((s.heap t).period / s.tw.interval + s.tw.pos).toNat t).getD j [] := hp
    rw [getD_appendAt _ _ _ _ hlt, hget j] at hp'
    by_cases hj : j = ((s.heap t).period / s.tw.interval + s.tw.pos).toNat
    · rw [if_pos hj] at hp'
      simpa using hp'
    · rw [if_neg hj] at hp'
      cases hp'
  generalize hs1 : insertAt s ((s.heap t).period / s.tw.interval + s.tw.pos).toNat t = s1
    at hp1
  have hw1 : s1.tw.WF := by
    rw [← hs1]
    exact WF_of_params hwf ⟨rfl, rfl, rfl, length_appendAt _ _ _⟩
  have hheap : s1.heap t = s.heap t := by rw [← hs1]; rfl
  have hfired : s1.fired = s.fired := by rw [← hs1]; rfl
  have hdist : distance s1 ((s.heap t).period / s.tw.interval + s.tw.pos).toNat =
      ((s.heap t).period / s.tw.interval).toNat := by
    have hpos : s1.tw.pos = s.tw.pos := by rw [← hs1]; rfl
    have h0 := hwf.pos_nonneg
    unfold distance
    rw [hpos]
    split_ifs <;> omega
  generalize ((s.heap t).period / s.tw.interval + s.tw.pos).toNat = b at hp1 hdist
  generalize ((s.heap t).period / s.tw.interval).toNat = k at hdist
  intro n s2 hrun
  by_cases hn : n ≤ k
  · rw [if_pos hn]
    obtain ⟨_, _, _, hc, _⟩ := Start_before_fire hw1 hp1 (by omega) hrun
    rw [hc, hfired]
    rfl
  · rw [if_neg hn]
    obtain ⟨m, rfl⟩ : ∃ m, n = k + (m + 1) := ⟨n - k - 1, by omega⟩
    obtain ⟨sk, hrk, hrest⟩ := Start_add_ok hrun
    obtain ⟨hwk, hpk, hhk, hck, hdk⟩ := Start_before_fire hw1 hp1 (by omega) hrk
    obtain ⟨sf, htick, hafter⟩ := Start_succ_ok hrest
    have hposb : b = sk.tw.pos.toNat := (distance_zero_iff hwk).mp (by omega)
    obtain ⟨hcf, hcase⟩ := tick_pending_self hwk hpk hposb htick
    have hr0 : (sk.heap t).periodNumber = 0 := by rw [hhk, hheap]; exact hone
    rcases hcase with ⟨_, _, habs⟩ | ⟨hne, _⟩
    · obtain ⟨_, _, hc2⟩ := Start_absent (tick_pos_cases hwk htick).1 habs hafter
      rw [hc2, hcf, hck, hfired]
    · exact absurd hr0 hne

theorem oneShot_fires_during_tick_after_delay_witness :
    ∃ s1 s3 s4, AddTimer resetIdle (demoState (demoWheel 0) ⟨3, 0⟩) 5 = .ok s1 ∧
      Start resetIdle 3 s1 = .ok s3 ∧ s3.fired.count 5 = 0 ∧ s3.tw.pos = 3 ∧
      Start resetIdle 4 s1 = .ok s4 ∧ s4.fired.count 5 = 1 ∧ s4.tw.pos = 4 := by
  obtain ⟨s1, h1, _, hrun, _⟩ :=
    oneShot_fires_during_tick_after_delay resetIdle (demoState (demoWheel 0) ⟨3, 0⟩) 5
      demoWheel_WF ⟨by decide, by decide, by decide⟩ rfl (by decide) (by decide) (by decide)
  have e : s1 = insertAt (demoState (demoWheel 0) ⟨3, 0⟩) 3 5 := by
    have h2 : AddTimer resetIdle (demoState (demoWheel 0) ⟨3, 0⟩) 5 =
        .ok (insertAt (demoState (demoWheel 0) ⟨3, 0⟩) 3 5) := rfl
    rw [h1] at h2
    injection h2
  subst e
  exact ⟨_, _, _, h1, rfl, (hrun 3 _ rfl).trans (by decide), rfl,
    rfl, (hrun 4 _ rfl).trans (by decide), rfl⟩

/-- C2 (as stated) fails on its own scenario: with `wheelSize = 8`, `interval = 1`,
`pos = 0` and delay 3, when 3 ticks have been processed the cursor is 3 and the callback
has not been invoked; it is invoked by the fourth tick. -/
theorem oneShot_fires_after_k_ticks_counterexample :
    ∃ tw s1 s3 s4, Init zeroWheel 1 8 = some tw ∧ tw.pos = 0 ∧
      AddTimer resetIdle (demoState tw ⟨3, 0⟩) 5 = .ok s1 ∧
      Start resetIdle 3 s1 = .ok s3 ∧ s3.tw.pos = 3 ∧ s3.fired = [] ∧
      Start resetIdle 4 s1 = .ok s4 ∧ s4.fired = [5] :=
  ⟨_, _, _, _, rfl, rfl, rfl, rfl, rfl, rfl, rfl, rfl⟩

/-- C3 (amended): on a well-formed wheel, let a timer with repeat count `N > 0`, not yet
pending, be added successfully.  As long as the tick loop completes its ticks, the callback
is invoked at most `N + 1` times in total (the inline fire of `AddTimer` included); once
`(N + 1) * wheelSize` ticks have completed it has been invoked exactly `N + 1` times, the
timer is in no bucket, and no longer run fires it again. -/
theorem periodic_timer_fires_N_plus_one (reset : Timer → Timer) (s s1 : State)
    (t : TimerPtr) (N : Nat) (hwf : s.tw.WF) (hN : 0 < N)
    (hr : (s.heap t).periodNumber = (N : Int)) (hnp : notPending s t)
    (hadd : AddTimer reset s t = .ok s1) :
    ∀ n s2, Start reset n s1 = .ok s2 →
      s2.fired.count t ≤ s.fired.count t + N + 1 ∧
      ((N + 1) * s.tw.wheel.length ≤ n →
        s2.fired.count t = s.fired.count t + N + 1 ∧ notPending s2 t) := by
  intro n s2 hrun
  have hcnt := (notPending_iff_cnt s t).mp hnp
  have hne : (s.heap t).periodNumber ≠ 0 := by rw [hr]; exact_mod_cast (by omega : N ≠ 0)
  obtain ⟨hw1, hl1, i, hp1, hcase⟩ := AddTimer_track hwf hcnt hne hadd
  have hd := distance_lt hw1 hp1.1
  have hmul : (N + 1) * s.tw.wheel.length = N * s.tw.wheel.length + s.tw.wheel.length :=
    Nat.succ_mul _ _
  rw [notPending_iff_cnt]
  rcases hcase with ⟨hf, hnum⟩ | ⟨hf, hnum⟩
  · obtain ⟨a, b⟩ := Start_track_nonneg hw1 hp1 (hnum.trans hr) hrun
    rw [hf] at a b
    rw [hl1] at b hd
    exact ⟨a, fun hn => b (by omega)⟩
  · obtain ⟨M, rfl⟩ : ∃ M, N = M + 1 := ⟨N - 1, by omega⟩
    have hr1 : (s1.heap t).periodNumber = (M : Int) := by
      rw [hnum, hr]
      push_cast
      rw [if_pos (by omega)]
      omega
    obtain ⟨a, b⟩ := Start_track_nonneg hw1 hp1 hr1 hrun
    have hc1 : s1.fired.count t = s.fired.count t + 1 := by
      rw [hf, List.count_append]; simp
    rw [hl1] at b hd
    have hmul2 : (M + 1) * s.tw.wheel.length = M * s.tw.wheel.length + s.tw.wheel.length :=
      Nat.succ_mul _ _
    refine ⟨by omega, fun hn => ?_⟩
    obtain ⟨e1, e2⟩ := b (by omega)
    exact ⟨by omega, e2⟩

theorem periodic_timer_fires_N_plus_one_witness :
    ∃ s1 s2, AddTimer resetIdle (demoState (demoWheel 0) ⟨3, 1⟩) 5 = .ok s1 ∧
      Start resetIdle 16 s1 = .ok s2 ∧
      s2.fired.count 5 = (demoState (demoWheel 0) ⟨3, 1⟩).fired.count 5 + 1 + 1 ∧
      notPending s2 5 :=
  ⟨_, _, rfl, rfl,
    (periodic_timer_fires_N_plus_one resetIdle (demoState (demoWheel 0) ⟨3, 1⟩) _ 5 1
      demoWheel_WF (by decide) rfl (by decide) rfl 16 _ rfl).2 (by decide)⟩

/-- C3 (as stated) fails: on the wheel `Init(1, 8)` a timer of period 2 and repeat count 2
is added successfully, fires at ticks 3 and 6, and the rearm of the second fire lands on
bucket 8: the tick loop panics after two invocations instead of three. -/
theorem periodic_timer_fires_N_plus_one_counterexample :
    ∃ tw s1, Init zeroWheel 1 8 = some tw ∧
      AddTimer resetIdle (demoState tw ⟨2, 2⟩) 5 = .ok s1 ∧
      (Start resetIdle 6 s1).isOk = false ∧
      (Start resetIdle 6 s1).state.fired = [5, 5] :=
  ⟨_, _, rfl, rfl, rfl, rfl⟩

/-- C4 (amended): on a well-formed wheel, let a timer with a negative repeat count, not yet
pending, be added successfully.  After any number of completed ticks the timer is pending in
a bucket of the wheel, its repeat count is unchanged, and any further `wheelSize` (or more)
completed ticks fire it again. -/
theorem endless_timer_stays_pending (reset : Timer → Timer) (s s1 : State) (t : TimerPtr)
    (hwf : s.tw.WF) (hr : (s.heap t).periodNumber < 0) (hnp : notPending s t)
    (hadd : AddTimer reset s t = .ok s1) :
    ∀ n s2, Start reset n s1 = .ok s2 →
      (∃ b, b < s2.tw.wheel.length ∧ t ∈ s2.tw.wheel.getD b []) ∧
      (s2.heap t).periodNumber = (s.heap t).periodNumber ∧
      (∀ m s3, s.tw.wheel.length ≤ m → Start reset m s2 = .ok s3 →
        s2.fired.count t < s3.fired.count t) := by
  intro n s2 hrun
  have hcnt := (notPending_iff_cnt s t).mp hnp
  obtain ⟨hw1, hl1, i, hp1, hcase⟩ := AddTimer_track hwf hcnt (by omega) hadd
  have hnum1 : (s1.heap t).periodNumber = (s.heap t).periodNumber := by
    rcases hcase with ⟨_, hnum⟩ | ⟨_, hnum⟩
    · exact hnum
    · rw [hnum, if_neg (by omega)]
  obtain ⟨hw2, ⟨b, hp2⟩, hnum2⟩ := Start_track_neg hw1 hp1 (by rw [hnum1]; exact hr) hrun
  refine ⟨⟨b, hp2.1, ?_⟩, hnum2.trans hnum1, fun m s3 hm hrun3 => ?_⟩
  · have := hp2.2 b
    rw [if_pos rfl, cnt_eq] at this
    exact List.count_pos_iff.mp (by omega)
  · have hd := distance_lt hw2 hp2.1
    have hl2 := (Start_pos hw1 hrun).2.2.2
    exact Start_fires_within hw2 hp2 (by omega) hrun3

theorem endless_timer_stays_pending_witness :
    AddTimer resetIdle (demoState smallWheel ⟨1, -1⟩) 5 = .ok endlessAdded ∧
    Start resetIdle 3 endlessAdded = .ok (endlessRan 3) ∧
    (∃ b, b < (endlessRan 3).tw.wheel.length ∧ 5 ∈ (endlessRan 3).tw.wheel.getD b []) ∧
    ((endlessRan 3).heap 5).periodNumber = -1 ∧
    Start resetIdle 2 (endlessRan 3) = .ok (endlessRan 5) ∧
    (endlessRan 3).fired.count 5 < (endlessRan 5).fired.count 5 :=
  have h := endless_timer_stays_pending resetIdle (demoState smallWheel ⟨1, -1⟩)
    endlessAdded 5 ⟨by decide, by decide, by decide, by decide, by decide⟩
    (by decide) (by decide) rfl 3 (endlessRan 3) rfl
  ⟨rfl, rfl, h.1, h.2.1, rfl, h.2.2 2 (endlessRan 5) (by decide) rfl⟩

/-- C4 (as stated) fails: on the wheel `Init(1, 8)` an endless timer (repeat count -1) of
period 2 is added successfully, fires at ticks 3 and 6, and the rearm of the second fire
lands on bucket 8: the sixth tick panics and the timer is left in no bucket. -/
theorem endless_timer_stays_pending_counterexample :
    ∃ tw s1, Init zeroWheel 1 8 = some tw ∧
      AddTimer resetIdle (demoState tw ⟨2, -1⟩) 5 = .ok s1 ∧
      (Start resetIdle 5 s1).isOk = true ∧
      (Start resetIdle 6 s1).isOk = false ∧
      notPending (Start resetIdle 6 s1).state 5 :=
  ⟨_, _, rfl, rfl, rfl, rfl, by decide⟩

/-- C5: when the computed bucket `floor(period/interval) + pos` equals the cursor,
`AddTimer` returns after invoking the callback exactly once and applying the very rearm
step the tick loop applies to a fired timer (`fireAll` on the single timer); a one-shot
timer is reset and no bucket is changed, so it is put in no bucket. -/
theorem AddTimer_zero_delay_fires_inline (reset : Timer → Timer) (s : State) (t : TimerPtr)
    (hwf : s.tw.WF) (ht : (s.heap t).WF)
    (hb : (s.heap t).period / s.tw.interval + s.tw.pos = s.tw.pos) :
    AddTimer reset s t = checkAndAddTimerAgain reset (TimerHandler s t) t ∧
    AddTimer reset s t = fireAll reset [t] s ∧
    (AddTimer reset s t).isOk = true ∧
    (AddTimer reset s t).state.fired = s.fired ++ [t] ∧
    ((s.heap t).periodNumber = 0 →
      AddTimer reset s t = .ok { tw := s.tw, fired := s.fired ++ [t],
                                 heap := Function.update s.heap t (reset (s.heap t)) }) := by
  have hsz := hwf.size
  have hlt := hwf.pos_lt
  have hpos := hwf.pos_nonneg
  have hadd := addedPosition_eq_floor s.tw (s.heap t) ht hwf.interval_pos hwf.pos_nonneg
    (by omega)
  rw [hb] at hadd
  have h1 : AddTimer reset s t = checkAndAddTimerAgain reset (TimerHandler s t) t := by
    unfold AddTimer
    rw [hadd]
    simp only []
    rw [if_neg (by omega)]
    simp only [if_true]
  have h2 : fireAll reset [t] s = checkAndAddTimerAgain reset (TimerHandler s t) t := by
    unfold fireAll
    cases checkAndAddTimerAgain reset (TimerHandler s t) t <;> rfl
  have hidx : bucketIndex (TimerHandler s t).tw.wheel s.tw.pos = some s.tw.pos.toNat :=
    bucketIndex_of_lt _ _ hpos
      (by have := hwf.len; show s.tw.pos < (s.tw.wheel.length : Int); omega)
  refine ⟨h1, h1.trans h2.symm, ?_, ?_, ?_⟩
  · rw [h1]
    by_cases h0 : ((TimerHandler s t).heap t).periodNumber = 0
    · rw [check_zero reset _ t h0]; rfl
    · rw [check_rearm reset _ t _ _ h0 hadd hidx]; rfl
  · rw [h1, check_fired]; rfl
  · intro h0
    rw [h1, check_zero reset (TimerHandler s t) t h0]; rfl

theorem AddTimer_zero_delay_fires_inline_witness :
    AddTimer resetIdle (demoState (demoWheel 0) ⟨0, 0⟩) 5 =
        checkAndAddTimerAgain resetIdle (TimerHandler (demoState (demoWheel 0) ⟨0, 0⟩) 5) 5 ∧
    AddTimer resetIdle (demoState (demoWheel 0) ⟨0, 0⟩) 5 =
        fireAll resetIdle [5] (demoState (demoWheel 0) ⟨0, 0⟩) ∧
    (AddTimer resetIdle (demoState (demoWheel 0) ⟨0, 0⟩) 5).isOk = true ∧
    (AddTimer resetIdle (demoState (demoWheel 0) ⟨0, 0⟩) 5).state.fired =
        (demoState (demoWheel 0) ⟨0, 0⟩).fired ++ [5] ∧
    (((demoState (demoWheel 0) ⟨0, 0⟩).heap 5).periodNumber = 0 →
      AddTimer resetIdle (demoState (demoWheel 0) ⟨0, 0⟩) 5 =
        .ok { tw := (demoState (demoWheel 0) ⟨0, 0⟩).tw,
              fired := (demoState (demoWheel 0) ⟨0, 0⟩).fired ++ [5],
              heap := Function.update (demoState (demoWheel 0) ⟨0, 0⟩).heap 5
                (resetIdle ((demoState (demoWheel 0) ⟨0, 0⟩).heap 5)) }) :=
  AddTimer_zero_delay_fires_inline resetIdle (demoState (demoWheel 0) ⟨0, 0⟩) 5
    demoWheel_WF ⟨by decide, by decide, by decide⟩ (by decide)

/-- C6 (amended): the rearm step on a well-formed wheel, with `b = floor(period/interval) + pos`.
Repeat count 0: the timer is reset and no bucket changes.  Repeat count positive and `b` a
bucket of the wheel: the timer is appended to bucket `b` and the count drops by one.  Repeat
count negative and `b` a bucket of the wheel: the timer is appended to bucket `b` and the
count is unchanged. -/
theorem checkAndAddTimerAgain_trichotomy (reset : Timer → Timer) (s : State) (t : TimerPtr)
    (hwf : s.tw.WF) (ht : (s.heap t).WF) :
    ((s.heap t).periodNumber = 0 →
      checkAndAddTimerAgain reset s t =
        .ok { tw := s.tw, fired := s.fired,
              heap := Function.update s.heap t (reset (s.heap t)) }) ∧
    ((s.heap t).periodNumber ≠ 0 →
      (s.heap t).period / s.tw.interval + s.tw.pos < s.tw.wheelSize →
      ∃ s1, checkAndAddTimerAgain reset s t = .ok s1 ∧
        s1.fired = s.fired ∧ s1.tw.pos = s.tw.pos ∧ s1.tw.interval = s.tw.interval ∧
        s1.tw.wheelSize = s.tw.wheelSize ∧ s1.tw.wheel.length = s.tw.wheel.length ∧
        (∀ j, s1.tw.wheel.getD j [] =
          if j = ((s.heap t).period / s.tw.interval + s.tw.pos).toNat
          then s.tw.wheel.getD j [] ++ [t] else s.tw.wheel.getD j []) ∧
        (∀ p, p ≠ t → s1.heap p = s.heap p) ∧
        (s1.heap t).period = (s.heap t).period ∧
        ((s.heap t).periodNumber > 0 →
          (s1.heap t).periodNumber = (s.heap t).periodNumber - 1) ∧
        ((s.heap t).periodNumber < 0 →
          (s1.heap t).periodNumber = (s.heap t).periodNumber)) := by
  refine ⟨fun h0 => check_zero reset s t h0, fun h0 hb => ?_⟩
  have hsz := hwf.size
  have hpos := hwf.pos_nonneg
  have hlen := hwf.len
  have hq := div_nonneg_le ht.period_nonneg hwf.interval_pos
  have hadd := addedPosition_eq_floor s.tw (s.heap t) ht hwf.interval_pos hwf.pos_nonneg
    (by omega)
  have hidx := bucketIndex_of_lt s.tw.wheel
    ((s.heap t).period / s.tw.interval + s.tw.pos) (by omega) (by omega)
  have hi := (bucketIndex_some hidx).2.2
  refine ⟨_, check_rearm reset s t _ _ h0 hadd hidx, rfl, rfl, rfl, rfl, ?_, ?_, ?_, ?_, ?_, ?_⟩
  · exact length_appendAt _ _ _
  · intro j
    exact getD_appendAt _ _ _ _ hi
  · intro p hp
    unfold rearmAt
    by_cases hr : (s.heap t).periodNumber > 0
    · simp only [if_pos hr]
      exact Function.update_noteq hp _ _
    · simp only [if_neg hr]
  · unfold rearmAt
    by_cases hr : (s.heap t).periodNumber > 0
    · simp only [if_pos hr, Function.update_same]
    · simp only [if_neg hr]
  · intro hr
    unfold rearmAt
    simp only [if_pos hr, Function.update_same]
  · intro hr
    unfold rearmAt
    rw [if_neg (by omega)]

theorem checkAndAddTimerAgain_trichotomy_witness :
    ∃ s1, checkAndAddTimerAgain resetIdle (demoState (demoWheel 0) ⟨3, 2⟩) 5 = .ok s1 ∧
      s1.tw.wheel.getD 3 [] = [5] ∧ (s1.heap 5).periodNumber = 1 := by
  obtain ⟨s1, h, _, _, _, _, _, hw, _, _, hr, _⟩ :=
    (checkAndAddTimerAgain_trichotomy resetIdle (demoState (demoWheel 0) ⟨3, 2⟩) 5
      demoWheel_WF ⟨by decide, by decide, by decide⟩).2 (by decide) (by decide)
  exact ⟨s1, h, (hw 3).trans (by decide), hr (by decide)⟩

/-- C6 (as stated) fails: on an eight-bucket wheel with interval 1 and cursor 7, a timer of
period 2 and repeat count 1 is not appended anywhere and keeps its count: the step panics. -/
theorem checkAndAddTimerAgain_trichotomy_counterexample :
    (demoWheel 7).WF ∧ (⟨2, 1⟩ : Timer).WF ∧
    checkAndAddTimerAgain resetIdle (demoState (demoWheel 7) ⟨2, 1⟩) 5 =
      .panic .indexOutOfRange (demoState (demoWheel 7) ⟨2, 1⟩) :=
  ⟨⟨by decide, by decide, by decide, by decide, by decide⟩, ⟨by decide, by decide, by decide⟩,
    rfl⟩

/-- C7 (amended): on a well-formed wheel one tick always moves the cursor to
`(pos + 1) mod wheelSize` and keeps the wheel well formed.  A tick that completes invokes the
callbacks of the timers captured from `bucket[pos]`, each occurrence once and in bucket
order, and leaves in `bucket[pos]` exactly the timers the rearm step put back into it (a
sublist of the fired ones).  `0 <= pos < wheelSize` is invariant under any number of ticks,
`n` completed ticks move the cursor to `(pos + n) mod wheelSize`, and `wheelSize` completed
ticks bring it back to its starting value. -/
theorem tick_advances_cursor_and_fires_bucket (reset : Timer → Timer) (s : State)
    (hwf : s.tw.WF) :
    (tick reset s).state.tw.pos = (s.tw.pos + 1) % s.tw.wheelSize ∧
    (tick reset s).state.tw.WF ∧
    (∀ s1, tick reset s = .ok s1 →
      s1.fired = s.fired ++ s.tw.wheel.getD s.tw.pos.toNat [] ∧
      (∀ t, s1.fired.count t = s.fired.count t + (s.tw.wheel.getD s.tw.pos.toNat []).count t) ∧
      s1.tw.wheel.getD s.tw.pos.toNat [] =
        rearmedInto reset s.tw.pos.toNat (captured s) (cleared s) ∧
      (s1.tw.wheel.getD s.tw.pos.toNat []).Sublist (s.tw.wheel.getD s.tw.pos.toNat [])) ∧
    (∀ n, 0 ≤ (Start reset n s).state.tw.pos ∧
      (Start reset n s).state.tw.pos < (Start reset n s).state.tw.wheelSize ∧
      (Start reset n s).state.tw.wheelSize = s.tw.wheelSize) ∧
    (∀ n s1, Start reset n s = .ok s1 → s1.tw.pos = (s.tw.pos + n) % s.tw.wheelSize) ∧
    (∀ s1, Start reset s.tw.wheelSize.toNat s = .ok s1 → s1.tw.pos = s.tw.pos) := by
  have htp := tick_params reset s hwf
  refine ⟨htp.2.1, htp.1, ?_, ?_, ?_, ?_⟩
  · intro s1 h1
    rw [tick_eq_fireAll reset s hwf] at h1
    have hf := fireAll_fired h1
    have hb := fireAll_bucket h1 s.tw.pos.toNat
    have hc := (cleared_spec s hwf).2.2.2.2.2.2 s.tw.pos.toNat
    rw [if_pos rfl] at hc
    rw [hc, List.nil_append] at hb
    have hf2 : s1.fired = s.fired ++ s.tw.wheel.getD s.tw.pos.toNat [] := hf
    refine ⟨hf2, ?_, hb, ?_⟩
    · intro t
      rw [hf2, List.count_append]
    · rw [hb]
      exact rearmedInto_sublist reset _ _ _
  · intro n
    have hw := Start_WF reset n s hwf
    refine ⟨hw.pos_nonneg, hw.pos_lt, ?_⟩
    clear hw
    induction n generalizing s with
    | zero => rfl
    | succ n ih =>
      have ht := tick_params reset s hwf
      unfold Start
      cases h : tick reset s with
      | ok s1 =>
        rw [h] at ht
        simp only [state_ok] at ht
        exact (ih s1 ht.1 (tick_params reset s1 ht.1)).trans ht.2.2.2.1
      | panic p s1 =>
        rw [h] at ht
        exact ht.2.2.2.1
  · intro n s1 h
    exact (Start_pos hwf h).1
  · intro s1 h
    have hp := (Start_pos hwf h).1
    have h0 := hwf.pos_nonneg
    have h1 := hwf.pos_lt
    rw [hp, Int.toNat_of_nonneg (by omega), Int.add_emod_self]
    exact Int.emod_eq_of_lt h0 h1

theorem tick_advances_cursor_and_fires_bucket_witness :
    (tick resetIdle (demoState (demoWheel 0) ⟨3, 0⟩)).state.tw.pos = 1 ∧
    ∃ s1, Start resetIdle 8 (demoState (demoWheel 0) ⟨3, 0⟩) = .ok s1 ∧ s1.tw.pos = 0 :=
  ⟨(tick_advances_cursor_and_fires_bucket resetIdle (demoState (demoWheel 0) ⟨3, 0⟩)
      demoWheel_WF).1.trans (by decide),
   _, rfl,
   (tick_advances_cursor_and_fires_bucket resetIdle (demoState (demoWheel 0) ⟨3, 0⟩)
      demoWheel_WF).2.2.2.2.2 _ rfl⟩

/-- C7 (as stated) fails: from `Init(1, 8)`, add the endless timer 0 of period 2, run three
ticks, add the one-shot timer 1 of period 2, run two ticks.  Bucket 5 under the cursor then
holds both timers; the next tick fires timer 0, fails rearming it at bucket 8, and never
invokes the callback of timer 1. -/
theorem tick_fires_every_timer_counterexample :
    ∃ tw s1 s2 s3 s4, Init zeroWheel 1 8 = some tw ∧
      AddTimer resetIdle { tw := tw, heap := heapTwo ⟨2, -1⟩ ⟨2, 0⟩, fired := [] } 0 = .ok s1 ∧
      Start resetIdle 3 s1 = .ok s2 ∧
      AddTimer resetIdle s2 1 = .ok s3 ∧
      Start resetIdle 2 s3 = .ok s4 ∧
      s4.tw.wheelSize = 8 ∧ s4.tw.pos = 5 ∧ s4.tw.wheel.getD 5 [] = [0, 1] ∧
      (tick resetIdle s4).isOk = false ∧
      (tick resetIdle s4).state.fired = s4.fired ++ [0] :=
  ⟨_, _, _, _, _, rfl, rfl, rfl, rfl, rfl, rfl, rfl, rfl, rfl, rfl⟩

/-- C8: on a well-formed wheel, `AddTimer` and the rearm step change a bucket only by
appending the timer at its end, and a completed tick only appends to the buckets it does
not capture, so the order inside a bucket is the order of insertion; a
tick invokes the callbacks of the captured bucket in that order (a prefix of the bucket, the
whole bucket when the tick completes), so a timer inserted earlier is fired before one
inserted later; and when the bucket of `t1` is nearer to the cursor than the only bucket
that may hold `t2`, every invocation of `t2` by a run of ticks is preceded by an invocation
of `t1` (`distance` counts the ticks processed before the cursor captures a bucket). -/
theorem timers_fire_in_insertion_order (reset : Timer → Timer) (s : State) (hwf : s.tw.WF) :
    (∀ t s1, AddTimer reset s t = .ok s1 → ∀ j,
      s1.tw.wheel.getD j [] = s.tw.wheel.getD j [] ∨
      s1.tw.wheel.getD j [] = s.tw.wheel.getD j [] ++ [t]) ∧
    (∀ t s1, checkAndAddTimerAgain reset s t = .ok s1 → ∀ j,
      s1.tw.wheel.getD j [] = s.tw.wheel.getD j [] ∨
      s1.tw.wheel.getD j [] = s.tw.wheel.getD j [] ++ [t]) ∧
    (∃ k, k ≤ (s.tw.wheel.getD s.tw.pos.toNat []).length ∧
      (tick reset s).state.fired = s.fired ++ (s.tw.wheel.getD s.tw.pos.toNat []).take k ∧
      ((tick reset s).isOk = true → k = (s.tw.wheel.getD s.tw.pos.toNat []).length)) ∧
    (∀ n t1 t2 b1 b2 pre post, b1 < s.tw.wheel.length → b2 < s.tw.wheel.length →
      t1 ∈ s.tw.wheel.getD b1 [] → (∀ j, j ≠ b2 → t2 ∉ s.tw.wheel.getD j []) →
      distance s b1 < distance s b2 →
      (Start reset n s).state.fired = s.fired ++ pre ++ t2 :: post → t1 ∈ pre) ∧
    (∀ s1, tick reset s = .ok s1 → ∀ j, j ≠ s.tw.pos.toNat →
      ∃ l, s1.tw.wheel.getD j [] = s.tw.wheel.getD j [] ++ l) := by
  have hchk : ∀ (s0 : State) t s1, checkAndAddTimerAgain reset s0 t = .ok s1 → ∀ j,
      s1.tw.wheel.getD j [] = s0.tw.wheel.getD j [] ∨
      s1.tw.wheel.getD j [] = s0.tw.wheel.getD j [] ++ [t] := by
    intro s0 t s1 h j
    rw [check_bucket h j]
    by_cases hb : rearmBucket s0 t = some j
    · rw [if_pos hb]; exact Or.inr rfl
    · rw [if_neg hb, List.append_nil]; exact Or.inl rfl
  refine ⟨?_, hchk s, tick_fired_prefix reset s hwf, ?_, ?_⟩
  · intro t s1 h j
    rcases AddTimer_ok_cases h with ⟨_, hck⟩ | ⟨a, i, _, _, hi, rfl⟩
    · exact hchk (TimerHandler s t) t s1 hck j
    · have hlt := (bucketIndex_some hi).2.2
      show (appendAt s.tw.wheel i t).getD j [] = _ ∨ (appendAt s.tw.wheel i t).getD j [] = _
      rw [getD_appendAt _ _ _ _ hlt]
      by_cases hj : j = i
      · rw [if_pos hj]; exact Or.inr rfl
      · rw [if_neg hj]; exact Or.inl rfl
  · intro n t1 t2 b1 b2 pre post hb1 hb2 h1 h2 hd hf
    exact Start_order reset n s t1 t2 b1 b2 hwf hb1 hb2 h1
      (fun j hj => List.count_eq_zero.mpr (h2 j hj)) hd pre post hf
  · intro s1 h j hj
    rw [tick_eq_fireAll reset s hwf] at h
    refine ⟨rearmedInto reset j (captured s) (cleared s), ?_⟩
    rw [fireAll_bucket h j, (cleared_spec s hwf).2.2.2.2.2.2 j, if_neg hj]

theorem timers_fire_in_insertion_order_witness :
    (Start resetIdle 4 orderDemo).state.fired = orderDemo.fired ++ [0] ++ 1 :: [] ∧
    (0 : TimerPtr) ∈ [(0 : TimerPtr)] :=
  ⟨rfl, (timers_fire_in_insertion_order resetIdle orderDemo
      ⟨by decide, by decide, by decide, by decide, by decide⟩).2.2.2.1
      4 0 1 1 3 [0] [] (by decide) (by decide) (by decide)
      (by
        intro j hj
        rcases j with _ | _ | _ | _ | _ | _ | _ | _ | j <;> simp_all [orderDemo])
      (by decide) rfl⟩

/-- C9 (amended): on a well-formed wheel, when the computed bucket
`b = floor(period/interval) + pos` is below the bucket count and differs from the cursor,
`AddTimer` returns without invoking the callback; bucket `b` becomes its old contents
followed by the timer; every other bucket, the cursor, the interval, the trace and every
timer (so the repeat count too) are unchanged. -/
theorem AddTimer_appends_to_bucket (reset : Timer → Timer) (s : State) (t : TimerPtr)
    (hwf : s.tw.WF) (ht : (s.heap t).WF)
    (hb : (s.heap t).period / s.tw.interval + s.tw.pos < s.tw.wheelSize)
    (hne : (s.heap t).period / s.tw.interval + s.tw.pos ≠ s.tw.pos) :
    ∃ s1, AddTimer reset s t = .ok s1 ∧
      s1.fired = s.fired ∧ s1.heap = s.heap ∧
      s1.tw.pos = s.tw.pos ∧ s1.tw.interval = s.tw.interval ∧
      s1.tw.wheelSize = s.tw.wheelSize ∧ s1.tw.wheel.length = s.tw.wheel.length ∧
      (∀ j, s1.tw.wheel.getD j [] =
        if j = ((s.heap t).period / s.tw.interval + s.tw.pos).toNat
        then s.tw.wheel.getD j [] ++ [t] else s.tw.wheel.getD j []) := by
  have hsz := hwf.size
  have hpos := hwf.pos_nonneg
  have hlen := hwf.len
  have hq := div_nonneg_le ht.period_nonneg hwf.interval_pos
  have hadd := addedPosition_eq_floor s.tw (s.heap t) ht hwf.interval_pos hwf.pos_nonneg
    (by omega)
  have hidx := bucketIndex_of_lt s.tw.wheel
    ((s.heap t).period / s.tw.interval + s.tw.pos) (by omega) (by omega)
  have hi := (bucketIndex_some hidx).2.2
  refine ⟨insertAt s ((s.heap t).period / s.tw.interval + s.tw.pos).toNat t, ?_,
    rfl, rfl, rfl, rfl, rfl, length_appendAt _ _ _, fun j => getD_appendAt _ _ _ _ hi⟩
  unfold AddTimer
  rw [hadd]
  simp only []
  rw [if_neg (by omega), if_neg hne, hidx]
  rfl

theorem AddTimer_appends_to_bucket_witness :
    ∃ s1, AddTimer resetIdle (demoState (demoWheel 0) ⟨3, 0⟩) 5 = .ok s1 ∧
      s1.fired = [] ∧ s1.tw.pos = 0 ∧ s1.tw.wheel.getD 3 [] = [5] := by
  obtain ⟨s1, h, hf, _, hp, _, _, _, hw⟩ :=
    AddTimer_appends_to_bucket resetIdle (demoState (demoWheel 0) ⟨3, 0⟩) 5
      demoWheel_WF ⟨by decide, by decide, by decide⟩ (by decide) (by decide)
  exact ⟨s1, h, hf, hp, (hw 3).trans (by decide)⟩

/-- C9 (as stated) fails: on an eight-bucket wheel with interval 1 and cursor 0, a timer of
period 8 has computed bucket 8, which does not exceed the bucket count and differs from the
cursor, yet `AddTimer` panics and appends the timer nowhere. -/
theorem AddTimer_appends_to_bucket_counterexample :
    (8 : Int) / (demoWheel 0).interval + (demoWheel 0).pos ≤ (demoWheel 0).wheelSize ∧
    (8 : Int) / (demoWheel 0).interval + (demoWheel 0).pos ≠ (demoWheel 0).pos ∧
    AddTimer resetIdle (demoState (demoWheel 0) ⟨8, 0⟩) 5 =
      .panic .indexOutOfRange (demoState (demoWheel 0) ⟨8, 0⟩) :=
  ⟨by decide, by decide, rfl⟩

/-- No step of the model leaves a closed channel in `tw.stop`, and a loop that has received
the stop signal still holds the channel it received from. -/
theorem Reachable_stop_not_closed {τ : Type} (initTimer tickTimer stopTimer : τ → τ)
    (w : Lifecycle τ) (h : Reachable initTimer tickTimer stopTimer w) :
    w.stop ≠ .closed ∧ (w.loop = .signalled → w.stop = .live) := by
  induction h with
  | zero tk => simp [zeroLifecycle]
  | init w _ hl ih => simp [Lifecycle.Init, hl]
  | start w _ ih =>
    unfold Lifecycle.Start
    split
    · rename_i hl
      refine ⟨ih.1, ?_⟩
      simp
    · exact ih
  | enter w _ ih =>
    unfold enterTick
    split
    · refine ⟨ih.1, ?_⟩
      simp
    · exact ih
  | leave w _ ih =>
    unfold leaveTick
    split
    · refine ⟨ih.1, ?_⟩
      simp
    · exact ih
  | stopCall w w1 b _ hs ih =>
    unfold Stop at hs
    cases hc : w.stop with
    | nil =>
      rw [hc] at hs
      simp only [Ran.done.injEq, Prod.mk.injEq] at hs
      rw [← hs.2]
      exact ih
    | closed => exact absurd hc ih.1
    | live =>
      rw [hc] at hs
      simp only at hs
      split at hs
      · simp only [Ran.done.injEq, Prod.mk.injEq] at hs
        rw [← hs.2]
        simp [hc]
      · simp only [Ran.done.injEq, Prod.mk.injEq] at hs
        rw [← hs.2]
        exact ⟨by simp, fun _ => rfl⟩
  | stopped w w1 _ hs ih =>
    unfold stopBranch at hs
    split at hs
    · rename_i hl
      have hc := ih.2 hl
      rw [hc] at hs
      simp only [Ran.done.injEq] at hs
      rw [← hs]
      simp
    · simp only [Ran.done.injEq] at hs
      rw [← hs]
      exact ih

/-- The stop branch of a reachable loop runs to its end. -/
theorem Reachable_stopBranch_done {τ : Type} (initTimer tickTimer stopTimer : τ → τ)
    (w : Lifecycle τ) (h : Reachable initTimer tickTimer stopTimer w) :
    ∃ w1, stopBranch stopTimer w = .done w1 := by
  have hw := Reachable_stop_not_closed initTimer tickTimer stopTimer w h
  unfold stopBranch
  split
  · rename_i hl
    rw [hw.2 hl]
    exact ⟨_, rfl⟩
  · exact ⟨_, rfl⟩

/-- C10 (amended): on every wheel whose stop channel is not a closed one (every wheel that
`Init`, `Start`, the loop and `Stop` produce), a call to `Stop` returns.  With a nil stop
channel it returns `alreadyStopped = true` and changes nothing.  The first `Stop` on a wheel
whose loop is running and blocked in its `select` returns `alreadyStopped = false`, stops
the ticker and hands the loop the stop signal, on which the loop clears the channel, stops
the ticker and returns; `Stop` after that returns `alreadyStopped = true` and changes
nothing.  A `Stop` that finds the loop not blocked in its `select` (not started, in the
middle of a tick, or already signalled) returns `alreadyStopped = true` and only stops the
ticker.  In every case a second `Stop` made before the loop takes another step returns
`alreadyStopped = true`, leaves the stop channel and the loop as the first call left them
and stops the ticker once more, so that the wheel is exactly as the first call left it when
stopping a stopped ticker changes nothing. -/
theorem Stop_twice_reports_already_stopped {τ : Type} (stopTimer : τ → τ)
    (w : Lifecycle τ) (hw : w.stop ≠ .closed) :
    ∃ b w1, Stop stopTimer w = .done (b, w1) ∧
      w1.stop = w.stop ∧
      (w.stop = .nil → b = true ∧ w1 = w) ∧
      (w.stop = .live → w.loop = .parked →
        b = false ∧
        w1 = { stop := .live, ticker := stopTimer w.ticker, loop := .signalled } ∧
        stopBranch stopTimer w1 =
          .done { stop := .nil, ticker := stopTimer (stopTimer w.ticker), loop := .idle } ∧
        Stop stopTimer { stop := .nil, ticker := stopTimer (stopTimer w.ticker), loop := .idle } =
          .done (true, { stop := .nil, ticker := stopTimer (stopTimer w.ticker),
                         loop := .idle })) ∧
      (w.stop = .live → w.loop ≠ .parked →
        b = true ∧ w1 = { stop := .live, ticker := stopTimer w.ticker, loop := w.loop }) ∧
      (∃ w2, Stop stopTimer w1 = .done (true, w2) ∧
        w2.stop = w1.stop ∧ w2.loop = w1.loop ∧
        (w.stop = .nil → w2 = w1) ∧
        (w.stop = .live → w2 = { w1 with ticker := stopTimer w1.ticker }) ∧
        ((∀ x, stopTimer (stopTimer x) = stopTimer x) → w2 = w1)) := by
  obtain ⟨c, tk, l⟩ := w
  cases c with
  | closed => exact absurd rfl hw
  | nil =>
    refine ⟨true, ⟨.nil, tk, l⟩, rfl, rfl, fun _ => ⟨rfl, rfl⟩, ?_, ?_, ?_⟩
    · intro h
      cases h
    · intro h
      cases h
    · exact ⟨⟨.nil, tk, l⟩, rfl, rfl, rfl, fun _ => rfl, fun h => (by cases h), fun _ => rfl⟩
  | live =>
    by_cases hl : l = .parked
    · subst hl
      refine ⟨false, ⟨.live, stopTimer tk, .signalled⟩, rfl, rfl, ?_, ?_, ?_, ?_⟩
      · intro h
        cases h
      · intro _ _
        exact ⟨rfl, rfl, rfl, rfl⟩
      · intro _ h
        exact absurd rfl h
      · refine ⟨⟨.live, stopTimer (stopTimer tk), .signalled⟩, rfl, rfl, rfl, ?_, ?_, ?_⟩
        · intro h
          cases h
        · intro _
          rfl
        · intro h
          simp only [h]
    · have hs : Stop stopTimer ⟨.live, tk, l⟩ = .done (true, ⟨.live, stopTimer tk, l⟩) := by
        simp [Stop, hl]
      have hs2 : Stop stopTimer ⟨.live, stopTimer tk, l⟩ =
          .done (true, ⟨.live, stopTimer (stopTimer tk), l⟩) := by
        simp [Stop, hl]
      refine ⟨true, ⟨.live, stopTimer tk, l⟩, hs, rfl, ?_, ?_, ?_, ?_⟩
      · intro h
        cases h
      · intro _ h
        exact absurd h hl
      · intro _ _
        exact ⟨rfl, rfl⟩
      · refine ⟨⟨.live, stopTimer (stopTimer tk), l⟩, hs2, rfl, rfl, ?_, ?_, ?_⟩
        · intro h
          cases h
        · intro _
          rfl
        · intro h
          simp only [h]

theorem Stop_twice_reports_already_stopped_witness :
    waitingWheel.stop ≠ .closed ∧
    ∃ b w1, Stop disarm waitingWheel = .done (b, w1) ∧ w1.stop = waitingWheel.stop ∧
      ∃ w2, Stop disarm w1 = .done (true, w2) ∧ w2 = w1 :=
  ⟨by decide,
   match Stop_twice_reports_already_stopped disarm waitingWheel (by decide) with
   | ⟨b, w1, h1, h2, _, _, _, w2, h3, _, _, _, _, h4⟩ =>
     ⟨b, w1, h1, h2, w2, h3, h4 (fun _ => rfl)⟩⟩

/-- C10 (as stated) fails.  On a wheel after `Init` and `Start` whose loop is in the middle
of a tick, where `Stop` is reached when a callback of a timer calls it or when another
goroutine does, the loop is running and the first `Stop` returns `alreadyStopped = true`:
nothing waits on `tw.stop`, the `default` case runs, and the loop keeps running.  When that
tick has ended and the loop is blocked in its `select` again, the second `Stop` returns
`alreadyStopped = false` and the wheel is not as the first call left it: the loop is now
signalled. -/
theorem Stop_during_tick_counterexample :
    Reachable disarm arm disarm tickingWheel ∧
    tickingWheel = { stop := .live, ticker := true, loop := .ticking } ∧
    Stop disarm tickingWheel =
      .done (true, { stop := .live, ticker := false, loop := .ticking }) ∧
    leaveTick ({ stop := .live, ticker := false, loop := .ticking } : Lifecycle Bool) =
      { stop := .live, ticker := false, loop := .parked } ∧
    Stop disarm ({ stop := .live, ticker := false, loop := .parked } : Lifecycle Bool) =
      .done (false, { stop := .live, ticker := false, loop := .signalled }) :=
  ⟨Reachable.enter _ (Reachable.start _ (Reachable.init _ (Reachable.zero false) rfl)),
   rfl, rfl, rfl, rfl⟩

end timer

namespace tcp

/-- C11: when `CheckSegment` returns an error `e`, `Receive` returns exactly `e` and the run is
unchanged: no handler call is recorded and no field of the stream (the status included) is
modified, whatever the status of the stream. -/
theorem Receive_rejects_invalid_segment {β : Type} (env : Env β) (r : Run β)
    (segment : Segment) (e : Error) (h : env.CheckSegment segment = some e) :
    Receive env r segment = (r, some e) := by
  unfold Receive
  rw [h]

theorem Receive_rejects_invalid_segment_witness :
    Receive sampleEnv { stream := sampleStream .Established .Open, trace := [] } [] =
      ({ stream := sampleStream .Established .Open, trace := [] }, some 7) :=
  Receive_rejects_invalid_segment sampleEnv _ [] 7 rfl

/-- C12: for a segment that passes `CheckSegment` and a stream whose status is one of the
eleven listed states, `Receive` calls exactly one handler, the one the `switch` gives for
the current status, once, on the stream and the segment it was given, and returns that
handler's stream and error; every listed state has a handler. -/
theorem Receive_dispatches_to_state_handler {β : Type} (env : Env β) (r : Run β)
    (segment : Segment) (hok : env.CheckSegment segment = none)
    (hst : r.stream.status ∈ listedStates) :
    (∃ h, handlerOf env r.stream.status = some h ∧
      Receive env r segment =
        ({ stream := (h r.stream segment).1,
           trace := r.trace ++ [Event.handler r.stream.status] },
         (h r.stream segment).2)) ∧
    (∀ st ∈ listedStates, (handlerOf env st).isSome = true) ∧
    (r.stream.status = .Listen →
      Receive env r segment = callHandler .Listen env.incomeSegmentOnListenState r segment) ∧
    (r.stream.status = .SynSent →
      Receive env r segment = callHandler .SynSent env.incomeSegmentOnSynSentState r segment) ∧
    (r.stream.status = .SynReceived →
      Receive env r segment =
        callHandler .SynReceived env.incomeSegmentOnSynReceivedState r segment) ∧
    (r.stream.status = .Established →
      Receive env r segment =
        callHandler .Established env.incomeSegmentOnEstablishedState r segment) ∧
    (r.stream.status = .FinWait1 →
      Receive env r segment = callHandler .FinWait1 env.incomeSegmentOnFinWait1State r segment) ∧
    (r.stream.status = .FinWait2 →
      Receive env r segment = callHandler .FinWait2 env.incomeSegmentOnFinWait2State r segment) ∧
    (r.stream.status = .Close →
      Receive env r segment = callHandler .Close env.incomeSegmentOnCloseState r segment) ∧
    (r.stream.status = .CloseWait →
      Receive env r segment =
        callHandler .CloseWait env.incomeSegmentOnCloseWaitState r segment) ∧
    (r.stream.status = .Closing →
      Receive env r segment = callHandler .Closing env.incomeSegmentOnClosingState r segment) ∧
    (r.stream.status = .LastAck →
      Receive env r segment = callHandler .LastAck env.incomeSegmentOnLastAckState r segment) ∧
    (r.stream.status = .TimeWait →
      Receive env r segment =
        callHandler .TimeWait env.incomeSegmentOnTimeWaitState r segment) := by
  refine ⟨?_, ?_, ?_⟩
  · unfold Receive
    rw [hok]
    simp only [listedStates, List.mem_cons, List.mem_singleton, List.not_mem_nil,
      or_false] at hst
    rcases hst with h | h | h | h | h | h | h | h | h | h | h <;>
      · rw [h]
        exact ⟨_, rfl, rfl⟩
  · intro st h
    simp only [listedStates, List.mem_cons, List.mem_singleton, List.not_mem_nil,
      or_false] at h
    rcases h with h | h | h | h | h | h | h | h | h | h | h <;> (subst h; rfl)
  · refine ⟨?_, ?_, ?_, ?_, ?_, ?_, ?_, ?_, ?_, ?_, ?_⟩ <;>
      · intro h
        unfold Receive
        rw [hok, h]

theorem Receive_dispatches_to_state_handler_witness :
    Receive sampleEnv { stream := sampleStream .Established .Open, trace := [] } [1] =
      ({ stream := sampleStream .Established .Open, trace := [Event.handler .Established] },
       none) := by
  obtain ⟨h, hh, hr⟩ :=
    (Receive_dispatches_to_state_handler sampleEnv
      { stream := sampleStream .Established .Open, trace := [] } [1] rfl (by decide)).1
  have e : h = sampleEnv.incomeSegmentOnEstablishedState := by
    have : handlerOf sampleEnv StreamStatus.Established =
        some sampleEnv.incomeSegmentOnEstablishedState := rfl
    have hh2 : handlerOf sampleEnv StreamStatus.Established = some h := hh
    rw [this] at hh2
    injection hh2 with hh2
    exact hh2.symm
  subst e
  exact hr

/-- C13: `Open` calls `sendSYN` exactly once, on the stream it was given, stores the status
`SynSent` in the stream `sendSYN` left (no other field is changed by `Open` itself), and
returns exactly the error, or success, of `sendSYN`. -/
theorem Open_sends_one_SYN {β : Type} (env : Env β) (r : Run β) :
    (Open env r).1.trace = r.trace ++ [Event.sendSYN] ∧
    (Open env r).1.stream.status = .SynSent ∧
    (Open env r).2 = (env.sendSYN r.stream).2 ∧
    (Open env r).1.stream = { (env.sendSYN r.stream).1 with status := .SynSent } :=
  ⟨rfl, rfl, rfl, rfl⟩

/-- C14: for every timeout, `Init` first writes the maximum segment size
`CNF_Segment_MaxSize` and the status `Listen` and changes no other field, then initialises
the timing block, the receive block and the send block, in that order: it stops at the first
error and returns it, and returns the result of the send block otherwise.  The stream on
return is given in full in each of the three cases: it holds the blocks exactly as the
initialisers that ran returned them, and a block whose initialiser did not run is as
`s.timing.Init(s)` left it.  The receive and send blocks are given the timeout, or
`CNF_KeepAlive_Idle` when the timeout is 0.  `s.timing.Init(s)` is handed the whole stream
with status `Listen`, and nothing after it writes the status or the maximum segment size:
on return they are what `s.timing.Init(s)` returned, hence `Listen` and
`CNF_Segment_MaxSize` when that call leaves the two fields of the stream it was given
alone. -/
theorem Init_sets_listen_and_inits_blocks {β : Type} (env : Env β) (r : Run β)
    (timeout : Int) :
    listenStream env r.stream =
      { r.stream with mss := env.CNF_Segment_MaxSize, status := .Listen } ∧
    effectiveTimeout env 0 = env.CNF_KeepAlive_Idle ∧
    (timeout ≠ 0 → effectiveTimeout env timeout = timeout) ∧
    (∀ e, (env.timingInit (listenStream env r.stream)).2 = some e →
      Init env r timeout =
        ({ stream := (env.timingInit (listenStream env r.stream)).1,
           trace := r.trace ++ [Event.timingInit] }, some e)) ∧
    ((env.timingInit (listenStream env r.stream)).2 = none →
      (∀ e, (env.recvInit (env.timingInit (listenStream env r.stream)).1.recv
          (effectiveTimeout env timeout)).2 = some e →
        Init env r timeout =
          ({ stream :=
               { mss := (env.timingInit (listenStream env r.stream)).1.mss,
                 status := (env.timingInit (listenStream env r.stream)).1.status,
                 State := (env.timingInit (listenStream env r.stream)).1.State,
                 timing := (env.timingInit (listenStream env r.stream)).1.timing,
                 recv := (env.recvInit (env.timingInit (listenStream env r.stream)).1.recv
                   (effectiveTimeout env timeout)).1,
                 send := (env.timingInit (listenStream env r.stream)).1.send,
                 rest := (env.timingInit (listenStream env r.stream)).1.rest },
             trace := r.trace ++ [Event.timingInit,
               Event.recvInit (effectiveTimeout env timeout)] }, some e)) ∧
      ((env.recvInit (env.timingInit (listenStream env r.stream)).1.recv
          (effectiveTimeout env timeout)).2 = none →
        Init env r timeout =
          ({ stream :=
               { mss := (env.timingInit (listenStream env r.stream)).1.mss,
                 status := (env.timingInit (listenStream env r.stream)).1.status,
                 State := (env.timingInit (listenStream env r.stream)).1.State,
                 timing := (env.timingInit (listenStream env r.stream)).1.timing,
                 recv := (env.recvInit (env.timingInit (listenStream env r.stream)).1.recv
                   (effectiveTimeout env timeout)).1,
                 send := (env.sendInit (env.timingInit (listenStream env r.stream)).1.send
                   (effectiveTimeout env timeout)).1,
                 rest := (env.timingInit (listenStream env r.stream)).1.rest },
             trace := r.trace ++ [Event.timingInit,
               Event.recvInit (effectiveTimeout env timeout),
               Event.sendInit (effectiveTimeout env timeout)] },
           (env.sendInit (env.timingInit (listenStream env r.stream)).1.send
             (effectiveTimeout env timeout)).2))) ∧
    (Init env r timeout).1.stream.status =
      (env.timingInit (listenStream env r.stream)).1.status ∧
    (Init env r timeout).1.stream.mss = (env.timingInit (listenStream env r.stream)).1.mss ∧
    (Init env r timeout).1.stream.timing =
      (env.timingInit (listenStream env r.stream)).1.timing ∧
    ((env.timingInit (listenStream env r.stream)).1.status =
        (listenStream env r.stream).status →
      (Init env r timeout).1.stream.status = .Listen) ∧
    ((env.timingInit (listenStream env r.stream)).1.mss = (listenStream env r.stream).mss →
      (Init env r timeout).1.stream.mss = env.CNF_Segment_MaxSize) := by
  have hst : (Init env r timeout).1.stream.status =
      (env.timingInit (listenStream env r.stream)).1.status := by
    unfold Init listenStream
    simp only []
    split
    · rfl
    · split <;> rfl
  have hmss : (Init env r timeout).1.stream.mss =
      (env.timingInit (listenStream env r.stream)).1.mss := by
    unfold Init listenStream
    simp only []
    split
    · rfl
    · split <;> rfl
  have htm : (Init env r timeout).1.stream.timing =
      (env.timingInit (listenStream env r.stream)).1.timing := by
    unfold Init listenStream
    simp only []
    split
    · rfl
    · split <;> rfl
  refine ⟨rfl, ?_, ?_, ?_, ?_, hst, hmss, htm, ?_, ?_⟩
  · simp [effectiveTimeout]
  · intro h
    simp [effectiveTimeout, h]
  · intro e he
    unfold listenStream at he
    simp [Init, he, listenStream]
  · intro ht
    unfold listenStream at ht
    refine ⟨?_, ?_⟩
    · intro e he
      unfold listenStream effectiveTimeout at he
      simp [Init, ht, he, effectiveTimeout, listenStream]
    · intro hr
      unfold listenStream effectiveTimeout at hr
      simp [Init, ht, hr, effectiveTimeout, listenStream]
  · intro h
    rw [hst, h]
    rfl
  · intro h
    rw [hmss, h]
    rfl

theorem Init_sets_listen_and_inits_blocks_witness :
    Init busyEnv { stream := sampleStream .Close .Open, trace := [] } 0 =
      ({ stream := { mss := 1460, status := .Listen, State := .Open,
                     timing := 1, recv := 7200, send := 7201, rest := 0 },
         trace := [Event.timingInit, Event.recvInit 7200, Event.sendInit 7200] }, none) ∧
    (Init busyEnv { stream := sampleStream .Close .Open, trace := [] } 0).1.stream.status =
      .Listen ∧
    (Init busyEnv { stream := sampleStream .Close .Open, trace := [] } 0).1.stream.mss =
      1460 :=
  ⟨((Init_sets_listen_and_inits_blocks busyEnv
      { stream := sampleStream .Close .Open, trace := [] } 0).2.2.2.2.1 rfl).2 rfl,
   (Init_sets_listen_and_inits_blocks busyEnv
      { stream := sampleStream .Close .Open, trace := [] } 0).2.2.2.2.2.2.2.2.1 rfl,
   (Init_sets_listen_and_inits_blocks busyEnv
      { stream := sampleStream .Close .Open, trace := [] } 0).2.2.2.2.2.2.2.2.2 rfl⟩

/-- C15 (amended): `Authorize` evaluates four checks in the fixed order user type, when,
which, where.  It returns success exactly when all four pass; otherwise it returns,
unchanged, the error of the first failing check and evaluates no later check.  A request
that passes the first three checks and is denied on the where check is reported with the
where check's error. -/
theorem Authorize_first_failure_wins {β : Type} (env : Env β) (s : Stream β) (now : Nat) :
    ((Authorize env s now).1 = none ↔
      (env.userTypeCheck s = none ∧ env.AuthorizeWhen s now = none ∧
       env.AuthorizeWhich s = none ∧ env.AuthorizeWhere s = none)) ∧
    (∀ e, env.userTypeCheck s = some e → Authorize env s now = (some e, [.userType])) ∧
    (∀ e, env.userTypeCheck s = none → env.AuthorizeWhen s now = some e →
      Authorize env s now = (some e, [.userType, .authWhen])) ∧
    (∀ e, env.userTypeCheck s = none → env.AuthorizeWhen s now = none →
      env.AuthorizeWhich s = some e →
      Authorize env s now = (some e, [.userType, .authWhen, .authWhich])) ∧
    (∀ e, env.userTypeCheck s = none → env.AuthorizeWhen s now = none →
      env.AuthorizeWhich s = none → env.AuthorizeWhere s = some e →
      Authorize env s now = (some e, [.userType, .authWhen, .authWhich, .authWhere])) ∧
    (env.userTypeCheck s = none → env.AuthorizeWhen s now = none →
      env.AuthorizeWhich s = none → env.AuthorizeWhere s = none →
      Authorize env s now = (none, [.userType, .authWhen, .authWhich, .authWhere])) := by
  refine ⟨?_, ?_, ?_, ?_, ?_, ?_⟩
  · unfold Authorize
    cases h1 : env.userTypeCheck s with
    | some e => simp
    | none =>
      cases h2 : env.AuthorizeWhen s now with
      | some e => simp
      | none =>
        cases h3 : env.AuthorizeWhich s with
        | some e => simp
        | none =>
          cases h4 : env.AuthorizeWhere s with
          | some e => simp
          | none => simp
  · intro e h1
    unfold Authorize
    rw [h1]
  · intro e h1 h2
    unfold Authorize
    rw [h1]
    simp only [h2]
  · intro e h1 h2 h3
    unfold Authorize
    rw [h1]
    simp only [h2, h3]
  · intro e h1 h2 h3 h4
    unfold Authorize
    rw [h1]
    simp only [h2, h3, h4]
  · intro h1 h2 h3 h4
    unfold Authorize
    rw [h1]
    simp only [h2, h3, h4]

/-- C15 (as stated) fails: with a user-type check that fails with error 3 while the when,
which and where checks all pass, `Authorize` does not return success; it returns error 3
and evaluates none of the when, which and where checks. -/
theorem Authorize_three_checks_counterexample :
    deniedUserEnv.AuthorizeWhen (sampleStream .Established .Open) 0 = none ∧
    deniedUserEnv.AuthorizeWhich (sampleStream .Established .Open) = none ∧
    deniedUserEnv.AuthorizeWhere (sampleStream .Established .Open) = none ∧
    Authorize deniedUserEnv (sampleStream .Established .Open) 0 =
      (some 3, [AuthCheck.userType]) :=
  ⟨rfl, rfl, rfl, rfl⟩

/-- C16: `ScheduleProcessingStream` does exactly one of two things.  When the state is
`Open` it records the hand-off `go st.callService()` and returns with the stream unchanged
(no `SetState` call).  Otherwise it makes no hand-off and calls `SetState` once with
`ReceivedCompletely`; when `SetState` stores the state it is given, the state of the stream
is `ReceivedCompletely` on return. -/
theorem ScheduleProcessingStream_two_ways {β : Type} (env : Env β) (r : Run β) :
    (r.stream.State = .Open →
      ScheduleProcessingStream env r =
        { stream := r.stream, trace := r.trace ++ [Event.goCallService] }) ∧
    (r.stream.State ≠ .Open →
      ScheduleProcessingStream env r =
        { stream := env.SetState r.stream .ReceivedCompletely,
          trace := r.trace ++ [Event.setState .ReceivedCompletely] } ∧
      ((∀ s v, (env.SetState s v).State = v) →
        (ScheduleProcessingStream env r).stream.State = .ReceivedCompletely)) := by
  refine ⟨?_, ?_⟩
  · intro h
    unfold ScheduleProcessingStream
    rw [if_pos h]
  · intro h
    have e : ScheduleProcessingStream env r =
        { stream := env.SetState r.stream .ReceivedCompletely,
          trace := r.trace ++ [Event.setState .ReceivedCompletely] } := by
      unfold ScheduleProcessingStream
      rw [if_neg h]
    refine ⟨e, fun hset => ?_⟩
    rw [e]
    exact hset _ _

theorem ScheduleProcessingStream_two_ways_witness :
    ScheduleProcessingStream sampleEnv
        { stream := sampleStream .Established .Open, trace := [] } =
      { stream := sampleStream .Established .Open, trace := [Event.goCallService] } ∧
    (ScheduleProcessingStream sampleEnv
        { stream := sampleStream .Established (.other 0), trace := [] }).stream.State =
      .ReceivedCompletely :=
  ⟨(ScheduleProcessingStream_two_ways sampleEnv
      { stream := sampleStream .Established .Open, trace := [] }).1 rfl,
   ((ScheduleProcessingStream_two_ways sampleEnv
      { stream := sampleStream .Established (.other 0), trace := [] }).2 (by decide)).2
      (fun _ _ => rfl)⟩

theorem Authorize_first_failure_wins_witness :
    Authorize deniedUserEnv (sampleStream .Established .Open) 0 =
      (some 3, [AuthCheck.userType]) ∧
    Authorize sampleEnv (sampleStream .Established .Open) 0 =
      (none, [.userType, .authWhen, .authWhich, .authWhere]) :=
  ⟨(Authorize_first_failure_wins deniedUserEnv (sampleStream .Established .Open) 0).2.1 3 rfl,
   (Authorize_first_failure_wins sampleEnv (sampleStream .Established .Open) 0).2.2.2.2.2
      rfl rfl rfl rfl⟩

end tcp

namespace json

theorem scan_append_hit (p : Nat → Bool) (a : List Nat) (c : Nat) (r : List Nat)
    (ha : ∀ x ∈ a, p x = false) (hc : p c = true) :
    scan p (a ++ c :: r) = some (a, c, r) := by
  induction a with
  | nil => simp [scan, hc]
  | cons x a ih =>
    have hx : p x = false := ha x (List.mem_cons_self _ _)
    have := ih (fun y hy => ha y (List.mem_cons_of_mem _ hy))
    simp [scan, hx, this]

theorem scan_none (p : Nat → Bool) (l : List Nat) (h : ∀ x ∈ l, p x = false) :
    scan p l = none := by
  induction l with
  | nil => rfl
  | cons x l ih =>
    have hx : p x = false := h x (List.mem_cons_self _ _)
    have := ih (fun y hy => h y (List.mem_cons_of_mem _ hy))
    simp [scan, hx, this]

theorem isEndToken_of_isDigit {c : Nat} (h : isDigit c = true) : isEndToken c = false := by
  simp only [isDigit, Bool.and_eq_true, decide_eq_true_eq] at h
  simp only [isEndToken, Bool.or_eq_false_iff, decide_eq_false_iff_not]
  omega

theorem TrimToDigit_of_digit (d : Decoder) (c : Nat) (r : List Nat) (hc : isDigit c = true)
    (hb : d.buf = c :: r) : TrimToDigit d = d := by
  unfold TrimToDigit
  rw [hb]
  simp only [scan, hc, if_true]
  cases d
  simp_all

theorem checkNullLoop_spaces (all : List Nat) (i : Nat) (spaces rest : List Nat) (null : Bool)
    (hs : ∀ c ∈ spaces, c = 32) :
    checkNullLoop all i (spaces ++ 34 :: rest) null = some false := by
  induction spaces generalizing i with
  | nil => simp [checkNullLoop]
  | cons x spaces ih =>
    have hx : x = 32 := hs x (List.mem_cons_self _ _)
    subst hx
    have := ih (i + 1) (fun y hy => hs y (List.mem_cons_of_mem _ hy))
    simp [checkNullLoop, this]

/-- C17 (what the code does where the claim fails): `TrimToDigit` removes a minus sign in
front of the digits, so `DecodeInt64` on a buffer `-` followed by a number returns what it
returns without the sign; on `-5,` it returns 5 with no error. -/
theorem DecodeInt64_ignores_minus_sign (d : Decoder) (c : Nat) (rest : List Nat)
    (hc : isDigit c = true) :
    DecodeInt64 { d with buf := 45 :: c :: rest } = DecodeInt64 { d with buf := c :: rest } ∧
    DecodeInt64 (freshDecoder [45, 53, 44]) =
      { value := 5, err := none,
        d := { buf := [44], spare := [], token := 44, lastItem := [53] } } := by
  refine ⟨?_, rfl⟩
  have h45 : isDigit 45 = false := rfl
  have e : TrimToDigit { d with buf := 45 :: c :: rest } =
      TrimToDigit { d with buf := c :: rest } := by
    unfold TrimToDigit
    simp [scan, h45, hc]
  unfold DecodeInt64
  rw [e]

theorem DecodeInt64_ignores_minus_sign_witness :
    DecodeInt64 { freshDecoder [] with buf := 45 :: 53 :: [44] } =
      DecodeInt64 { freshDecoder [] with buf := 53 :: [44] } :=
  (DecodeInt64_ignores_minus_sign (freshDecoder []) 53 [44] rfl).1

/-- C18 (what the code does where the claim fails): on a buffer made of a non-empty run of
digits which `StringToUint8Base10` reads as `n`, then `,` and `rest`, `DecodeUInt8` returns
`n` with no error and leaves the buffer at the comma: the buffer is `,` followed by `rest`,
not `rest`. -/
theorem DecodeUInt8_stops_at_comma (StringToUint8Base10 : List Nat → Nat × Bool)
    (d : Decoder) (text rest : List Nat) (n : Nat)
    (htext : ∀ c ∈ text, isDigit c = true) (hne : text ≠ [])
    (hparse : StringToUint8Base10 text = (n, false)) :
    DecodeUInt8 StringToUint8Base10 { d with buf := text ++ 44 :: rest } =
      { value := n, err := none,
        d := { d with buf := 44 :: rest, token := 44, lastItem := text } } := by
  obtain ⟨c, t, rfl⟩ := List.exists_cons_of_ne_nil hne
  have hc : isDigit c = true := htext c (List.mem_cons_self _ _)
  have h1 : TrimToDigit { d with buf := (c :: t) ++ 44 :: rest } =
      { d with buf := (c :: t) ++ 44 :: rest } :=
    TrimToDigit_of_digit _ c (t ++ 44 :: rest) hc rfl
  have h2 : scan isEndToken ((c :: t) ++ 44 :: rest) = some (c :: t, 44, rest) :=
    scan_append_hit isEndToken (c :: t) 44 rest
      (fun x hx => isEndToken_of_isDigit (htext x hx)) rfl
  unfold DecodeUInt8
  rw [h1]
  simp only [FindEndToken, h2, hparse]
  rfl

theorem DecodeUInt8_stops_at_comma_witness :
    DecodeUInt8 sampleUint8 { freshDecoder [] with buf := [50, 53, 53] ++ 44 :: [55] } =
      { value := 255, err := none,
        d := { freshDecoder [] with buf := 44 :: [55], token := 44, lastItem := [50, 53, 53] } } :=
  DecodeUInt8_stops_at_comma sampleUint8 (freshDecoder []) [50, 53, 53] [55] 255
    (by decide) (by decide) rfl

/-- C19 (what the code does where the claim fails): with a `StringToUint8Base10` that
rejects the empty text and reads `1` and `2`, `DecodeByteSliceAsNumber` on `1,2]x` returns
`[1, 2]` and leaves the buffer at the bracket (`]x`, not `x`), and on `]` (the empty list)
it returns `ErrEncodedSliceCorrupted`. -/
theorem DecodeByteSliceAsNumber_stays_at_bracket
    (StringToUint8Base10 : List Nat → Nat × Bool) (fuel : Nat)
    (h0 : (StringToUint8Base10 []).2 = true)
    (h1 : StringToUint8Base10 [49] = (1, false))
    (h2 : StringToUint8Base10 [50] = (2, false)) :
    DecodeByteSliceAsNumber StringToUint8Base10 (fuel + 3)
        (freshDecoder [49, 44, 50, 93, 120]) =
      some { value := [1, 2], err := none,
             d := { buf := [93, 120], spare := [], token := 0, lastItem := [] } } ∧
    DecodeByteSliceAsNumber StringToUint8Base10 (fuel + 1) (freshDecoder [93]) =
      some { value := [], err := some .ErrEncodedSliceCorrupted,
             d := { buf := [93], spare := [], token := 93, lastItem := [] } } := by
  constructor
  · simp [DecodeByteSliceAsNumber, sliceLoop, CheckToken, ResetToken, DecodeUInt8,
      FindEndToken, TrimToDigit, scan, isDigit, isEndToken, freshDecoder, h1, h2]
  · simp [DecodeByteSliceAsNumber, sliceLoop, CheckToken, DecodeUInt8,
      FindEndToken, TrimToDigit, scan, isDigit, isEndToken, freshDecoder, h0]

theorem DecodeByteSliceAsNumber_stays_at_bracket_witness :
    DecodeByteSliceAsNumber sampleUint8 3 (freshDecoder [49, 44, 50, 93, 120]) =
      some { value := [1, 2], err := none,
             d := { buf := [93, 120], spare := [], token := 0, lastItem := [] } } ∧
    DecodeByteSliceAsNumber sampleUint8 1 (freshDecoder [93]) =
      some { value := [], err := some .ErrEncodedSliceCorrupted,
             d := { buf := [93], spare := [], token := 93, lastItem := [] } } :=
  DecodeByteSliceAsNumber_stays_at_bracket sampleUint8 0 rfl rfl rfl

/-- C20 (amended): for every byte string `s` with no `"` byte and every `rest`,
`DecodeString` on a buffer made of spaces, `"`, `s`, `"` and `rest` returns `s` with no
error and leaves the buffer equal to `rest`; on a buffer made of spaces, `"` and `s` (the
value is opened and never closed) it returns `ErrEncodedStringCorrupted`. -/
theorem DecodeString_reads_quoted_value (d : Decoder) (spaces s rest : List Nat)
    (hsp : ∀ c ∈ spaces, c = 32) (hs : 34 ∉ s) :
    DecodeString { d with buf := spaces ++ 34 :: (s ++ 34 :: rest) } =
      some { value := s, err := none, d := { d with buf := rest } } ∧
    DecodeString { d with buf := spaces ++ 34 :: s } =
      some { value := [], err := some .ErrEncodedStringCorrupted,
             d := { d with buf := s } } := by
  have hq : ∀ x ∈ spaces, (x == 34) = false := by
    intro x hx
    rw [hsp x hx]
    rfl
  have hsq : ∀ x ∈ s, (x == 34) = false := by
    intro x hx
    have : x ≠ 34 := fun e => hs (e ▸ hx)
    simpa using this
  constructor
  · have hn : CheckNullValue { d with buf := spaces ++ 34 :: (s ++ 34 :: rest) } = some false :=
      checkNullLoop_spaces _ 0 spaces _ false hsp
    have ht : scan (fun c => c == 34) (spaces ++ 34 :: (s ++ 34 :: rest)) =
        some (spaces, 34, s ++ 34 :: rest) :=
      scan_append_hit _ spaces 34 _ hq rfl
    have hi : scan (fun c => c == 34) (s ++ 34 :: rest) = some (s, 34, rest) :=
      scan_append_hit _ s 34 rest hsq rfl
    unfold DecodeString
    rw [hn]
    simp only [TrimToStringStart, ht, IndexByte, hi]
    rw [if_neg (by omega)]
    simp
  · have hn : CheckNullValue { d with buf := spaces ++ 34 :: s } = some false :=
      checkNullLoop_spaces _ 0 spaces _ false hsp
    have ht : scan (fun c => c == 34) (spaces ++ 34 :: s) = some (spaces, 34, s) :=
      scan_append_hit _ spaces 34 _ hq rfl
    have hi : scan (fun c => c == 34) s = none := scan_none _ s hsq
    unfold DecodeString
    rw [hn]
    simp only [TrimToStringStart, ht, IndexByte, hi]
    rw [if_pos (by decide)]

theorem DecodeString_reads_quoted_value_witness :
    DecodeString { freshDecoder [] with buf := [32] ++ 34 :: ([97, 98] ++ 34 :: [44]) } =
      some { value := [97, 98], err := none, d := { freshDecoder [] with buf := [44] } } ∧
    DecodeString { freshDecoder [] with buf := [32] ++ 34 :: [97, 98] } =
      some { value := [], err := some .ErrEncodedStringCorrupted,
             d := { freshDecoder [] with buf := [97, 98] } } :=
  DecodeString_reads_quoted_value (freshDecoder []) [32] [97, 98] [44]
    (by decide) (by decide)

/-- C20 (as stated) fails: the buffer `null,` has no closing quote for the value, yet
`DecodeString` returns the empty string with no error (and leaves the buffer as it is). -/
theorem DecodeString_missing_quote_counterexample :
    34 ∉ [110, 117, 108, 108, 44] ∧
    DecodeString (freshDecoder [110, 117, 108, 108, 44]) =
      some { value := [], err := none, d := freshDecoder [110, 117, 108, 108, 44] } :=
  ⟨by decide, rfl⟩

theorem scan_some_spec {p : Nat → Bool} {l a r : List Nat} {c : Nat}
    (h : scan p l = some (a, c, r)) :
    l = a ++ c :: r ∧ p c = true ∧ ∀ x ∈ a, p x = false := by
  induction l generalizing a with
  | nil => simp [scan] at h
  | cons x l ih =>
    unfold scan at h
    by_cases hx : p x = true
    · rw [if_pos hx] at h
      injection h with h
      injection h with h1 h2
      injection h2 with h2 h3
      subst h1 h2 h3
      exact ⟨rfl, hx, fun y hy => by cases hy⟩
    · rw [if_neg hx] at h
      cases hs : scan p l with
      | none => rw [hs] at h; cases h
      | some t =>
        obtain ⟨a1, c1, r1⟩ := t
        rw [hs] at h
        injection h with h
        injection h with h1 h2
        injection h2 with h2 h3
        subst h1 h2 h3
        obtain ⟨e1, e2, e3⟩ := ih hs
        refine ⟨by rw [e1]; rfl, e2, fun y hy => ?_⟩
        rcases List.mem_cons.mp hy with rfl | hy
        · simpa using hx
        · exact e3 y hy

theorem IndexByte_range (buf : List Nat) (b : Nat) :
    IndexByte buf b = -1 ∨ (0 ≤ IndexByte buf b ∧ IndexByte buf b < (buf.length : Int)) := by
  unfold IndexByte
  cases h : scan (fun c => c == b) buf with
  | none => exact Or.inl rfl
  | some t =>
    obtain ⟨a, c, r⟩ := t
    right
    obtain ⟨e, _, _⟩ := scan_some_spec h
    simp only []
    rw [e]
    simp only [List.length_append, List.length_cons]
    omega

theorem IndexByte_hit (a r : List Nat) (b : Nat) (ha : b ∉ a) :
    IndexByte (a ++ b :: r) b = (a.length : Int) := by
  unfold IndexByte
  rw [scan_append_hit (fun c => c == b) a b r
    (fun x hx => by
      have : x ≠ b := fun e => ha (e ▸ hx)
      simpa using this) (by simp)]

theorem IndexByte_miss (l : List Nat) (b : Nat) (h : b ∉ l) : IndexByte l b = -1 := by
  unfold IndexByte
  rw [scan_none (fun c => c == b) l
    (fun x hx => by
      have : x ≠ b := fun e => h (e ▸ hx)
      simpa using this)]

/-- C21: `DecodeKey` never panics: on every buffer each of its slice expressions is within
bounds and it returns.  On a buffer `pre " key " mid : rest`, with no `"` in `pre` or `key`
and no `:` in `mid`, it returns `key` and leaves the buffer equal to `rest`.  On a buffer
with at most one `"` (no closing quote) it returns the empty string. -/
theorem DecodeKey_is_safe (d : Decoder) :
    (∃ key d1, DecodeKey d = some (key, d1)) ∧
    (∀ pre key mid rest, d.buf = pre ++ 34 :: (key ++ 34 :: (mid ++ 58 :: rest)) →
      34 ∉ pre → 34 ∉ key → 58 ∉ mid →
      DecodeKey d = some (key, { d with buf := rest })) ∧
    (d.buf.count 34 ≤ 1 → ∃ d1, DecodeKey d = some ([], d1)) := by
  refine ⟨?_, ?_, ?_⟩
  · unfold DecodeKey
    simp only []
    generalize (TrimToStringStart d) = d1
    by_cases hloc : IndexByte d1.buf 34 < 0
    · rw [if_pos hloc]
      exact ⟨_, _, rfl⟩
    · rw [if_neg hloc]
      have hr := IndexByte_range d1.buf 34
      have h1 : sliceTo d1.buf (IndexByte d1.buf 34) =
          some (d1.buf.take (IndexByte d1.buf 34).toNat) := by
        unfold sliceTo
        rw [if_pos (by omega)]
      have h2 : sliceFrom d1.buf (IndexByte d1.buf 34 + 1) =
          some (d1.buf.drop (IndexByte d1.buf 34 + 1).toNat) := by
        unfold sliceFrom
        rw [if_pos (by omega)]
      rw [h1, h2]
      simp only []
      generalize d1.buf.drop (IndexByte d1.buf 34 + 1).toNat = b2
      have hr2 := IndexByte_range b2 58
      have h3 : sliceFrom b2 (IndexByte b2 58 + 1) =
          some (b2.drop (IndexByte b2 58 + 1).toNat) := by
        unfold sliceFrom
        rw [if_pos (by omega)]
      rw [h3]
      exact ⟨_, _, rfl⟩
  · intro pre key mid rest hbuf hpre hkey hmid
    have hq : ∀ x ∈ pre, (x == 34) = false := by
      intro x hx
      have : x ≠ 34 := fun e => hpre (e ▸ hx)
      simpa using this
    have ht : TrimToStringStart d = { d with buf := key ++ 34 :: (mid ++ 58 :: rest) } := by
      unfold TrimToStringStart
      rw [hbuf, scan_append_hit _ pre 34 _ hq rfl]
    have hi : IndexByte (key ++ 34 :: (mid ++ 58 :: rest)) 34 = (key.length : Int) :=
      IndexByte_hit key _ 34 hkey
    have hi2 : IndexByte (mid ++ 58 :: rest) 58 = (mid.length : Int) :=
      IndexByte_hit mid rest 58 hmid
    unfold DecodeKey
    simp only [ht, hi]
    rw [if_neg (by omega)]
    have h1 : sliceTo (key ++ 34 :: (mid ++ 58 :: rest)) (key.length : Int) = some key := by
      unfold sliceTo
      rw [if_pos ⟨by omega, by simp only [List.length_append, List.length_cons]; push_cast; omega⟩]
      simp
    have h2 : sliceFrom (key ++ 34 :: (mid ++ 58 :: rest)) ((key.length : Int) + 1) =
        some (mid ++ 58 :: rest) := by
      unfold sliceFrom
      rw [if_pos ⟨by omega, by simp only [List.length_append, List.length_cons]; push_cast; omega⟩]
      have : ((key.length : Int) + 1).toNat = key.length + 1 := by omega
      rw [this]
      simp
    rw [h1, h2]
    simp only [hi2]
    have h3 : sliceFrom (mid ++ 58 :: rest) ((mid.length : Int) + 1) = some rest := by
      unfold sliceFrom
      rw [if_pos ⟨by omega, by simp only [List.length_append, List.length_cons]; push_cast; omega⟩]
      have : ((mid.length : Int) + 1).toNat = mid.length + 1 := by omega
      rw [this]
      simp
    rw [h3]
  · intro hcount
    unfold DecodeKey
    simp only []
    have hmiss : IndexByte (TrimToStringStart d).buf 34 = -1 := by
      unfold TrimToStringStart
      cases hs : scan (fun c => c == 34) d.buf with
      | none =>
        simp only []
        unfold IndexByte
        rw [hs]
      | some t =>
        obtain ⟨a, c, r⟩ := t
        obtain ⟨e, hc, _⟩ := scan_some_spec hs
        have hc34 : c = 34 := by simpa using hc
        subst hc34
        simp only []
        apply IndexByte_miss
        rw [e, List.count_append, List.count_cons_self] at hcount
        exact List.count_eq_zero.mp (by omega)
    rw [hmiss, if_pos (by decide)]
    exact ⟨_, rfl⟩

theorem DecodeKey_is_safe_witness :
    DecodeKey (freshDecoder ([123] ++ 34 :: ([97] ++ 34 :: ([32] ++ 58 :: [49])))) =
      some ([97], { freshDecoder ([123] ++ 34 :: ([97] ++ 34 :: ([32] ++ 58 :: [49])))
                    with buf := [49] }) ∧
    (∃ d1, DecodeKey (freshDecoder [34, 97]) = some ([], d1)) :=
  ⟨(DecodeKey_is_safe (freshDecoder ([123] ++ 34 :: ([97] ++ 34 :: ([32] ++ 58 :: [49]))))).2.1
      [123] [97] [32] [49] rfl (by decide) (by decide) (by decide),
   (DecodeKey_is_safe (freshDecoder [34, 97])).2.2 (by decide)⟩

end json

namespace service

theorem found_none : found none = (none, some Error.ErrNotFound) := rfl

theorem found_fst_none {ser : Option Service} (h : (found ser).1 = none) : ser = none := by
  cases ser with
  | none => rfl
  | some s => simp [found] at h

/-- What `RegisterService` does on an initialised registry where the three lookups for the
identifiers of `s` find nothing (`s` has an ID or a URI): the resulting registry. -/
theorem RegisterService_fresh (ss : Services) (s : Service) (f : Nat → Option Service)
    (g u : String → Option Service) (hf : ss.poolByID = some f)
    (hg : ss.poolByMediaType = some g) (hu : ss.poolByURIPath = some u)
    (hsome : ¬ (s.ID = 0 ∧ s.URI = ""))
    (hid : f s.ID = none) (hmt : g s.MediaType = none) (huri : u s.URI = none) :
    RegisterService ss s =
      .ok ({ poolByRegisterTime := ss.poolByRegisterTime ++ [some s],
             poolByID := some (Function.update f s.ID (some s)),
             poolByMediaType :=
               if s.URI ≠ "" then
                 some (Function.update (Function.update g s.MediaType (some s)) s.URI (some s))
               else some (Function.update g s.MediaType (some s)),
             poolByURIPath := some u }, none) := by
  obtain ⟨rt, byID, byMT, byURI⟩ := ss
  simp only at hf hg hu
  subst hf hg hu
  unfold RegisterService
  rw [if_neg hsome]
  by_cases hne : s.URI ≠ ""
  · simp [registerServiceByMediaType, registerServiceByURI, GetServiceByID,
      GetServiceByMediaType, GetServiceByURI, mapGet, mapSet, found, hid, hmt, huri, hne]
  · simp [registerServiceByMediaType, registerServiceByURI, GetServiceByID,
      GetServiceByMediaType, GetServiceByURI, mapGet, mapSet, found, hid, hmt, hne]

theorem Initialised_maps {ss : Services} (h : Initialised ss) :
    ∃ f g u, ss.poolByID = some f ∧ ss.poolByMediaType = some g ∧ ss.poolByURIPath = some u := by
  obtain ⟨h1, h2, h3⟩ := h
  obtain ⟨f, hf⟩ := Option.ne_none_iff_exists'.mp h1
  obtain ⟨g, hg⟩ := Option.ne_none_iff_exists'.mp h2
  obtain ⟨u, hu⟩ := Option.ne_none_iff_exists'.mp h3
  exact ⟨f, g, u, hf, hg, hu⟩

theorem Init_Initialised (ss : Services) : Initialised (Init ss) :=
  ⟨Option.some_ne_none _, Option.some_ne_none _, Option.some_ne_none _⟩

/-- C22: for a service whose ID is 0 and whose URI is empty, `RegisterService` returns
`ErrServiceNotProvideIdentifier` and the registry is unchanged (every pool).  For any other
service, on an initialised registry where the lookups by its ID, its media type and its URI
find nothing, `RegisterService` returns no error. -/
theorem RegisterService_needs_identifier (ss : Services) (s : Service) :
    (s.ID = 0 ∧ s.URI = "" →
      RegisterService ss s = .ok (ss, some .ErrServiceNotProvideIdentifier)) ∧
    (¬ (s.ID = 0 ∧ s.URI = "") → Initialised ss →
      (GetServiceByID ss s.ID).1 = none → (GetServiceByMediaType ss s.MediaType).1 = none →
      (GetServiceByURI ss s.URI).1 = none →
      ∃ ss1, RegisterService ss s = .ok (ss1, none)) := by
  refine ⟨?_, ?_⟩
  · intro h
    unfold RegisterService
    rw [if_pos h]
  · intro hsome hinit hid hmt huri
    obtain ⟨f, g, u, hf, hg, hu⟩ := Initialised_maps hinit
    have hid2 : f s.ID = none := by
      have := found_fst_none hid
      rw [hf] at this
      exact this
    have hmt2 : g s.MediaType = none := by
      have := found_fst_none hmt
      rw [hg] at this
      exact this
    have huri2 : u s.URI = none := by
      have := found_fst_none huri
      rw [hu] at this
      exact this
    exact ⟨_, RegisterService_fresh ss s f g u hf hg hu hsome hid2 hmt2 huri2⟩

theorem RegisterService_needs_identifier_witness :
    RegisterService (Init zeroServices) anonymousService =
      .ok (Init zeroServices, some .ErrServiceNotProvideIdentifier) ∧
    ∃ ss1, RegisterService (Init zeroServices) sampleService = .ok (ss1, none) :=
  ⟨(RegisterService_needs_identifier (Init zeroServices) anonymousService).1 (by decide),
   (RegisterService_needs_identifier (Init zeroServices) sampleService).2 (by decide)
     (Init_Initialised zeroServices) rfl rfl rfl⟩

/-- C23 (what the code does where the claim fails): on an initialised registry where the
lookups by the ID, the media type and the URI of `s` find nothing, and `s` has a non-empty
URI, `RegisterService` returns no error; afterwards the lookups by ID and by media type
return `s`, but `poolByURIPath` is unchanged, so the lookup by the URI of `s` returns
`ErrNotFound`, while the lookup by media type with the URI as key returns `s`. -/
theorem RegisterService_URI_stored_in_media_types (ss : Services) (s : Service)
    (hinit : Initialised ss) (hne : s.URI ≠ "")
    (hid : (GetServiceByID ss s.ID).1 = none)
    (hmt : (GetServiceByMediaType ss s.MediaType).1 = none)
    (huri : (GetServiceByURI ss s.URI).1 = none) :
    ∃ ss1, RegisterService ss s = .ok (ss1, none) ∧
      GetServiceByID ss1 s.ID = (some s, none) ∧
      GetServiceByMediaType ss1 s.MediaType = (some s, none) ∧
      ss1.poolByURIPath = ss.poolByURIPath ∧
      GetServiceByURI ss1 s.URI = (none, some .ErrNotFound) ∧
      GetServiceByMediaType ss1 s.URI = (some s, none) := by
  obtain ⟨f, g, u, hf, hg, hu⟩ := Initialised_maps hinit
  have hid2 : f s.ID = none := by
    have := found_fst_none hid
    rw [hf] at this
    exact this
  have hmt2 : g s.MediaType = none := by
    have := found_fst_none hmt
    rw [hg] at this
    exact this
  have huri2 : u s.URI = none := by
    have := found_fst_none huri
    rw [hu] at this
    exact this
  have hsome : ¬ (s.ID = 0 ∧ s.URI = "") := fun h => hne h.2
  refine ⟨_, RegisterService_fresh ss s f g u hf hg hu hsome hid2 hmt2 huri2, ?_, ?_, ?_, ?_, ?_⟩
  · simp [GetServiceByID, mapGet, found]
  · by_cases e : s.MediaType = s.URI
    · simp only [GetServiceByMediaType, mapGet, if_pos hne]
      rw [e, Function.update_same]
      rfl
    · simp [GetServiceByMediaType, mapGet, found, hne, Function.update_noteq e]
  · exact hu.symm
  · simp [GetServiceByURI, mapGet, found, huri2]
  · simp [GetServiceByMediaType, mapGet, found, hne]

theorem RegisterService_URI_stored_in_media_types_witness :
    ∃ ss1, RegisterService (Init zeroServices) sampleService = .ok (ss1, none) ∧
      GetServiceByURI ss1 sampleService.URI = (none, some .ErrNotFound) ∧
      GetServiceByMediaType ss1 sampleService.URI = (some sampleService, none) := by
  obtain ⟨ss1, h, _, _, _, h4, h5⟩ :=
    RegisterService_URI_stored_in_media_types (Init zeroServices) sampleService
      (Init_Initialised zeroServices) (by decide) rfl rfl rfl
  exact ⟨ss1, h, h4, h5⟩

end service
